import Mathlib

/-!
# Detective Quest: Clue Index, Lookup Table and verdict

A shallow embedding of the three C programs of the repository
(`nivelNovato/novato.c`, `nivelAventureiro/aventureiro.c`, `nivelMestre/mestre.c`).

Conventions of the embedding.

* A C string is the list of its bytes before the terminating NUL, each byte taken
  as its unsigned value (`CStr`).  Plain `char` is signed and 8 bits wide and
  `unsigned long` is 64 bits wide, as on x86-64 Linux.  Strings are assumed to fit the fixed buffers
  (`char[100]`, `char[50]`) they are copied into by `strcpy`; buffer overruns are
  not represented.
* A `NULL` pointer to a tree node or chain node is the empty tree / empty list.
* Functions that mutate through a pointer return the new value instead.
* A bucket access outside the `HASH_SIZE` array is undefined behaviour in C; the
  embedding returns `none` there.
-/

namespace DetectiveQuest

/-! ## Strings -/

/-- A C string: its bytes before the terminating NUL. -/
abbrev CStr := List Nat

/-- The bytes of a 7-bit text written as a Lean string literal. -/
def cstr (s : String) : CStr := s.toList.map Char.toNat

/-- The libc `strcmp`: byte-wise lexicographic comparison, bytes compared as unsigned
values.  Only the sign of the result is specified by the C standard; the embedding
returns `-1`, `0` or `1`. -/
def strcmp : CStr → CStr → Int
  | [], [] => 0
  | [], _ :: _ => -1
  | _ :: _, [] => 1
  | a :: as, b :: bs => if a < b then -1 else if b < a then 1 else strcmp as bs

/-- The libc `strlen`. -/
def strlen (s : CStr) : Nat := s.length

/-! ## Clue Index (aventureiro.c and mestre.c) -/

/-- The `struct PistaNode` of aventureiro.c and mestre.c (identical in both files):
`null` is the `NULL` pointer, `node` a node with its key and two children. -/
inductive PistaNode where
  | null : PistaNode
  | node (pista : CStr) (esquerda direita : PistaNode) : PistaNode
  deriving DecidableEq, Repr

/-- The function `inserirPista` of aventureiro.c (lines 195-220). -/
def inserirPista : PistaNode → CStr → PistaNode
  | .null, novaPista => .node novaPista .null .null
  | .node pista esquerda direita, novaPista =>
    let comparacao := strcmp novaPista pista
    if comparacao < 0 then
      .node pista (inserirPista esquerda novaPista) direita
    else if comparacao > 0 then
      .node pista esquerda (inserirPista direita novaPista)
    else
      .node pista esquerda direita

/-- The function `adicionarPista` of mestre.c (lines 163-178). -/
def adicionarPista : PistaNode → CStr → PistaNode
  | .null, novaPista => .node novaPista .null .null
  | .node pista esquerda direita, novaPista =>
    let cmp := strcmp novaPista pista
    if cmp < 0 then
      .node pista (adicionarPista esquerda novaPista) direita
    else if cmp > 0 then
      .node pista esquerda (adicionarPista direita novaPista)
    else
      .node pista esquerda direita

/-- The function `exibirPistas` (aventureiro.c lines 230-236, mestre.c lines 296-302):
the list of the keys in the order in which they are printed (left, node, right). -/
def exibirPistas : PistaNode → List CStr
  | .null => []
  | .node pista esquerda direita => exibirPistas esquerda ++ pista :: exibirPistas direita

/-- The search-tree invariant of the Clue Index: at every node, every key of the left
subtree compares less than the node's key and every key of the right subtree compares
greater. -/
def ordenada : PistaNode → Prop
  | .null => True
  | .node pista esquerda direita =>
    (∀ x ∈ exibirPistas esquerda, strcmp x pista < 0) ∧
    (∀ x ∈ exibirPistas direita, strcmp x pista > 0) ∧
    ordenada esquerda ∧ ordenada direita

/-- The invariant is decidable. -/
instance decOrdenada : (t : PistaNode) → Decidable (ordenada t)
  | .null => inferInstanceAs (Decidable True)
  | .node pista esquerda direita =>
    have := decOrdenada esquerda
    have := decOrdenada direita
    inferInstanceAs (Decidable ((∀ x ∈ exibirPistas esquerda, strcmp x pista < 0) ∧
      (∀ x ∈ exibirPistas direita, strcmp x pista > 0) ∧
      ordenada esquerda ∧ ordenada direita))

/-- Number of nodes of a Clue Index. -/
def numNos : PistaNode → Nat
  | .null => 0
  | .node _ esquerda direita => numNos esquerda + 1 + numNos direita

/-- Whether `k` is the key of a node on the path that an insertion of `k` follows:
from the root, left when `k` compares less, right when it compares greater. -/
def naRota : PistaNode → CStr → Bool
  | .null, _ => false
  | .node pista esquerda direita, k =>
    if strcmp k pista < 0 then naRota esquerda k
    else if strcmp k pista > 0 then naRota direita k
    else true

/-- The Clue Index after the clues of a list are inserted one by one, in the order
of the list, into the empty index with `inserirPista`. -/
def inserirTodas (ks : List CStr) : PistaNode := ks.foldl inserirPista .null

/-- The Clue Index after the clues of a list are inserted one by one, in the order
of the list, into the empty index with `adicionarPista`. -/
def adicionarTodas (ks : List CStr) : PistaNode := ks.foldl adicionarPista .null

/-- Depth of a Clue Index: the number of nodes on its longest path from the root down
(0 for the empty index). -/
def profundidade : PistaNode → Nat
  | .null => 0
  | .node _ esquerda direita => max (profundidade esquerda) (profundidade direita) + 1

/-- Whether every node of a Clue Index has an empty left child (the index is a right
spine). -/
def semEsquerda : PistaNode → Bool
  | .null => true
  | .node _ .null direita => semEsquerda direita
  | .node _ (.node _ _ _) _ => false

/-! ## Lookup Table (mestre.c) -/

/-- The constant `HASH_SIZE` of mestre.c (line 9). -/
abbrev HASH_SIZE : Nat := 10

/-- Width in bits of the type `unsigned long` of the accumulator of `hashFunction`
(64 on LP64 platforms). -/
abbrev ULONG_BITS : Nat := 64

/-- The `struct HashNode` of mestre.c: key and value of one entry.  The field `next`
is the tail of the list that holds the entry, and a chain is a `List HashNode`. -/
structure HashNode where
  pista : CStr
  suspeito : CStr
  deriving DecidableEq, Repr

/-- The array `HashNode* tabela[HASH_SIZE]`: one chain for each of the `HASH_SIZE`
buckets. -/
abbrev Tabela := Fin HASH_SIZE → List HashNode

/-- The table as `main` of mestre.c initialises it (lines 84-86): every bucket `NULL`. -/
def tabelaVazia : Tabela := fun _ => []

/-- The value of a plain `char` that holds the byte `b`.  Plain `char` is signed and 8
bits wide (as on x86-64): a byte from 128 on is the negative value `b - 256`. -/
def valorChar (b : Nat) : Int := if b < 128 then (b : Int) else (b : Int) - 256

/-- The value that `hash += c` adds to the `unsigned long` accumulator for `int c` read
from a plain `char` that holds the byte `b`: `c` itself when it is not negative, and
`2 ^ ULONG_BITS + c` (the conversion of a negative `int` to `unsigned long`) when it is. -/
def charParaULong (b : Nat) : Nat := if b < 128 then b else 2 ^ ULONG_BITS - 256 + b

/-- The loop `while ((c = *str++)) hash += c;` of `hashFunction` (mestre.c lines
256-258): it stops at the terminating NUL, and the `unsigned long` accumulator wraps at
`2 ^ ULONG_BITS`. -/
def acumularHash : Nat → CStr → Nat
  | hash, [] => hash
  | hash, b :: str =>
    if b = 0 then hash
    else acumularHash ((hash + charParaULong b) % 2 ^ ULONG_BITS) str

/-- The function `hashFunction` of mestre.c (lines 253-260): the accumulated sum
reduced modulo `HASH_SIZE`. -/
def hashFunction (str : CStr) : Nat :=
  acumularHash 0 str % HASH_SIZE

/-- The bucket of a key: the value of `hashFunction` as an index into the array. -/
def indice (pista : CStr) : Fin HASH_SIZE :=
  ⟨hashFunction pista, Nat.mod_lt _ (Nat.succ_pos 9)⟩

/-- The function `inserirNaHash` of mestre.c (lines 184-195); `none` is an access
outside the array. -/
def inserirNaHash (tabela : Tabela) (pista suspeito : CStr) : Option Tabela :=
  let index := hashFunction pista
  if h : index < HASH_SIZE then
    let novoNode : HashNode := { pista := pista, suspeito := suspeito }
    some (Function.update tabela ⟨index, h⟩ (novoNode :: tabela ⟨index, h⟩))
  else
    none

/-- The `while (atual != NULL)` loop of `encontrarSuspeito` (mestre.c lines 205-211)
over one chain; `none` is the `NULL` result. -/
def percorrerCadeia : List HashNode → CStr → Option CStr
  | [], _ => none
  | atual :: next, pista =>
    if strcmp atual.pista pista = 0 then some atual.suspeito
    else percorrerCadeia next pista

/-- The function `encontrarSuspeito` of mestre.c (lines 201-212).  The outer `none` is
an access outside the array; `some none` is the result `NULL` (not found) and
`some (some s)` the suspect found. -/
def encontrarSuspeito (tabela : Tabela) (pista : CStr) : Option (Option CStr) :=
  let index := hashFunction pista
  if h : index < HASH_SIZE then
    some (percorrerCadeia (tabela ⟨index, h⟩) pista)
  else
    none

/-- A finite sequence of `inserirNaHash` calls, `(key, value)` by `(key, value)`, in the
order of the list. -/
def inserirSequencia : Tabela → List (CStr × CStr) → Option Tabela
  | tabela, [] => some tabela
  | tabela, (pista, suspeito) :: ops =>
    match inserirNaHash tabela pista suspeito with
    | some t => inserirSequencia t ops
    | none => none

/-! ## Verdict (mestre.c) -/

/-- The function `getSuspeitoParaPista` of mestre.c (lines 265-272); `none` is `NULL`. -/
def getSuspeitoParaPista (pista : CStr) : Option CStr :=
  if strcmp pista (cstr "Um candelabro de prata polido, fora do lugar.") = 0 then
    some (cstr "Mordomo")
  else if strcmp pista (cstr "Pegadas de sapatos caros na lama.") = 0 then
    some (cstr "Dama_da_noite")
  else if strcmp pista (cstr "Uma faca de cozinha faltando no conjunto.") = 0 then
    some (cstr "Cozinheira")
  else if strcmp pista (cstr "Uma carta de ameaca enderecada a vitima.") = 0 then
    some (cstr "Dama_da_noite")
  else if strcmp pista (cstr "Um livro sobre venenos com uma pagina marcada.") = 0 then
    some (cstr "Mordomo")
  else
    none

/-- The function `contarPistasParaSuspeito` of mestre.c (lines 277-291).  The count is
a natural number (the C `int` cannot overflow below `2 ^ 31` nodes); `none` is an access
outside the bucket array. -/
def contarPistasParaSuspeito : PistaNode → Tabela → CStr → Option Nat
  | .null, _, _ => some 0
  | .node pista esquerda direita, tabelaHash, suspeito =>
    match encontrarSuspeito tabelaHash pista with
    | none => none
    | some suspeitoEncontrado =>
      let count : Nat :=
        match suspeitoEncontrado with
        | some s => if strcmp s suspeito = 0 then 1 else 0
        | none => 0
      match contarPistasParaSuspeito esquerda tabelaHash suspeito,
            contarPistasParaSuspeito direita tabelaHash suspeito with
      | some ne, some nd => some (count + ne + nd)
      | _, _ => none

/-- The libc `isspace` in the C locale. -/
def isspace (c : Nat) : Bool := c == 32 || (9 ≤ c && c ≤ 13)

/-- The call `scanf("%49s", acusado)` on the bytes left on standard input: skips white
space, then reads at most 49 bytes up to the next white space into the buffer.  A NUL
byte is not white space, so it is read like any other byte, and the C string `acusado`
is what the buffer holds before its first NUL.  Returns that string and the bytes left;
`none` when the input ends before a word starts (`acusado` is then left
uninitialised). -/
def lerAcusado (stdin : List Nat) : Option (CStr × List Nat) :=
  let s := stdin.dropWhile isspace
  match s with
  | [] => none
  | _ :: _ =>
    let lidos := (s.takeWhile (fun c => !isspace c)).take 49
    let acusado := lidos.takeWhile (fun c => c != 0)
    some (acusado, s.drop lidos.length)

/-- What `verificarSuspeitoFinal` reports. -/
inductive Veredito where
  /-- The message "Voce nao coletou pistas suficientes para fazer uma acusacao. Caso
  encerrado." (line 224): no accused is read and no count is computed. -/
  | semPistas : Veredito
  /-- The message "Evidencias suficientes! Voce desvendou o misterio! PARABENS!"
  (line 242), after the line that names the accused and the count. -/
  | desvendado (acusado : CStr) (contagemPistas : Nat) : Veredito
  /-- The message "Evidencias insuficientes. O verdadeiro culpado escapou..."
  (line 244), after the line that names the accused and the count. -/
  | escapou (acusado : CStr) (contagemPistas : Nat) : Veredito
  deriving DecidableEq, Repr

/-- The function `verificarSuspeitoFinal` of mestre.c (lines 218-246) on the bytes left
on standard input: the verdict reported and the bytes still unread.  `none` when the
accused name cannot be read or a bucket access falls outside the array. -/
def verificarSuspeitoFinal (bstPistas : PistaNode) (tabelaHash : Tabela)
    (stdin : List Nat) : Option (Veredito × List Nat) :=
  match bstPistas with
  | .null => some (.semPistas, stdin)
  | .node _ _ _ =>
    match lerAcusado stdin with
    | none => none
    | some (acusado, resto) =>
      match contarPistasParaSuspeito bstPistas tabelaHash acusado with
      | none => none
      | some contagemPistas =>
        if contagemPistas ≥ 2 then some (.desvendado acusado contagemPistas, resto)
        else some (.escapou acusado contagemPistas, resto)

/-! ## Room Map -/

/-- The `struct Sala` of aventureiro.c and mestre.c: `null` is the `NULL` pointer. -/
inductive Sala where
  | null : Sala
  | node (nome pista : CStr) (esquerda direita : Sala) : Sala
  deriving DecidableEq, Repr

/-- The function `criarSala` (mestre.c lines 115-122, aventureiro.c lines 150-161). -/
def criarSala (nome pista : CStr) : Sala := .node nome pista .null .null

/-- One step of a pointer down the Room Map. -/
inductive Direcao where
  | esquerda : Direcao
  | direita : Direcao
  deriving DecidableEq, Repr

/-- The room that a pointer designates: the pointer is the sequence of `esquerda` and
`direita` links followed from the root; `null` when a link on the way is `NULL`. -/
def Sala.em : Sala → List Direcao → Sala
  | s, [] => s
  | .null, _ :: _ => .null
  | .node _ _ e _, .esquerda :: c => e.em c
  | .node _ _ _ d, .direita :: c => d.em c

/-- The assignment `strcpy(sala->pista, "")` at the room that a pointer designates. -/
def Sala.limparPista : Sala → List Direcao → Sala
  | .null, _ => .null
  | .node nome _ e d, [] => .node nome [] e d
  | .node nome pista e d, .esquerda :: c => .node nome pista (e.limparPista c) d
  | .node nome pista e d, .direita :: c => .node nome pista e (d.limparPista c)

/-- The value of `sala->esquerda` or `sala->direita` for the room that `caminho`
designates: `none` is `NULL`. -/
def Sala.filho (mapa : Sala) (caminho : List Direcao) (d : Direcao) :
    Option (List Direcao) :=
  match mapa.em (caminho ++ [d]) with
  | .null => none
  | .node _ _ _ _ => some (caminho ++ [d])

/-- The value of the link `esquerda` or `direita` of a room (`null` for no room). -/
def Sala.ligacao : Sala → Direcao → Sala
  | .null, _ => .null
  | .node _ _ e _, .esquerda => e
  | .node _ _ _ d, .direita => d

/-- The field `nome` of a room (the empty string for no room). -/
def Sala.nome : Sala → CStr
  | .null => []
  | .node nome _ _ _ => nome

/-- The field `pista` of a room (the empty string for no room). -/
def Sala.pista : Sala → CStr
  | .null => []
  | .node _ pista _ _ => pista

/-- Relation between a Room Map and a later state of it: the same rooms with the same
names and the same links, and every clue field either as it was or empty. -/
def Sala.conservada : Sala → Sala → Prop
  | .null, .null => True
  | .node nome pista e d, .node nome1 pista1 e1 d1 =>
    nome1 = nome ∧ (pista1 = pista ∨ pista1 = []) ∧
    Sala.conservada e e1 ∧ Sala.conservada d d1
  | .null, .node _ _ _ _ => False
  | .node _ _ _ _, .null => False

/-! ## Exploration (mestre.c) -/

namespace Mestre

/-- The variables of `explorarSalas` of mestre.c and the memory they point to: the Room
Map, the pointer `salaAtual` (`none` is `NULL`), the Clue Index `*bstPistas` and the
Lookup Table `tabelaHash`. -/
structure Estado where
  mapa : Sala
  salaAtual : Option (List Direcao)
  bstPistas : PistaNode
  tabelaHash : Tabela

/-- Lines 133-146 of mestre.c: the clue of the current room is processed. -/
def processarPista (e : Estado) (caminho : List Direcao) (pista : CStr) : Option Estado :=
  if strlen pista > 0 then
    match getSuspeitoParaPista pista with
    | some suspeitoAssociado =>
      match inserirNaHash e.tabelaHash pista suspeitoAssociado with
      | some tabela =>
        some { e with
          bstPistas := adicionarPista e.bstPistas pista
          tabelaHash := tabela
          mapa := e.mapa.limparPista caminho }
      | none => none
    | none => some e
  else
    some e

/-- Lines 151-156 of mestre.c: the `switch` on the character read. -/
def processarEscolha (e : Estado) (caminho : List Direcao) (escolha : Nat) : Estado :=
  if escolha = 'e'.toNat ∨ escolha = 'E'.toNat then
    { e with salaAtual := e.mapa.filho caminho .esquerda }
  else if escolha = 'd'.toNat ∨ escolha = 'D'.toNat then
    { e with salaAtual := e.mapa.filho caminho .direita }
  else if escolha = 's'.toNat ∨ escolha = 'S'.toNat then
    { e with salaAtual := none }
  else
    e

/-- The room that the pointer `salaAtual` designates; `null` when the pointer is `NULL`
(a pointer that designates no room of the map is `NULL` as well). -/
def Estado.sala (e : Estado) : Sala :=
  match e.salaAtual with
  | none => .null
  | some caminho => e.mapa.em caminho

/-- One iteration of the loop of `explorarSalas` of mestre.c (lines 129-157) in which
`scanf(" %c", &escolha)` reads the character `escolha`.  When `salaAtual` is `NULL` the
loop body does not run.  `none` is a bucket access outside the array. -/
def passo (e : Estado) (escolha : Nat) : Option Estado :=
  match e.salaAtual with
  | none => some e
  | some caminho =>
    match e.mapa.em caminho with
    | .null => some e
    | .node _ pista _ _ =>
      match processarPista e caminho pista with
      | none => none
      | some e1 => some (processarEscolha e1 caminho escolha)

/-- The function `explorarSalas` of mestre.c (lines 127-158) on the bytes of standard
input: the state when the loop ends and the bytes still unread.  `scanf(" %c", ...)`
skips white space and reads one byte.  `none` when the input ends while a command is
awaited (what the program does then is not represented) or when a bucket access falls
outside the array. -/
def explorarSalas : Estado → List Nat → Option (Estado × List Nat)
  | e, [] =>
    match e.sala with
    | .null => some (e, [])
    | .node _ _ _ _ => none
  | e, c :: resto =>
    match e.sala with
    | .null => some (e, c :: resto)
    | .node _ _ _ _ =>
      if isspace c then explorarSalas e resto
      else
        match passo e c with
        | none => none
        | some e1 => explorarSalas e1 resto

/-- The rooms in which the iterations of the loop of `explorarSalas` run, in order: the
value of `salaAtual` at the start of each iteration that reads a command (the room
that line 131 announces). -/
def percurso : Estado → List Nat → List (List Direcao)
  | _, [] => []
  | e, c :: resto =>
    match e.salaAtual with
    | none => []
    | some caminho =>
      match e.mapa.em caminho with
      | .null => []
      | .node _ _ _ _ =>
        if isspace c then percurso e resto
        else
          match passo e c with
          | none => []
          | some e1 => caminho :: percurso e1 resto

/-- The state in which `explorarSalas` is called on a Room Map with an empty Clue Index
and an empty Lookup Table, as `main` of mestre.c does (lines 80-94). -/
def inicio (mapa : Sala) : Estado :=
  { mapa := mapa, salaAtual := some [], bstPistas := .null, tabelaHash := tabelaVazia }

/-- The clue fields, as they are in `mapa` before the exploration, of the rooms in
which the iterations of `explorarSalas` run on the input `stdin`. -/
def pistasVisitadas (mapa : Sala) (stdin : List Nat) : List CStr :=
  (percurso (inicio mapa) stdin).map (fun caminho => (mapa.em caminho).pista)

/-- The room `cozinha` of `main` of mestre.c. -/
def cozinha : Sala :=
  criarSala (cstr "Cozinha") (cstr "Uma faca de cozinha faltando no conjunto.")

/-- The room `escritorio` of `main` of mestre.c. -/
def escritorio : Sala :=
  criarSala (cstr "Escritorio") (cstr "Uma carta de ameaca enderecada a vitima.")

/-- The room `jardimSecreto` of `main` of mestre.c. -/
def jardimSecreto : Sala :=
  criarSala (cstr "Jardim Secreto") (cstr "Pegadas de sapatos caros na lama.")

/-- The room `salaDeJantar` of `main` of mestre.c, after `salaDeJantar->esquerda =
cozinha`. -/
def salaDeJantar : Sala :=
  .node (cstr "Sala de Jantar") (cstr "Um candelabro de prata polido, fora do lugar.")
    cozinha .null

/-- The room `biblioteca` of `main` of mestre.c, after its two links are set. -/
def biblioteca : Sala :=
  .node (cstr "Biblioteca") (cstr "Um livro sobre venenos com uma pagina marcada.")
    escritorio jardimSecreto

/-- The room `hall` of `main` of mestre.c, after its two links are set: the Room Map. -/
def hall : Sala :=
  .node (cstr "Hall de Entrada") (cstr "Um jornal velho sobre a mesa, com a data de 1920.")
    salaDeJantar biblioteca

/-- The state in which `main` of mestre.c calls `explorarSalas` (line 94). -/
def estadoInicial : Estado :=
  { mapa := hall, salaAtual := some [], bstPistas := .null, tabelaHash := tabelaVazia }

/-- A Room Map other than that of `main`, used as a test scenario: three rooms down a
left spine that carry the two clues of "Mordomo" and one clue of "Dama_da_noite". -/
def mapaDoMordomo : Sala :=
  .node (cstr "Sala de Jantar") (cstr "Um candelabro de prata polido, fora do lugar.")
    (.node (cstr "Biblioteca") (cstr "Um livro sobre venenos com uma pagina marcada.")
      (criarSala (cstr "Jardim Secreto") (cstr "Pegadas de sapatos caros na lama."))
      .null)
    .null

/-- The function `main` of mestre.c (lines 64-105) on the bytes of standard input:
exploration, then judgement. -/
def main (stdin : List Nat) : Option (Veredito × List Nat) :=
  match explorarSalas estadoInicial stdin with
  | none => none
  | some (e, resto) => verificarSuspeitoFinal e.bstPistas e.tabelaHash resto

/-- The state after the iterations of the loop of `explorarSalas` that read, one each,
the characters of `escolhas` (an iteration with `salaAtual` equal to `NULL` does not
run). -/
def iterar : Estado → List Nat → Option Estado
  | e, [] => some e
  | e, c :: cs =>
    match passo e c with
    | none => none
    | some e1 => iterar e1 cs

/-- The keys stored in the Lookup Table: the field `pista` of every entry of every
bucket. -/
def chavesDaTabela (tabela : Tabela) : List CStr :=
  (List.finRange HASH_SIZE).flatMap (fun i => (tabela i).map (fun n => n.pista))

end Mestre

/-! ## Exploration (aventureiro.c) -/

namespace Aventureiro

/-- The variables of `explorarSalasComPistas` of aventureiro.c and the memory they point
to: the Room Map, the pointer `salaAtual` (`none` is `NULL`), the Clue Index `*bstPistas`
and the flag `pistaColetadaNestaSala`. -/
structure Estado where
  mapa : Sala
  salaAtual : Option (List Direcao)
  bstPistas : PistaNode
  pistaColetadaNestaSala : Bool
  deriving DecidableEq, Repr

/-- The room that the pointer `salaAtual` designates; `null` when the pointer is `NULL`. -/
def Estado.sala (e : Estado) : Sala :=
  match e.salaAtual with
  | none => .null
  | some caminho => e.mapa.em caminho

/-- Lines 291-297 of aventureiro.c: the clue of the current room is processed. -/
def processarPista (e : Estado) (pista : CStr) : Estado :=
  if strlen pista > 0 ∧ e.pistaColetadaNestaSala = false then
    { e with bstPistas := inserirPista e.bstPistas pista, pistaColetadaNestaSala := true }
  else
    e

/-- Lines 322-349 of aventureiro.c: the `switch` on the character read. -/
def processarEscolha (e : Estado) (caminho : List Direcao) (escolha : Nat) : Estado :=
  if escolha = 'e'.toNat ∨ escolha = 'E'.toNat then
    match e.mapa.filho caminho .esquerda with
    | some filho => { e with salaAtual := some filho, pistaColetadaNestaSala := false }
    | none => e
  else if escolha = 'd'.toNat ∨ escolha = 'D'.toNat then
    match e.mapa.filho caminho .direita with
    | some filho => { e with salaAtual := some filho, pistaColetadaNestaSala := false }
    | none => e
  else if escolha = 's'.toNat ∨ escolha = 'S'.toNat then
    { e with salaAtual := none }
  else
    e

/-- One iteration of the loop of `explorarSalasComPistas` (aventureiro.c lines 284-350)
in which `scanf(" %c", &escolha)` reads the character `escolha`.  When `salaAtual` is
`NULL` the loop body does not run. -/
def passo (e : Estado) (escolha : Nat) : Estado :=
  match e.salaAtual with
  | none => e
  | some caminho =>
    match e.mapa.em caminho with
    | .null => e
    | .node _ pista _ _ => processarEscolha (processarPista e pista) caminho escolha

/-- The function `explorarSalasComPistas` of aventureiro.c (lines 272-351) on the bytes
of standard input: the state when the loop ends and the bytes still unread.  `none` when
the input ends while a command is awaited (what the program does then is not
represented). -/
def explorarSalasComPistas : Estado → List Nat → Option (Estado × List Nat)
  | e, [] =>
    match e.sala with
    | .null => some (e, [])
    | .node _ _ _ _ => none
  | e, c :: resto =>
    match e.sala with
    | .null => some (e, c :: resto)
    | .node _ _ _ _ =>
      if isspace c then explorarSalasComPistas e resto
      else explorarSalasComPistas (passo e c) resto

/-- The rooms in which the iterations of the loop of `explorarSalasComPistas` run, in
order: the value of `salaAtual` at the start of each iteration that reads a command (the
room that line 286 announces). -/
def percurso : Estado → List Nat → List (List Direcao)
  | _, [] => []
  | e, c :: resto =>
    match e.salaAtual with
    | none => []
    | some caminho =>
      match e.mapa.em caminho with
      | .null => []
      | .node _ _ _ _ =>
        if isspace c then percurso e resto
        else caminho :: percurso (passo e c) resto

/-- The state in which `explorarSalasComPistas` is called on a Room Map with an empty
Clue Index, as `main` of aventureiro.c does (lines 104-112); the flag starts at 0
(line 282). -/
def inicio (mapa : Sala) : Estado :=
  { mapa := mapa, salaAtual := some [], bstPistas := .null, pistaColetadaNestaSala := false }

/-- The room `quartoPrincipal` of `main` of aventureiro.c. -/
def quartoPrincipal : Sala :=
  criarSala (cstr "Quarto Principal") (cstr "Um relogio de bolso parado as 03:15.")

/-- The room `banheiro` of `main` of aventureiro.c. -/
def banheiro : Sala :=
  criarSala (cstr "Banheiro") (cstr "Uma toalha molhada e suja de terra.")

/-- The room `cozinha` of `main` of aventureiro.c, after `cozinha->esquerda =
quartoPrincipal`. -/
def cozinha : Sala :=
  .node (cstr "Cozinha") (cstr "Uma faca de prata reluzente na pia.") quartoPrincipal .null

/-- The room `despensa` of `main` of aventureiro.c, after `despensa->direita =
banheiro`. -/
def despensa : Sala :=
  .node (cstr "Despensa")
    (cstr "Um frasco de veneno vazio e etiquetado como \x27Raticida\x27.") .null banheiro

/-- The room `escritorio` of `main` of aventureiro.c. -/
def escritorio : Sala :=
  criarSala (cstr "Escritorio") (cstr "Cartas rasgadas revelam um desentendimento familiar.")

/-- The room `jardimSecreto` of `main` of aventureiro.c. -/
def jardimSecreto : Sala :=
  criarSala (cstr "Jardim Secreto") (cstr "Rastros de pegadas frescas no chao umido.")

/-- The room `salaDeJantar` of `main` of aventureiro.c, after its two links are set. -/
def salaDeJantar : Sala :=
  .node (cstr "Sala de Jantar") (cstr "Restos de um banquete suntuoso, mas sem talheres.")
    cozinha despensa

/-- The room `biblioteca` of `main` of aventureiro.c, after its two links are set. -/
def biblioteca : Sala :=
  .node (cstr "Biblioteca")
    (cstr "Um livro de Sherlock Holmes aberto em uma pagina especifica.")
    escritorio jardimSecreto

/-- The room `hall` of `main` of aventureiro.c, after its two links are set: the Room
Map. -/
def hall : Sala :=
  .node (cstr "Hall de Entrada") (cstr "Um jornal velho sobre a mesa, com a data de 1920.")
    salaDeJantar biblioteca

/-- What `main` of aventureiro.c prints after the exploration (lines 119-124). -/
inductive Relatorio where
  /-- The message "Nenhuma pista foi coletada." (line 121). -/
  | nenhumaPista : Relatorio
  /-- The listing that `exibirPistas` prints (line 123). -/
  | pistas (listagem : List CStr) : Relatorio
  deriving DecidableEq, Repr

/-- The function `main` of aventureiro.c (lines 65-132) on the bytes of standard input:
exploration, then the report on the clues. -/
def main (stdin : List Nat) : Option Relatorio :=
  match explorarSalasComPistas (inicio hall) stdin with
  | none => none
  | some (e, _) =>
    match e.bstPistas with
    | .null => some .nenhumaPista
    | .node pista esquerda direita =>
      some (.pistas (exibirPistas (.node pista esquerda direita)))

end Aventureiro

/-! ## Exploration (novato.c) -/

namespace Novato

/-- The `struct Sala` of novato.c (lines 14-18): `null` is the `NULL` pointer. -/
inductive Sala where
  | null : Sala
  | node (nome : CStr) (esquerda direita : Sala) : Sala
  deriving DecidableEq, Repr

/-- The room that a pointer designates: the pointer is the sequence of `esquerda` and
`direita` links followed from the root; `null` when a link on the way is `NULL`. -/
def Sala.em : Sala → List Direcao → Sala
  | s, [] => s
  | .null, _ :: _ => .null
  | .node _ e _, .esquerda :: c => e.em c
  | .node _ _ d, .direita :: c => d.em c

/-- The value of `sala->esquerda` or `sala->direita` for the room that `caminho`
designates: `none` is `NULL`. -/
def Sala.filho (mapa : Sala) (caminho : List Direcao) (d : Direcao) :
    Option (List Direcao) :=
  match mapa.em (caminho ++ [d]) with
  | .null => none
  | .node _ _ _ => some (caminho ++ [d])

/-- The value of the link `esquerda` or `direita` of a room (`null` for no room). -/
def Sala.ligacao : Sala → Direcao → Sala
  | .null, _ => .null
  | .node _ e _, .esquerda => e
  | .node _ _ d, .direita => d

/-- The variables of `explorarSalas` of novato.c and the memory they point to: the Room
Map and the pointer `salaAtual` (`none` is `NULL`). -/
structure Estado where
  mapa : Sala
  salaAtual : Option (List Direcao)
  deriving DecidableEq, Repr

/-- The room that the pointer `salaAtual` designates; `null` when the pointer is `NULL`. -/
def Estado.sala (e : Estado) : Sala :=
  match e.salaAtual with
  | none => .null
  | some caminho => e.mapa.em caminho

/-- Whether the loop of `explorarSalas` of novato.c ends without reading a command:
`salaAtual` is `NULL` (the loop condition, line 137) or the room has neither a left nor
a right link (the `break` of lines 142-145). -/
def Estado.fim (e : Estado) : Bool :=
  match e.sala with
  | .null => true
  | .node _ .null .null => true
  | .node _ _ _ => false

/-- Lines 162-187 of novato.c: the `switch` on the character read. -/
def processarEscolha (e : Estado) (caminho : List Direcao) (escolha : Nat) : Estado :=
  if escolha = 'e'.toNat ∨ escolha = 'E'.toNat then
    match e.mapa.filho caminho .esquerda with
    | some filho => { e with salaAtual := some filho }
    | none => e
  else if escolha = 'd'.toNat ∨ escolha = 'D'.toNat then
    match e.mapa.filho caminho .direita with
    | some filho => { e with salaAtual := some filho }
    | none => e
  else if escolha = 's'.toNat ∨ escolha = 'S'.toNat then
    { e with salaAtual := none }
  else
    e

/-- One iteration of the loop of `explorarSalas` of novato.c (lines 137-188) in which
`scanf(" %c", &escolha)` reads the character `escolha`.  When the loop ends without
reading a command the state is left as it is. -/
def passo (e : Estado) (escolha : Nat) : Estado :=
  match e.salaAtual with
  | none => e
  | some caminho => if e.fim then e else processarEscolha e caminho escolha

/-- The function `explorarSalas` of novato.c (lines 133-190) on the bytes of standard
input: the state when the loop ends and the bytes still unread.  `none` when the input
ends while a command is awaited (what the program does then is not represented). -/
def explorarSalas : Estado → List Nat → Option (Estado × List Nat)
  | e, [] => if e.fim then some (e, []) else none
  | e, c :: resto =>
    if e.fim then some (e, c :: resto)
    else if isspace c then explorarSalas e resto
    else explorarSalas (passo e c) resto

/-- The function `criarSala` of novato.c (lines 103-122). -/
def criarSala (nome : CStr) : Sala := .node nome .null .null

/-- The room `salaDeJantar` of `main` of novato.c, after its two links are set. -/
def salaDeJantar : Sala :=
  .node (cstr "Sala de Jantar") (criarSala (cstr "Cozinha")) (criarSala (cstr "Despensa"))

/-- The room `biblioteca` of `main` of novato.c, after its two links are set. -/
def biblioteca : Sala :=
  .node (cstr "Biblioteca") (criarSala (cstr "Escritorio"))
    (criarSala (cstr "Jardim Secreto"))

/-- The room `hall` of `main` of novato.c, after its two links are set: the Room Map. -/
def hall : Sala := .node (cstr "Hall de Entrada") salaDeJantar biblioteca

/-- The state in which `main` of novato.c calls `explorarSalas` on a Room Map
(line 79). -/
def inicio (mapa : Sala) : Estado := { mapa := mapa, salaAtual := some [] }

end Novato

/-! ## Facts about `strcmp` -/

theorem strcmp_self (a : CStr) : strcmp a a = 0 := by
  induction a with
  | nil => rfl
  | cons x xs ih => simp [strcmp, ih]

theorem strcmp_eq_zero_iff (a b : CStr) : strcmp a b = 0 ↔ a = b := by
  induction a generalizing b with
  | nil => cases b <;> simp [strcmp]
  | cons x xs ih =>
    cases b with
    | nil => simp [strcmp]
    | cons y ys =>
      simp only [strcmp]
      split_ifs with h1 h2
      · simp; omega
      · simp; omega
      · have : x = y := by omega
        simp [ih, this]

theorem strcmp_gt_iff (a b : CStr) : strcmp a b > 0 ↔ strcmp b a < 0 := by
  induction a generalizing b with
  | nil => cases b <;> simp [strcmp]
  | cons x xs ih =>
    cases b with
    | nil => simp [strcmp]
    | cons y ys =>
      simp only [strcmp]
      split_ifs <;> first | omega | exact ih ys

theorem strcmp_lt_trans (a b c : CStr) (h1 : strcmp a b < 0) (h2 : strcmp b c < 0) :
    strcmp a c < 0 := by
  induction a generalizing b c with
  | nil =>
    cases c with
    | nil => cases b <;> simp [strcmp] at h1 h2
    | cons z zs => simp [strcmp]
  | cons x xs ih =>
    cases b with
    | nil => simp [strcmp] at h1
    | cons y ys =>
      cases c with
      | nil => simp [strcmp] at h2
      | cons z zs =>
        simp only [strcmp] at h1 h2 ⊢
        split_ifs at h1 h2 ⊢ <;> first | omega | exact ih ys zs h1 h2

theorem strcmp_lt_irrefl (a : CStr) : ¬ strcmp a a < 0 := by
  simp [strcmp_self]

theorem strcmp_cases (a b : CStr) : strcmp a b < 0 ∨ a = b ∨ strcmp a b > 0 := by
  rcases lt_trichotomy (strcmp a b) 0 with h | h | h
  · exact Or.inl h
  · exact Or.inr (Or.inl ((strcmp_eq_zero_iff a b).mp h))
  · exact Or.inr (Or.inr h)

/-! ## Facts about the Clue Index -/

theorem adicionarPista_eq_inserirPista (t : PistaNode) (k : CStr) :
    adicionarPista t k = inserirPista t k := by
  induction t with
  | null => rfl
  | node p l r ihl ihr => simp only [adicionarPista, inserirPista, ihl, ihr]

theorem adicionarTodas_eq_inserirTodas (ks : List CStr) :
    adicionarTodas ks = inserirTodas ks := by
  have h : adicionarPista = inserirPista := by
    funext t k; exact adicionarPista_eq_inserirPista t k
  simp [adicionarTodas, inserirTodas, h]

theorem mem_exibirPistas_inserirPista (t : PistaNode) (k x : CStr) :
    x ∈ exibirPistas (inserirPista t k) ↔ x = k ∨ x ∈ exibirPistas t := by
  induction t with
  | null => simp [inserirPista, exibirPistas]
  | node p l r ihl ihr =>
    simp only [inserirPista]
    split_ifs with h1 h2
    · simp only [exibirPistas, List.mem_append, List.mem_cons, ihl]; tauto
    · simp only [exibirPistas, List.mem_append, List.mem_cons, ihr]; tauto
    · have hk : k = p := (strcmp_eq_zero_iff k p).mp (by omega)
      subst hk
      simp only [exibirPistas, List.mem_append, List.mem_cons]; tauto

theorem ordenada_inserirPista (t : PistaNode) (k : CStr) (h : ordenada t) :
    ordenada (inserirPista t k) := by
  induction t with
  | null => simp [inserirPista, ordenada, exibirPistas]
  | node p l r ihl ihr =>
    obtain ⟨hl, hr, ol, or_⟩ := h
    simp only [inserirPista]
    split_ifs with h1 h2
    · refine ⟨?_, hr, ihl ol, or_⟩
      intro x hx
      rcases (mem_exibirPistas_inserirPista l k x).mp hx with rfl | hx
      · exact h1
      · exact hl x hx
    · refine ⟨hl, ?_, ol, ihr or_⟩
      intro x hx
      rcases (mem_exibirPistas_inserirPista r k x).mp hx with rfl | hx
      · exact h2
      · exact hr x hx
    · exact ⟨hl, hr, ol, or_⟩

theorem sorted_exibirPistas (t : PistaNode) (h : ordenada t) :
    (exibirPistas t).Pairwise (fun a b => strcmp a b < 0) := by
  induction t with
  | null => simp [exibirPistas]
  | node p l r ihl ihr =>
    obtain ⟨hl, hr, ol, or_⟩ := h
    have hr2 : ∀ y ∈ exibirPistas r, strcmp p y < 0 := fun y hy =>
      (strcmp_gt_iff y p).mp (hr y hy)
    simp only [exibirPistas, List.pairwise_append, List.pairwise_cons, List.mem_cons]
    refine ⟨ihl ol, ⟨hr2, ihr or_⟩, ?_⟩
    rintro x hx y (rfl | hy)
    · exact hl x hx
    · exact strcmp_lt_trans x p y (hl x hx) (hr2 y hy)

theorem nodup_of_pairwise_strcmp (l : List CStr)
    (h : l.Pairwise (fun a b => strcmp a b < 0)) : l.Nodup := by
  refine List.Pairwise.imp ?_ h
  intro a b hab heq
  subst heq
  exact strcmp_lt_irrefl a hab

theorem nodup_exibirPistas (t : PistaNode) (h : ordenada t) : (exibirPistas t).Nodup :=
  nodup_of_pairwise_strcmp _ (sorted_exibirPistas t h)

/-- C1: insertion into the Clue Index (`inserirPista` of aventureiro.c, `adicionarPista`
of mestre.c) preserves the search-tree invariant: from a tree in which every node has
only smaller keys (by `strcmp`) in its left subtree and only greater keys in its right
subtree, insertion of any clue text returns a tree with the same property, and no two
nodes of that tree have equal keys. -/
theorem inserir_preserva_ordenada (t : PistaNode) (k : CStr) (h : ordenada t) :
    (ordenada (inserirPista t k) ∧ (exibirPistas (inserirPista t k)).Nodup) ∧
    (ordenada (adicionarPista t k) ∧ (exibirPistas (adicionarPista t k)).Nodup) := by
  rw [adicionarPista_eq_inserirPista]
  have ho := ordenada_inserirPista t k h
  exact ⟨⟨ho, nodup_exibirPistas _ ho⟩, ⟨ho, nodup_exibirPistas _ ho⟩⟩

/-- Witness of C1: the clue "b" inserted into the ordered index holding "a" and "c". -/
theorem inserir_preserva_ordenada_witness :
    ordenada (.node [99] (.node [97] .null .null) .null) ∧
    ((ordenada (inserirPista (.node [99] (.node [97] .null .null) .null) [98]) ∧
      (exibirPistas (inserirPista (.node [99] (.node [97] .null .null) .null) [98])).Nodup) ∧
     (ordenada (adicionarPista (.node [99] (.node [97] .null .null) .null) [98]) ∧
      (exibirPistas
        (adicionarPista (.node [99] (.node [97] .null .null) .null) [98])).Nodup)) :=
  ⟨by decide, inserir_preserva_ordenada _ [98] (by decide)⟩

theorem ordenada_foldl_inserirPista (ks : List CStr) (t : PistaNode) (h : ordenada t) :
    ordenada (ks.foldl inserirPista t) := by
  induction ks generalizing t with
  | nil => exact h
  | cons k ks ih => exact ih _ (ordenada_inserirPista t k h)

theorem mem_exibirPistas_foldl_inserirPista (ks : List CStr) (t : PistaNode) (x : CStr) :
    x ∈ exibirPistas (ks.foldl inserirPista t) ↔ x ∈ ks ∨ x ∈ exibirPistas t := by
  induction ks generalizing t with
  | nil => simp
  | cons k ks ih =>
    simp only [List.foldl_cons, ih, mem_exibirPistas_inserirPista, List.mem_cons]
    tauto

theorem ordenada_inserirTodas (ks : List CStr) : ordenada (inserirTodas ks) :=
  ordenada_foldl_inserirPista ks .null trivial

theorem mem_exibirPistas_inserirTodas (ks : List CStr) (x : CStr) :
    x ∈ exibirPistas (inserirTodas ks) ↔ x ∈ ks := by
  simp [inserirTodas, mem_exibirPistas_foldl_inserirPista, exibirPistas]

/-- Two strictly increasing listings with the same members are the same listing. -/
theorem eq_of_pairwise_strcmp_of_mem_iff (l₁ l₂ : List CStr)
    (h₁ : l₁.Pairwise (fun a b => strcmp a b < 0))
    (h₂ : l₂.Pairwise (fun a b => strcmp a b < 0))
    (hm : ∀ x, x ∈ l₁ ↔ x ∈ l₂) : l₁ = l₂ := by
  haveI : IsAntisymm CStr (fun a b => strcmp a b < 0) :=
    ⟨fun a b hab hba => absurd (strcmp_lt_trans a b a hab hba) (strcmp_lt_irrefl a)⟩
  have hp : l₁.Perm l₂ :=
    (List.perm_ext_iff_of_nodup (nodup_of_pairwise_strcmp l₁ h₁)
      (nodup_of_pairwise_strcmp l₂ h₂)).mpr hm
  exact List.eq_of_perm_of_sorted hp h₁ h₂

theorem exibirPistas_inserirTodas_perm (ks ks' : List CStr) (hp : ks'.Perm ks) :
    exibirPistas (inserirTodas ks') = exibirPistas (inserirTodas ks) := by
  apply eq_of_pairwise_strcmp_of_mem_iff
  · exact sorted_exibirPistas _ (ordenada_inserirTodas ks')
  · exact sorted_exibirPistas _ (ordenada_inserirTodas ks)
  · intro x
    rw [mem_exibirPistas_inserirTodas, mem_exibirPistas_inserirTodas]
    exact hp.mem_iff

/-- C2: for every finite list of clue texts inserted one by one, in the given order,
into the empty Clue Index, the in-order listing (the order `exibirPistas` prints) is
non-decreasing by `strcmp`; it is strictly increasing, and it is the same listing for
every permutation of the inserted list.  Stated for `inserirPista` (aventureiro.c) and
for `adicionarPista` (mestre.c). -/
theorem listagem_em_ordem (ks : List CStr) :
    ((exibirPistas (inserirTodas ks)).Pairwise (fun a b => strcmp a b ≤ 0) ∧
     (exibirPistas (inserirTodas ks)).Pairwise (fun a b => strcmp a b < 0) ∧
     ∀ ks' : List CStr, ks'.Perm ks →
       exibirPistas (inserirTodas ks') = exibirPistas (inserirTodas ks)) ∧
    ((exibirPistas (adicionarTodas ks)).Pairwise (fun a b => strcmp a b ≤ 0) ∧
     (exibirPistas (adicionarTodas ks)).Pairwise (fun a b => strcmp a b < 0) ∧
     ∀ ks' : List CStr, ks'.Perm ks →
       exibirPistas (adicionarTodas ks') = exibirPistas (adicionarTodas ks)) := by
  have hs := sorted_exibirPistas _ (ordenada_inserirTodas ks)
  have hle : (exibirPistas (inserirTodas ks)).Pairwise (fun a b => strcmp a b ≤ 0) :=
    hs.imp (fun h => le_of_lt h)
  have hperm : ∀ ks' : List CStr, ks'.Perm ks →
      exibirPistas (inserirTodas ks') = exibirPistas (inserirTodas ks) :=
    fun ks' hp => exibirPistas_inserirTodas_perm ks ks' hp
  refine ⟨⟨hle, hs, hperm⟩, ?_⟩
  simp only [adicionarTodas_eq_inserirTodas]
  exact ⟨hle, hs, hperm⟩

/-- Witness of C2: the clues "b", "a", "b", "c" and the permutation "c", "b", "b", "a". -/
theorem listagem_em_ordem_witness :
    List.Perm [[99], [98], [98], [97]] [[98], [97], [98], [99]] ∧
    exibirPistas (inserirTodas [[99], [98], [98], [97]]) =
      exibirPistas (inserirTodas [[98], [97], [98], [99]]) ∧
    exibirPistas (inserirTodas [[98], [97], [98], [99]]) = [[97], [98], [99]] :=
  ⟨by decide, (listagem_em_ordem [[98], [97], [98], [99]]).1.2.2 _ (by decide), by decide⟩

theorem inserirPista_inserirPista (t : PistaNode) (k : CStr) :
    inserirPista (inserirPista t k) k = inserirPista t k := by
  induction t with
  | null => simp [inserirPista, strcmp_self]
  | node p l r ihl ihr =>
    by_cases h1 : strcmp k p < 0
    · simp [inserirPista, h1, ihl]
    · by_cases h2 : strcmp k p > 0
      · simp [inserirPista, h1, h2, ihr]
      · simp [inserirPista, h1, h2]

theorem inserirPista_of_naRota (t : PistaNode) (k : CStr) (h : naRota t k = true) :
    inserirPista t k = t := by
  induction t with
  | null => simp [naRota] at h
  | node p l r ihl ihr =>
    by_cases h1 : strcmp k p < 0
    · simp only [naRota, h1, if_true] at h
      simp [inserirPista, h1, ihl h]
    · by_cases h2 : strcmp k p > 0
      · simp only [naRota, h1, h2, if_true, if_false] at h
        simp [inserirPista, h1, h2, ihr h]
      · simp [inserirPista, h1, h2]

theorem numNos_inserirPista_of_not_naRota (t : PistaNode) (k : CStr)
    (h : naRota t k = false) : numNos (inserirPista t k) = numNos t + 1 := by
  induction t with
  | null => simp [inserirPista, numNos]
  | node p l r ihl ihr =>
    by_cases h1 : strcmp k p < 0
    · simp only [naRota, h1, if_true] at h
      simp only [inserirPista, h1, if_true, numNos, ihl h]
      omega
    · by_cases h2 : strcmp k p > 0
      · simp only [naRota, h1, h2, if_true, if_false] at h
        simp only [inserirPista, h1, h2, if_true, if_false, numNos, ihr h]
        omega
      · simp [naRota, h1, h2] at h

theorem naRota_iff_mem (t : PistaNode) (k : CStr) (h : ordenada t) :
    naRota t k = true ↔ k ∈ exibirPistas t := by
  induction t with
  | null => simp [naRota, exibirPistas]
  | node p l r ihl ihr =>
    obtain ⟨hl, hr, ol, or_⟩ := h
    simp only [exibirPistas, List.mem_append, List.mem_cons]
    by_cases h1 : strcmp k p < 0
    · simp only [naRota, h1, if_true, ihl ol]
      constructor
      · exact fun hk => Or.inl hk
      · rintro (hk | rfl | hk)
        · exact hk
        · exact absurd h1 (strcmp_lt_irrefl k)
        · have := hr k hk
          omega
    · by_cases h2 : strcmp k p > 0
      · simp only [naRota, h1, h2, if_true, if_false, ihr or_]
        constructor
        · exact fun hk => Or.inr (Or.inr hk)
        · rintro (hk | rfl | hk)
          · exact absurd (hl k hk) h1
          · simp [strcmp_self] at h2
          · exact hk
      · have hk : k = p := (strcmp_eq_zero_iff k p).mp (by omega)
        simp only [naRota, h1, h2, if_false]
        simp [hk]

/-- C3: insertion into the Clue Index is idempotent.  For every tree (search-ordered
or not) and every clue text `k`, inserting `k` a second time returns the same tree as
inserting it once, so the node count does not change; and when `k` already is a key on
the search path of the tree, the insertion returns the tree itself.  Stated for
`inserirPista` (aventureiro.c) and for `adicionarPista` (mestre.c). -/
theorem inserir_idempotente (t : PistaNode) (k : CStr) :
    (inserirPista (inserirPista t k) k = inserirPista t k ∧
     numNos (inserirPista (inserirPista t k) k) = numNos (inserirPista t k) ∧
     (naRota t k = true → inserirPista t k = t)) ∧
    (adicionarPista (adicionarPista t k) k = adicionarPista t k ∧
     numNos (adicionarPista (adicionarPista t k) k) = numNos (adicionarPista t k) ∧
     (naRota t k = true → adicionarPista t k = t)) := by
  simp only [adicionarPista_eq_inserirPista, inserirPista_inserirPista, true_and, and_self]
  exact fun h => inserirPista_of_naRota t k h

/-- Witness of C3: the clue "a" inserted again into the unordered index with "c" at the
root and "d" then "a" down its left spine. -/
theorem inserir_idempotente_witness :
    naRota (.node [99] (.node [100] (.node [97] .null .null) .null) .null) [97] = true ∧
    inserirPista (.node [99] (.node [100] (.node [97] .null .null) .null) .null) [97] =
      .node [99] (.node [100] (.node [97] .null .null) .null) .null :=
  ⟨by decide, (inserir_idempotente _ [97]).1.2.2 (by decide)⟩

/-- C4: insertion into the Clue Index adds exactly the given key and loses nothing.
For every search-ordered tree `t` and clue text `k`: a text is a key of the tree after
the insertion if and only if it is `k` or a key of `t`; the node count grows by one
when `k` was not a key of `t` and stays the same when it was; and insertion into the
empty tree returns a single node with key `k` and no children.  Stated for
`inserirPista` (aventureiro.c) and for `adicionarPista` (mestre.c). -/
theorem inserir_acrescenta_a_chave (t : PistaNode) (k : CStr) (h : ordenada t) :
    ((∀ x, x ∈ exibirPistas (inserirPista t k) ↔ x = k ∨ x ∈ exibirPistas t) ∧
     (k ∉ exibirPistas t → numNos (inserirPista t k) = numNos t + 1) ∧
     (k ∈ exibirPistas t → numNos (inserirPista t k) = numNos t) ∧
     inserirPista .null k = .node k .null .null) ∧
    ((∀ x, x ∈ exibirPistas (adicionarPista t k) ↔ x = k ∨ x ∈ exibirPistas t) ∧
     (k ∉ exibirPistas t → numNos (adicionarPista t k) = numNos t + 1) ∧
     (k ∈ exibirPistas t → numNos (adicionarPista t k) = numNos t) ∧
     adicionarPista .null k = .node k .null .null) := by
  have h1 : ∀ x, x ∈ exibirPistas (inserirPista t k) ↔ x = k ∨ x ∈ exibirPistas t :=
    fun x => mem_exibirPistas_inserirPista t k x
  have h2 : k ∉ exibirPistas t → numNos (inserirPista t k) = numNos t + 1 := by
    intro hk
    apply numNos_inserirPista_of_not_naRota
    rw [← Bool.not_eq_true, naRota_iff_mem t k h]
    exact hk
  have h3 : k ∈ exibirPistas t → numNos (inserirPista t k) = numNos t := by
    intro hk
    rw [inserirPista_of_naRota t k ((naRota_iff_mem t k h).mpr hk)]
  refine ⟨⟨h1, h2, h3, rfl⟩, ?_⟩
  simp only [adicionarPista_eq_inserirPista]
  exact ⟨h1, h2, h3, rfl⟩

/-- Witness of C4: the absent clue "b" inserted into the ordered index holding "a" and
"c" adds one node. -/
theorem inserir_acrescenta_a_chave_witness :
    ordenada (.node [99] (.node [97] .null .null) .null) ∧
    [98] ∉ exibirPistas (.node [99] (.node [97] .null .null) .null) ∧
    numNos (inserirPista (.node [99] (.node [97] .null .null) .null) [98]) = 2 + 1 :=
  ⟨by decide, by decide,
   (inserir_acrescenta_a_chave (.node [99] (.node [97] .null .null) .null) [98]
     (by decide)).1.2.1 (by decide)⟩

/-! ## Facts about the Lookup Table -/

theorem hashFunction_lt (pista : CStr) : hashFunction pista < HASH_SIZE :=
  (indice pista).isLt

theorem inserirNaHash_eq (tabela : Tabela) (pista suspeito : CStr) :
    inserirNaHash tabela pista suspeito =
      some (Function.update tabela (indice pista)
        ({ pista := pista, suspeito := suspeito } :: tabela (indice pista))) := by
  simp [inserirNaHash, hashFunction_lt, indice]

theorem encontrarSuspeito_eq (tabela : Tabela) (pista : CStr) :
    encontrarSuspeito tabela pista = some (percorrerCadeia (tabela (indice pista)) pista) := by
  simp [encontrarSuspeito, hashFunction_lt, indice]

theorem percorrerCadeia_isSome_iff (cadeia : List HashNode) (k : CStr) :
    (percorrerCadeia cadeia k).isSome ↔ ∃ n ∈ cadeia, n.pista = k := by
  induction cadeia with
  | nil => simp [percorrerCadeia]
  | cons n ns ih =>
    by_cases h : n.pista = k
    · simp [percorrerCadeia, h, strcmp_self]
    · have h0 : ¬ strcmp n.pista k = 0 := fun h0 => h ((strcmp_eq_zero_iff _ _).mp h0)
      simp [percorrerCadeia, h0, ih, h]

theorem percorrerCadeia_append_of_ne (l₁ l₂ : List HashNode) (k : CStr)
    (h : ∀ n ∈ l₁, n.pista ≠ k) :
    percorrerCadeia (l₁ ++ l₂) k = percorrerCadeia l₂ k := by
  induction l₁ with
  | nil => rfl
  | cons n ns ih =>
    have hn : ¬ strcmp n.pista k = 0 := fun h0 =>
      h n (List.mem_cons_self _ _) ((strcmp_eq_zero_iff _ _).mp h0)
    simp only [List.cons_append, percorrerCadeia, hn, if_false]
    exact ih (fun m hm => h m (List.mem_cons_of_mem _ hm))

theorem percorrerCadeia_cons_self (cadeia : List HashNode) (k v : CStr) :
    percorrerCadeia ({ pista := k, suspeito := v } :: cadeia) k = some v := by
  simp [percorrerCadeia, strcmp_self]

/-- The entries that a sequence of insertions leaves in bucket `i`, most recent first. -/
theorem inserirSequencia_eq (ops : List (CStr × CStr)) (tabela : Tabela) :
    ∃ t, inserirSequencia tabela ops = some t ∧
      ∀ i, t i = ((ops.reverse.filter (fun kv => indice kv.1 = i)).map
        (fun kv => ({ pista := kv.1, suspeito := kv.2 } : HashNode))) ++ tabela i := by
  induction ops generalizing tabela with
  | nil => exact ⟨tabela, rfl, fun i => by simp⟩
  | cons kv ops ih =>
    obtain ⟨k, v⟩ := kv
    obtain ⟨t, ht, hi⟩ := ih (Function.update tabela (indice k)
        ({ pista := k, suspeito := v } :: tabela (indice k)))
    refine ⟨t, ?_, ?_⟩
    · simp only [inserirSequencia, inserirNaHash_eq]
      exact ht
    · intro i
      rw [hi i]
      by_cases hik : indice k = i
      · subst hik
        simp [List.filter_append, List.filter_cons]
      · have hik2 : i ≠ indice k := fun h => hik h.symm
        simp [List.filter_append, List.filter_cons, hik, Function.update_noteq hik2]

/-- C5: for every Lookup Table built from the all-empty `HASH_SIZE`-bucket table by a
finite sequence of `inserirNaHash` calls, and for every key `k`, `encontrarSuspeito`
returns a suspect if and only if some call of the sequence inserted exactly the key
`k`, and returns `NULL` otherwise (also for a key that only shares its bucket with an
inserted key). -/
theorem encontrar_sse_inserida (ops : List (CStr × CStr)) :
    ∃ t, inserirSequencia tabelaVazia ops = some t ∧
      ∀ k : CStr, ∃ r, encontrarSuspeito t k = some r ∧
        (r.isSome ↔ ∃ v, (k, v) ∈ ops) ∧
        ((¬ ∃ v, (k, v) ∈ ops) → r = none) := by
  obtain ⟨t, ht, hi⟩ := inserirSequencia_eq ops tabelaVazia
  refine ⟨t, ht, fun k => ⟨_, encontrarSuspeito_eq t k, ?_⟩⟩
  have hiff : (percorrerCadeia (t (indice k)) k).isSome ↔ ∃ v, (k, v) ∈ ops := by
    rw [percorrerCadeia_isSome_iff, hi]
    simp only [tabelaVazia, List.append_nil, List.mem_map, List.mem_filter,
      List.mem_reverse, decide_eq_true_eq]
    constructor
    · rintro ⟨n, ⟨⟨k', v'⟩, ⟨hmem, _⟩, rfl⟩, hk⟩
      simp only at hk
      subst hk
      exact ⟨v', hmem⟩
    · rintro ⟨v, hmem⟩
      exact ⟨_, ⟨(k, v), ⟨hmem, rfl⟩, rfl⟩, rfl⟩
  refine ⟨hiff, fun hno => ?_⟩
  rw [← hiff] at hno
  simpa using hno

/-- Witness of C5: after "a" and "k" (same bucket) are inserted, "a" is found and the
key "u", which shares their bucket, is not. -/
theorem encontrar_sse_inserida_witness :
    (¬ ∃ v, ([117], v) ∈ [([97], [120]), ([107], [121])]) ∧
    indice [117] = indice [97] ∧
    ∃ t, inserirSequencia tabelaVazia [([97], [120]), ([107], [121])] = some t ∧
      encontrarSuspeito t [117] = some none ∧
      encontrarSuspeito t [97] = some (some [120]) := by
  have hno : ¬ ∃ v, (([117] : CStr), v) ∈
      [(([97] : CStr), ([120] : CStr)), ([107], [121])] := by simp
  obtain ⟨t, ht, hk⟩ := encontrar_sse_inserida [([97], [120]), ([107], [121])]
  obtain ⟨r, hr, _, hnone⟩ := hk [117]
  refine ⟨hno, by decide, t, ht, ?_, ?_⟩
  · rw [hr, hnone hno]
  · simp only [inserirSequencia, inserirNaHash_eq, Option.some.injEq] at ht
    subst ht
    rw [encontrarSuspeito_eq]
    decide

/-- C6: for every Lookup Table, key `k` and value `v`, `encontrarSuspeito` after
`inserirNaHash(table, k, v)` returns `v`, and the chain of the bucket of `k` is the new
entry followed by the old chain.  Consequently, after any sequence of insertions every
inserted entry is in the chain of its bucket (entries with the same key coexist), and
the lookup of `k` returns the suspect of the most recent insertion of `k`. -/
theorem encontrar_apos_inserir (tabela : Tabela) (k v : CStr) :
    (∃ t, inserirNaHash tabela k v = some t ∧
      encontrarSuspeito t k = some (some v) ∧
      t (indice k) = { pista := k, suspeito := v } :: tabela (indice k)) ∧
    (∀ antes depois : List (CStr × CStr), (∀ kv ∈ depois, kv.1 ≠ k) →
      ∃ t, inserirSequencia tabela (antes ++ (k, v) :: depois) = some t ∧
        encontrarSuspeito t k = some (some v) ∧
        ∀ kv ∈ antes ++ (k, v) :: depois,
          ({ pista := kv.1, suspeito := kv.2 } : HashNode) ∈ t (indice kv.1)) := by
  constructor
  · refine ⟨_, inserirNaHash_eq tabela k v, ?_, ?_⟩
    · rw [encontrarSuspeito_eq, Function.update_same, percorrerCadeia_cons_self]
    · rw [Function.update_same]
  · intro antes depois hdep
    obtain ⟨t, ht, hi⟩ := inserirSequencia_eq (antes ++ (k, v) :: depois) tabela
    refine ⟨t, ht, ?_, ?_⟩
    · rw [encontrarSuspeito_eq, hi]
      simp only [List.reverse_append, List.reverse_cons, List.filter_append,
        List.map_append, List.append_assoc, List.filter_cons, List.filter_nil,
        decide_True, if_true, List.map_cons, List.map_nil, List.singleton_append,
        List.nil_append]
      rw [percorrerCadeia_append_of_ne, List.cons_append, percorrerCadeia_cons_self]
      intro n hn
      simp only [List.mem_map, List.mem_filter, List.mem_reverse] at hn
      obtain ⟨kv, ⟨hmem, _⟩, rfl⟩ := hn
      exact hdep kv hmem
    · intro kv hkv
      rw [hi]
      apply List.mem_append_left
      simp only [List.mem_map, List.mem_filter, List.mem_reverse, decide_eq_true_eq]
      exact ⟨kv, ⟨hkv, rfl⟩, rfl⟩

/-- Witness of C6: the key "a" inserted with suspect "x", then with suspect "y", then
the key "k" of the same bucket: both entries of "a" are in the chain and the lookup of
"a" returns "y". -/
theorem encontrar_apos_inserir_witness :
    (∀ kv ∈ [(([107] : CStr), ([122] : CStr))], kv.1 ≠ [97]) ∧
    ∃ t, inserirSequencia tabelaVazia ([([97], [120])] ++ ([97], [121]) :: [([107], [122])])
        = some t ∧
      encontrarSuspeito t [97] = some (some [121]) ∧
      ∀ kv ∈ [(([97] : CStr), ([120] : CStr))] ++ ([97], [121]) :: [([107], [122])],
        ({ pista := kv.1, suspeito := kv.2 } : HashNode) ∈ t (indice kv.1) :=
  ⟨by decide,
   (encontrar_apos_inserir tabelaVazia [97] [121]).2 [([97], [120])] [([107], [122])]
     (by decide)⟩

theorem charParaULong_eq (b : Nat) (hb : b < 128) : charParaULong b = b := by
  simp [charParaULong, hb]

/-- The value added for a byte is the value of the `char` converted to `unsigned long`. -/
theorem charParaULong_valorChar (b : Nat) (hb : b < 256) :
    (charParaULong b : Int) = valorChar b % 2 ^ ULONG_BITS := by
  unfold charParaULong valorChar
  split_ifs with h
  · rw [Int.emod_eq_of_lt (by omega) (by norm_num; omega)]
  · have h1 : ((b : Int) - 256) % 2 ^ ULONG_BITS = (b : Int) - 256 + 2 ^ ULONG_BITS := by
      rw [← Int.add_emod_self]
      exact Int.emod_eq_of_lt (by norm_num; omega) (by norm_num; omega)
    rw [h1]
    norm_num
    omega

/-- On a string of 7-bit characters the loop adds the bytes to the accumulator. -/
theorem acumularHash_eq (key : CStr) (hb : ∀ c ∈ key, 0 < c ∧ c < 128) (a : Nat)
    (ha : a < 2 ^ ULONG_BITS) :
    acumularHash a key = (a + key.sum) % 2 ^ ULONG_BITS := by
  induction key generalizing a with
  | nil => simp [acumularHash, Nat.mod_eq_of_lt ha]
  | cons c cs ih =>
    obtain ⟨hc0, hc1⟩ := hb c (List.mem_cons_self _ _)
    have hne : c ≠ 0 := by omega
    rw [acumularHash, if_neg hne, charParaULong_eq c hc1,
      ih (fun x hx => hb x (List.mem_cons_of_mem _ hx)) _ (Nat.mod_lt _ (by norm_num)),
      List.sum_cons, Nat.mod_add_mod, Nat.add_assoc]

/-- A string of 7-bit characters that is shorter than `2 ^ 57` bytes does not overflow
the accumulator. -/
theorem sum_lt_of_bytes (key : CStr) (hb : ∀ c ∈ key, c < 128) (hl : key.length < 2 ^ 57) :
    key.sum < 2 ^ ULONG_BITS := by
  have h1 : key.sum ≤ key.length • 127 :=
    List.sum_le_card_nsmul key 127 (fun c hc => by have := hb c hc; omega)
  simp only [smul_eq_mul] at h1
  have h2 : key.length * 127 < 2 ^ 57 * 128 := by
    calc key.length * 127 ≤ key.length * 128 := Nat.mul_le_mul_left _ (by omega)
      _ < 2 ^ 57 * 128 := Nat.mul_lt_mul_of_pos_right hl (by omega)
  have h3 : (2 : Nat) ^ 57 * 128 = 2 ^ ULONG_BITS := by norm_num
  omega

/-- C7 (as amended): for every key string of 7-bit characters (codes 1 to 127) whose
codes do not overflow the `unsigned long` accumulator (their sum is below `2 ^ 64`, as
it is for every such string shorter than `2 ^ 57` bytes; the buffers of the program
hold at most 99), `hashFunction` returns the sum of the character codes of the key
reduced modulo 10; the empty key hashes to 0. -/
theorem hashFunction_soma (key : CStr) (hb : ∀ c ∈ key, 0 < c ∧ c < 128)
    (hsum : key.sum < 2 ^ ULONG_BITS) :
    hashFunction key = key.sum % 10 ∧ hashFunction [] = 0 := by
  refine ⟨?_, rfl⟩
  unfold hashFunction
  rw [acumularHash_eq key hb 0 (by norm_num), Nat.zero_add, Nat.mod_eq_of_lt hsum]

/-- Witness of C7 (as amended): the key "Pegadas", of sum 693, hashes to 693 mod 10. -/
theorem hashFunction_soma_witness :
    (∀ c ∈ cstr "Pegadas", 0 < c ∧ c < 128) ∧
    (cstr "Pegadas").sum < 2 ^ ULONG_BITS ∧
    (hashFunction (cstr "Pegadas") = (cstr "Pegadas").sum % 10 ∧ hashFunction [] = 0) ∧
    (cstr "Pegadas").sum = 693 :=
  ⟨by decide, by decide, hashFunction_soma (cstr "Pegadas") (by decide) (by decide),
   by decide⟩

/-- Counterexample to C7 as stated: a key with a byte from 128 on.  For the bytes 97,
233 the code returns 4 while the sum of the bytes modulo 10 is 0; for the bytes 233,
233 the code returns 0 while the sum modulo 10 is 6 for the bytes and 4 for the
(negative) values of the `char`s. -/
theorem hashFunction_byte_alto :
    hashFunction [97, 233] = 4 ∧ ([97, 233] : CStr).sum % 10 = 0 ∧
    hashFunction [233, 233] = 0 ∧ ([233, 233] : CStr).sum % 10 = 6 ∧
    (valorChar 233 + valorChar 233) % 10 = 4 := by
  refine ⟨by decide, by decide, by decide, by decide, by decide⟩

/-! ## Facts about the verdict -/

theorem contarPistasParaSuspeito_eq (t : PistaNode) (tabela : Tabela) (acusado : CStr) :
    contarPistasParaSuspeito t tabela acusado =
      some ((exibirPistas t).countP
        (fun k => decide (encontrarSuspeito tabela k = some (some acusado)))) := by
  induction t with
  | null => rfl
  | node p l r ihl ihr =>
    simp only [contarPistasParaSuspeito, ihl, ihr, exibirPistas, List.countP_append,
      List.countP_cons]
    rw [encontrarSuspeito_eq]
    simp only [Option.some.injEq]
    cases hp : percorrerCadeia (tabela (indice p)) p with
    | none => simp
    | some s =>
      by_cases hs : s = acusado
      · subst hs
        simp [strcmp_self]; omega
      · have h0 : ¬ strcmp s acusado = 0 := fun h0 => hs ((strcmp_eq_zero_iff _ _).mp h0)
        simp [h0, hs]

theorem countP_eq_card_filter (l : List CStr) (hn : l.Nodup) (p : CStr → Prop)
    [DecidablePred p] :
    l.countP (fun k => decide (p k)) = (l.toFinset.filter p).card := by
  rw [List.countP_eq_length_filter, ← List.toFinset_card_of_nodup (hn.filter _),
    List.toFinset_filter]
  simp

/-- C8: for every Clue Index that satisfies the search-tree invariant, every Lookup
Table and every accused name, `contarPistasParaSuspeito` returns the number of keys of
the Clue Index for which `encontrarSuspeito` returns a suspect equal, byte for byte, to
the accused name; that number is the count of such entries in the in-order listing. -/
theorem contar_pistas_do_acusado (t : PistaNode) (tabela : Tabela) (acusado : CStr)
    (h : ordenada t) :
    contarPistasParaSuspeito t tabela acusado =
      some ((exibirPistas t).toFinset.filter
        (fun k => encontrarSuspeito tabela k = some (some acusado))).card ∧
    ((exibirPistas t).toFinset.filter
        (fun k => encontrarSuspeito tabela k = some (some acusado))).card =
      (exibirPistas t).countP
        (fun k => decide (encontrarSuspeito tabela k = some (some acusado))) := by
  have hc := countP_eq_card_filter (exibirPistas t) (nodup_exibirPistas t h)
    (fun k => encontrarSuspeito tabela k = some (some acusado))
  exact ⟨by rw [contarPistasParaSuspeito_eq, hc], hc.symm⟩

/-- Witness of C8: the ordered index with the keys "a" and "b", both associated with
the suspect "x" in the table: the count for "x" is 2. -/
theorem contar_pistas_do_acusado_witness :
    ordenada (.node [98] (.node [97] .null .null) .null) ∧
    (contarPistasParaSuspeito (.node [98] (.node [97] .null .null) .null)
        (Function.update (Function.update tabelaVazia (indice [97])
          [{ pista := [97], suspeito := [120] }]) (indice [98])
          [{ pista := [98], suspeito := [120] }]) [120] =
      some ((exibirPistas (.node [98] (.node [97] .null .null) .null)).toFinset.filter
        (fun k => encontrarSuspeito
          (Function.update (Function.update tabelaVazia (indice [97])
            [{ pista := [97], suspeito := [120] }]) (indice [98])
            [{ pista := [98], suspeito := [120] }]) k = some (some [120]))).card ∧
     ((exibirPistas (.node [98] (.node [97] .null .null) .null)).toFinset.filter
        (fun k => encontrarSuspeito
          (Function.update (Function.update tabelaVazia (indice [97])
            [{ pista := [97], suspeito := [120] }]) (indice [98])
            [{ pista := [98], suspeito := [120] }]) k = some (some [120]))).card =
      (exibirPistas (.node [98] (.node [97] .null .null) .null)).countP
        (fun k => decide (encontrarSuspeito
          (Function.update (Function.update tabelaVazia (indice [97])
            [{ pista := [97], suspeito := [120] }]) (indice [98])
            [{ pista := [98], suspeito := [120] }]) k = some (some [120])))) ∧
    contarPistasParaSuspeito (.node [98] (.node [97] .null .null) .null)
        (Function.update (Function.update tabelaVazia (indice [97])
          [{ pista := [97], suspeito := [120] }]) (indice [98])
          [{ pista := [98], suspeito := [120] }]) [120] = some 2 :=
  ⟨by decide, contar_pistas_do_acusado _ _ [120] (by decide), by decide⟩

theorem verificarSuspeitoFinal_node (p : CStr) (l r : PistaNode) (tabela : Tabela)
    (stdin : List Nat) (acusado : CStr) (resto : List Nat) (n : Nat)
    (hler : lerAcusado stdin = some (acusado, resto))
    (hn : contarPistasParaSuspeito (.node p l r) tabela acusado = some n) :
    verificarSuspeitoFinal (.node p l r) tabela stdin =
      if n ≥ 2 then some (.desvendado acusado n, resto)
      else some (.escapou acusado n, resto) := by
  simp only [verificarSuspeitoFinal, hler, hn]

/-- C9: for every non-empty Clue Index, Lookup Table and accused name read from the
input, `verificarSuspeitoFinal` upholds the accusation if and only if the count that
`contarPistasParaSuspeito` returns is at least 2, and rejects it otherwise; an accused
with no matching clue gets the count 0 and the accusation is rejected. -/
theorem veredito_sse_duas_pistas (bst : PistaNode) (tabela : Tabela) (stdin : List Nat)
    (acusado : CStr) (resto : List Nat) (hne : bst ≠ .null)
    (hler : lerAcusado stdin = some (acusado, resto)) :
    ∃ n, contarPistasParaSuspeito bst tabela acusado = some n ∧
      (verificarSuspeitoFinal bst tabela stdin = some (.desvendado acusado n, resto) ↔
        n ≥ 2) ∧
      (verificarSuspeitoFinal bst tabela stdin = some (.escapou acusado n, resto) ↔
        n < 2) ∧
      ((∀ k ∈ exibirPistas bst, encontrarSuspeito tabela k ≠ some (some acusado)) →
        n = 0 ∧
        verificarSuspeitoFinal bst tabela stdin = some (.escapou acusado 0, resto)) := by
  cases bst with
  | null => exact absurd rfl hne
  | node p l r =>
    refine ⟨_, contarPistasParaSuspeito_eq _ tabela acusado, ?_, ?_, ?_⟩
    · rw [verificarSuspeitoFinal_node p l r tabela stdin acusado resto _ hler
        (contarPistasParaSuspeito_eq _ tabela acusado)]
      split_ifs with h <;> simp [h]
    · rw [verificarSuspeitoFinal_node p l r tabela stdin acusado resto _ hler
        (contarPistasParaSuspeito_eq _ tabela acusado)]
      split_ifs with h <;> simp [h]
      omega
    · intro hnone
      have h0 : (exibirPistas (.node p l r)).countP
          (fun k => decide (encontrarSuspeito tabela k = some (some acusado))) = 0 := by
        rw [List.countP_eq_zero]
        intro k hk
        simpa using hnone k hk
      refine ⟨h0, ?_⟩
      rw [verificarSuspeitoFinal_node p l r tabela stdin acusado resto _ hler
        (contarPistasParaSuspeito_eq _ tabela acusado), h0]
      simp

/-- Witness of C9: the clues "a" and "b", both associated with "x"; the input is the
bytes `x`, NUL, `y`, newline, so the accused is the C string "x": two clues, and the
accusation is upheld. -/
theorem veredito_sse_duas_pistas_witness :
    PistaNode.node [98] (.node [97] .null .null) .null ≠ .null ∧
    lerAcusado [120, 0, 121, 10] = some ([120], [10]) ∧
    (∃ n, contarPistasParaSuspeito (.node [98] (.node [97] .null .null) .null)
        (Function.update (Function.update tabelaVazia (indice [97])
          [{ pista := [97], suspeito := [120] }]) (indice [98])
          [{ pista := [98], suspeito := [120] }])
        [120] = some n ∧
      (verificarSuspeitoFinal (.node [98] (.node [97] .null .null) .null)
        (Function.update (Function.update tabelaVazia (indice [97])
          [{ pista := [97], suspeito := [120] }]) (indice [98])
          [{ pista := [98], suspeito := [120] }])
        [120, 0, 121, 10] = some (.desvendado [120] n, [10]) ↔ n ≥ 2) ∧
      (verificarSuspeitoFinal (.node [98] (.node [97] .null .null) .null)
        (Function.update (Function.update tabelaVazia (indice [97])
          [{ pista := [97], suspeito := [120] }]) (indice [98])
          [{ pista := [98], suspeito := [120] }])
        [120, 0, 121, 10] = some (.escapou [120] n, [10]) ↔ n < 2) ∧
      ((∀ k ∈ exibirPistas (.node [98] (.node [97] .null .null) .null),
          encontrarSuspeito
            (Function.update (Function.update tabelaVazia (indice [97])
              [{ pista := [97], suspeito := [120] }]) (indice [98])
              [{ pista := [98], suspeito := [120] }]) k ≠ some (some [120])) →
        n = 0 ∧
        verificarSuspeitoFinal (.node [98] (.node [97] .null .null) .null)
          (Function.update (Function.update tabelaVazia (indice [97])
            [{ pista := [97], suspeito := [120] }]) (indice [98])
            [{ pista := [98], suspeito := [120] }])
          [120, 0, 121, 10] = some (.escapou [120] 0, [10]))) ∧
    verificarSuspeitoFinal (.node [98] (.node [97] .null .null) .null)
      (Function.update (Function.update tabelaVazia (indice [97])
        [{ pista := [97], suspeito := [120] }]) (indice [98])
        [{ pista := [98], suspeito := [120] }])
      [120, 0, 121, 10] = some (.desvendado [120] 2, [10]) :=
  ⟨by decide, by decide,
   veredito_sse_duas_pistas (.node [98] (.node [97] .null .null) .null) _
     [120, 0, 121, 10] [120] [10] (by decide) (by decide),
   by decide⟩

namespace Mestre

theorem explorarSalas_of_null (e : Estado) (stdin : List Nat) (h : e.sala = .null) :
    explorarSalas e stdin = some (e, stdin) := by
  cases stdin <;> simp [explorarSalas, h]

/-- C10: in mestre.c on the map built by `main`, the single exit command (`s` or `S`)
issued in the start room ends the exploration with the Clue Index empty and the Lookup
Table empty and `main` reports "insufficient evidence"; `verificarSuspeitoFinal` on an
empty Clue Index reports "insufficient evidence" whatever the table and the input are,
reads no accused name (the input is left as it was) and computes no count. -/
theorem saida_imediata (resto : List Nat) (tabela : Tabela) (stdin : List Nat) :
    (∃ e, explorarSalas estadoInicial ('s'.toNat :: resto) = some (e, resto) ∧
      e.salaAtual = none ∧ e.bstPistas = .null ∧ e.tabelaHash = tabelaVazia ∧
      e.mapa = hall) ∧
    (∃ e, explorarSalas estadoInicial ('S'.toNat :: resto) = some (e, resto) ∧
      e.salaAtual = none ∧ e.bstPistas = .null ∧ e.tabelaHash = tabelaVazia ∧
      e.mapa = hall) ∧
    main ('s'.toNat :: resto) = some (.semPistas, resto) ∧
    main ('S'.toNat :: resto) = some (.semPistas, resto) ∧
    verificarSuspeitoFinal .null tabela stdin = some (.semPistas, stdin) := by
  have hs : passo estadoInicial 's'.toNat = some { estadoInicial with salaAtual := none } :=
    rfl
  have hS : passo estadoInicial 'S'.toNat = some { estadoInicial with salaAtual := none } :=
    rfl
  have h1 : explorarSalas estadoInicial ('s'.toNat :: resto) =
      some ({ estadoInicial with salaAtual := none }, resto) := by
    rw [explorarSalas]
    simp only [hs]
    exact explorarSalas_of_null _ resto rfl
  have h2 : explorarSalas estadoInicial ('S'.toNat :: resto) =
      some ({ estadoInicial with salaAtual := none }, resto) := by
    rw [explorarSalas]
    simp only [hS]
    exact explorarSalas_of_null _ resto rfl
  refine ⟨⟨_, h1, rfl, rfl, rfl, rfl⟩, ⟨_, h2, rfl, rfl, rfl, rfl⟩, ?_, ?_, rfl⟩
  · simp only [main, h1]; rfl
  · simp only [main, h2]; rfl

end Mestre

/-! ## Facts about the Room Map -/

theorem Sala.em_null (c : List Direcao) : Sala.null.em c = .null := by
  cases c <;> rfl

theorem Sala.em_nil (m : Sala) : m.em [] = m := by
  cases m <;> rfl

theorem Sala.em_append (m : Sala) (p q : List Direcao) : m.em (p ++ q) = (m.em p).em q := by
  induction p generalizing m with
  | nil => simp [Sala.em_nil]
  | cons d p ih =>
    cases m with
    | null => simp [Sala.em, Sala.em_null]
    | node n pi e r => cases d <;> simp [Sala.em, ih]

theorem Sala.em_esquerda (m : Sala) (p : List Direcao) (n pi : CStr) (e d : Sala)
    (h : m.em p = .node n pi e d) : m.em (p ++ [.esquerda]) = e := by
  rw [Sala.em_append, h]; simp [Sala.em, Sala.em_nil]

theorem Sala.em_direita (m : Sala) (p : List Direcao) (n pi : CStr) (e d : Sala)
    (h : m.em p = .node n pi e d) : m.em (p ++ [.direita]) = d := by
  rw [Sala.em_append, h]; simp [Sala.em, Sala.em_nil]

theorem Sala.filho_eq_none (m : Sala) (p : List Direcao) (dr : Direcao)
    (h : m.em (p ++ [dr]) = .null) : m.filho p dr = none := by
  simp [Sala.filho, h]

theorem Sala.filho_eq_some (m : Sala) (p : List Direcao) (dr : Direcao)
    (h : m.em (p ++ [dr]) ≠ .null) : m.filho p dr = some (p ++ [dr]) := by
  unfold Sala.filho
  cases hm : m.em (p ++ [dr]) with
  | null => exact absurd hm h
  | node _ _ _ _ => rfl

namespace Aventureiro

theorem processarPista_mapa (e : Estado) (pista : CStr) :
    (processarPista e pista).mapa = e.mapa := by
  unfold processarPista; split_ifs <;> rfl

theorem processarPista_salaAtual (e : Estado) (pista : CStr) :
    (processarPista e pista).salaAtual = e.salaAtual := by
  unfold processarPista; split_ifs <;> rfl

theorem passo_eq_aventureiro (e : Estado) (caminho : List Direcao) (nome pista : CStr) (esq dir : Sala)
    (c : Nat) (hs : e.salaAtual = some caminho)
    (hm : e.mapa.em caminho = .node nome pista esq dir) :
    passo e c = processarEscolha (processarPista e pista) caminho c := by
  simp [passo, hs, hm]

/-- The cursor and the map after the `switch` on a go-left or go-right command. -/
theorem processarEscolha_mover_aventureiro (e : Estado) (caminho : List Direcao) (c : Nat)
    (dr : Direcao)
    (hc : (dr = .esquerda ∧ (c = 'e'.toNat ∨ c = 'E'.toNat)) ∨
          (dr = .direita ∧ (c = 'd'.toNat ∨ c = 'D'.toNat))) :
    (processarEscolha e caminho c).mapa = e.mapa ∧
    (processarEscolha e caminho c).bstPistas = e.bstPistas ∧
    (e.mapa.em (caminho ++ [dr]) ≠ .null →
      (processarEscolha e caminho c).salaAtual = some (caminho ++ [dr])) ∧
    (e.mapa.em (caminho ++ [dr]) = .null → processarEscolha e caminho c = e) := by
  have key : processarEscolha e caminho c =
      match e.mapa.filho caminho dr with
      | some filho => { e with salaAtual := some filho, pistaColetadaNestaSala := false }
      | none => e := by
    rcases hc with ⟨rfl, rfl | rfl⟩ | ⟨rfl, rfl | rfl⟩ <;> simp [processarEscolha]
  rw [key]
  by_cases hn : e.mapa.em (caminho ++ [dr]) = .null
  · simp [Sala.filho_eq_none _ _ _ hn, hn]
  · simp [Sala.filho_eq_some _ _ _ hn, hn]

end Aventureiro

namespace Novato

theorem Sala.em_null_novato (c : List Direcao) : Sala.null.em c = .null := by
  cases c <;> rfl

theorem Sala.em_nil_novato (m : Sala) : m.em [] = m := by
  cases m <;> rfl

theorem Sala.em_append_novato (m : Sala) (p q : List Direcao) : m.em (p ++ q) = (m.em p).em q := by
  induction p generalizing m with
  | nil => simp [Sala.em_nil_novato]
  | cons d p ih =>
    cases m with
    | null => simp [Sala.em, Sala.em_null_novato]
    | node n e r => cases d <;> simp [Sala.em, ih]

theorem Sala.filho_eq_none_novato (m : Sala) (p : List Direcao) (dr : Direcao)
    (h : m.em (p ++ [dr]) = .null) : m.filho p dr = none := by
  simp [Sala.filho, h]

theorem Sala.filho_eq_some_novato (m : Sala) (p : List Direcao) (dr : Direcao)
    (h : m.em (p ++ [dr]) ≠ .null) : m.filho p dr = some (p ++ [dr]) := by
  unfold Sala.filho
  cases hm : m.em (p ++ [dr]) with
  | null => exact absurd hm h
  | node _ _ _ => rfl

theorem passo_eq_novato (e : Estado) (caminho : List Direcao) (c : Nat)
    (hs : e.salaAtual = some caminho) (hf : e.fim = false) :
    passo e c = processarEscolha e caminho c := by
  simp [passo, hs, hf]

/-- The cursor and the map after the `switch` on a go-left or go-right command. -/
theorem processarEscolha_mover_novato (e : Estado) (caminho : List Direcao) (c : Nat)
    (dr : Direcao)
    (hc : (dr = .esquerda ∧ (c = 'e'.toNat ∨ c = 'E'.toNat)) ∨
          (dr = .direita ∧ (c = 'd'.toNat ∨ c = 'D'.toNat))) :
    (processarEscolha e caminho c).mapa = e.mapa ∧
    (e.mapa.em (caminho ++ [dr]) ≠ .null →
      (processarEscolha e caminho c).salaAtual = some (caminho ++ [dr])) ∧
    (e.mapa.em (caminho ++ [dr]) = .null → processarEscolha e caminho c = e) := by
  have key : processarEscolha e caminho c =
      match e.mapa.filho caminho dr with
      | some filho => { e with salaAtual := some filho }
      | none => e := by
    rcases hc with ⟨rfl, rfl | rfl⟩ | ⟨rfl, rfl | rfl⟩ <;> simp [processarEscolha]
  rw [key]
  by_cases hn : e.mapa.em (caminho ++ [dr]) = .null
  · simp [Sala.filho_eq_none_novato _ _ _ hn, hn]
  · simp [Sala.filho_eq_some_novato _ _ _ hn, hn]

end Novato

theorem Sala.em_snoc (m : Sala) (p : List Direcao) (dr : Direcao) :
    m.em (p ++ [dr]) = (m.em p).ligacao dr := by
  rw [Sala.em_append]
  cases m.em p <;> cases dr <;> simp [Sala.em, Sala.ligacao, Sala.em_nil]

theorem Novato.Sala.em_snoc_novato (m : Novato.Sala) (p : List Direcao) (dr : Direcao) :
    m.em (p ++ [dr]) = (m.em p).ligacao dr := by
  rw [Novato.Sala.em_append_novato]
  cases m.em p <;> cases dr <;>
    simp [Novato.Sala.em, Novato.Sala.ligacao, Novato.Sala.em_nil_novato]

theorem Novato.fim_eq_false (e : Novato.Estado) (caminho : List Direcao)
    (hs : e.salaAtual = some caminho) (hf : e.fim = false) : e.mapa.em caminho ≠ .null := by
  intro hn
  simp [Novato.Estado.fim, Novato.Estado.sala, hs, hn] at hf

/-- The cursor after a go-left (`e`, `E`) or go-right (`d`, `D`) command in aventureiro.c
(at any room) and in novato.c (at a room that has a link): the addressed child when
that child exists and the same room as before when it does not; the map is as before
and `salaAtual` is not `NULL`. -/
theorem mover_cursor_passo :
    (∀ (e : Aventureiro.Estado) (caminho : List Direcao) (c : Nat) (dr : Direcao),
      e.salaAtual = some caminho → e.mapa.em caminho ≠ .null →
      ((dr = .esquerda ∧ (c = 'e'.toNat ∨ c = 'E'.toNat)) ∨
       (dr = .direita ∧ (c = 'd'.toNat ∨ c = 'D'.toNat))) →
      ((e.mapa.em caminho).ligacao dr ≠ .null →
        (Aventureiro.passo e c).salaAtual = some (caminho ++ [dr]) ∧
        (Aventureiro.passo e c).sala = (e.mapa.em caminho).ligacao dr) ∧
      ((e.mapa.em caminho).ligacao dr = .null →
        (Aventureiro.passo e c).salaAtual = some caminho ∧
        (Aventureiro.passo e c).sala = e.mapa.em caminho) ∧
      (Aventureiro.passo e c).mapa = e.mapa ∧
      (Aventureiro.passo e c).sala ≠ .null) ∧
    (∀ (e : Novato.Estado) (caminho : List Direcao) (c : Nat) (dr : Direcao),
      e.salaAtual = some caminho → e.fim = false →
      ((dr = .esquerda ∧ (c = 'e'.toNat ∨ c = 'E'.toNat)) ∨
       (dr = .direita ∧ (c = 'd'.toNat ∨ c = 'D'.toNat))) →
      ((e.mapa.em caminho).ligacao dr ≠ .null →
        (Novato.passo e c).salaAtual = some (caminho ++ [dr]) ∧
        (Novato.passo e c).sala = (e.mapa.em caminho).ligacao dr) ∧
      ((e.mapa.em caminho).ligacao dr = .null →
        (Novato.passo e c).salaAtual = some caminho ∧
        (Novato.passo e c).sala = e.mapa.em caminho) ∧
      (Novato.passo e c).mapa = e.mapa ∧
      (Novato.passo e c).sala ≠ .null) := by
  constructor
  · intro e caminho c dr hs hsala hc
    obtain ⟨nome, pista, esq, dir, hm⟩ : ∃ nome pista esq dir,
        e.mapa.em caminho = .node nome pista esq dir := by
      cases hm : e.mapa.em caminho with
      | null => exact absurd hm hsala
      | node nome pista esq dir => exact ⟨_, _, _, _, rfl⟩
    rw [Aventureiro.passo_eq_aventureiro e caminho nome pista esq dir c hs hm]
    obtain ⟨h1, _, h3, h4⟩ :=
      Aventureiro.processarEscolha_mover_aventureiro (Aventureiro.processarPista e pista) caminho c dr hc
    rw [Aventureiro.processarPista_mapa] at h1 h3 h4
    rw [Sala.em_snoc] at h3 h4
    have hmove : (e.mapa.em caminho).ligacao dr ≠ .null →
        (Aventureiro.processarEscolha (Aventureiro.processarPista e pista) caminho c).sala =
          (e.mapa.em caminho).ligacao dr := by
      intro hn
      simp only [Aventureiro.Estado.sala, h3 hn, h1, Sala.em_snoc]
    have hstay : (e.mapa.em caminho).ligacao dr = .null →
        (Aventureiro.processarEscolha (Aventureiro.processarPista e pista) caminho c).sala =
          e.mapa.em caminho := by
      intro hn
      rw [h4 hn]
      simp only [Aventureiro.Estado.sala, Aventureiro.processarPista_salaAtual,
        Aventureiro.processarPista_mapa, hs]
    refine ⟨fun hn => ⟨h3 hn, hmove hn⟩, fun hn => ⟨?_, hstay hn⟩, h1, ?_⟩
    · rw [h4 hn, Aventureiro.processarPista_salaAtual, hs]
    · by_cases hn : (e.mapa.em caminho).ligacao dr = .null
      · rw [hstay hn]; exact hsala
      · rw [hmove hn]; exact hn
  · intro e caminho c dr hs hf hc
    have hsala := Novato.fim_eq_false e caminho hs hf
    rw [Novato.passo_eq_novato e caminho c hs hf]
    obtain ⟨h1, h3, h4⟩ := Novato.processarEscolha_mover_novato e caminho c dr hc
    rw [Novato.Sala.em_snoc_novato] at h3 h4
    have hmove : (e.mapa.em caminho).ligacao dr ≠ .null →
        (Novato.processarEscolha e caminho c).sala = (e.mapa.em caminho).ligacao dr := by
      intro hn
      simp only [Novato.Estado.sala, h3 hn, h1, Novato.Sala.em_snoc_novato]
    have hstay : (e.mapa.em caminho).ligacao dr = .null →
        (Novato.processarEscolha e caminho c).sala = e.mapa.em caminho := by
      intro hn
      rw [h4 hn]
      simp only [Novato.Estado.sala, hs]
    refine ⟨fun hn => ⟨h3 hn, hmove hn⟩, fun hn => ⟨?_, hstay hn⟩, h1, ?_⟩
    · rw [h4 hn, hs]
    · by_cases hn : (e.mapa.em caminho).ligacao dr = .null
      · rw [hstay hn]; exact hsala
      · rw [hmove hn]; exact hn

theorem Novato.explorarSalas_of_fim (e : Novato.Estado) (stdin : List Nat)
    (h : e.fim = true) : Novato.explorarSalas e stdin = some (e, stdin) := by
  cases stdin <;> simp [Novato.explorarSalas, h]

theorem Novato.fim_iff (e : Novato.Estado) (hs : e.sala ≠ .null) :
    e.fim = true ↔
      e.sala.ligacao .esquerda = .null ∧ e.sala.ligacao .direita = .null := by
  unfold Novato.Estado.fim
  cases hsala : e.sala with
  | null => exact absurd hsala hs
  | node n l r => cases l <;> cases r <;> simp [Novato.Sala.ligacao]

theorem Novato.explorarSalas_of_not_fim (e : Novato.Estado) (h : e.fim = false) :
    Novato.explorarSalas e [] = none := by
  simp [Novato.explorarSalas, h]

theorem Aventureiro.explorarSalasComPistas_nil (e : Aventureiro.Estado)
    (h : e.sala ≠ .null) : Aventureiro.explorarSalasComPistas e [] = none := by
  cases hsala : e.sala with
  | null => exact absurd hsala h
  | node _ _ _ _ => simp [Aventureiro.explorarSalasComPistas, hsala]

/-- C11 (as amended): in aventureiro.c (`explorarSalasComPistas`, at any room) and in
novato.c (`explorarSalas`, at a room that has a link), for every Room Map and every
go-left (`e`, `E`) or go-right (`d`, `D`) command, the cursor after the command is the
addressed child when that child exists and the same room as before when it does not,
and the map is as before.  In aventureiro.c the exploration has not ended: the loop
goes on to await another command.  In novato.c the exploration has not ended when the
addressed child is absent (the state is the one before the command) or has a link of
its own; when the addressed child exists and has no links the exploration ends on it,
with no further command read. -/
theorem cursor_apos_mover :
    (∀ (e : Aventureiro.Estado) (caminho : List Direcao) (c : Nat) (dr : Direcao),
      e.salaAtual = some caminho → e.mapa.em caminho ≠ .null →
      ((dr = .esquerda ∧ (c = 'e'.toNat ∨ c = 'E'.toNat)) ∨
       (dr = .direita ∧ (c = 'd'.toNat ∨ c = 'D'.toNat))) →
      ((e.mapa.em caminho).ligacao dr ≠ .null →
        (Aventureiro.passo e c).salaAtual = some (caminho ++ [dr]) ∧
        (Aventureiro.passo e c).sala = (e.mapa.em caminho).ligacao dr) ∧
      ((e.mapa.em caminho).ligacao dr = .null →
        (Aventureiro.passo e c).salaAtual = some caminho ∧
        (Aventureiro.passo e c).sala = e.mapa.em caminho) ∧
      (Aventureiro.passo e c).mapa = e.mapa ∧
      (Aventureiro.passo e c).sala ≠ .null ∧
      Aventureiro.explorarSalasComPistas (Aventureiro.passo e c) [] = none) ∧
    (∀ (e : Novato.Estado) (caminho : List Direcao) (c : Nat) (dr : Direcao),
      e.salaAtual = some caminho → e.fim = false →
      ((dr = .esquerda ∧ (c = 'e'.toNat ∨ c = 'E'.toNat)) ∨
       (dr = .direita ∧ (c = 'd'.toNat ∨ c = 'D'.toNat))) →
      ((e.mapa.em caminho).ligacao dr ≠ .null →
        (Novato.passo e c).salaAtual = some (caminho ++ [dr]) ∧
        (Novato.passo e c).sala = (e.mapa.em caminho).ligacao dr ∧
        ((Novato.passo e c).fim = true ↔
          ((e.mapa.em caminho).ligacao dr).ligacao .esquerda = .null ∧
          ((e.mapa.em caminho).ligacao dr).ligacao .direita = .null)) ∧
      ((e.mapa.em caminho).ligacao dr = .null →
        Novato.passo e c = e ∧
        (Novato.passo e c).salaAtual = some caminho ∧
        (Novato.passo e c).sala = e.mapa.em caminho ∧
        (Novato.passo e c).fim = false) ∧
      (Novato.passo e c).mapa = e.mapa ∧
      (Novato.passo e c).sala ≠ .null ∧
      ((Novato.passo e c).fim = false →
        Novato.explorarSalas (Novato.passo e c) [] = none) ∧
      ((Novato.passo e c).fim = true →
        ∀ stdin, Novato.explorarSalas (Novato.passo e c) stdin =
          some (Novato.passo e c, stdin))) := by
  constructor
  · intro e caminho c dr hs hsala hc
    obtain ⟨h1, h2, h3, h4⟩ := mover_cursor_passo.1 e caminho c dr hs hsala hc
    exact ⟨h1, h2, h3, h4, Aventureiro.explorarSalasComPistas_nil _ h4⟩
  · intro e caminho c dr hs hf hc
    obtain ⟨h1, h2, h3, h4⟩ := mover_cursor_passo.2 e caminho c dr hs hf hc
    refine ⟨?_, ?_, h3, h4, Novato.explorarSalas_of_not_fim _,
      fun hfim stdin => Novato.explorarSalas_of_fim _ stdin hfim⟩
    · intro hn
      obtain ⟨ha, hb⟩ := h1 hn
      refine ⟨ha, hb, ?_⟩
      rw [Novato.fim_iff _ h4, hb]
    · intro hn
      have hstay : Novato.passo e c = e := by
        rw [Novato.passo_eq_novato e caminho c hs hf]
        apply (Novato.processarEscolha_mover_novato e caminho c dr hc).2.2
        rw [Novato.Sala.em_snoc_novato]
        exact hn
      obtain ⟨ha, hb⟩ := h2 hn
      exact ⟨hstay, ha, hb, by rw [hstay]; exact hf⟩

/-- Witness of C11 (as amended): on the map of `main` of aventureiro.c, `e` in the hall
moves the cursor to the left child of the hall; on the map of `main` of novato.c, `D`
in the hall moves the cursor to the library, which has links, so the exploration has
not ended. -/
theorem cursor_apos_mover_witness :
    ((Aventureiro.passo (Aventureiro.inicio Aventureiro.hall) 'e'.toNat).salaAtual =
        some ([] ++ [.esquerda]) ∧
      (Aventureiro.passo (Aventureiro.inicio Aventureiro.hall) 'e'.toNat).sala =
        (Aventureiro.hall.em []).ligacao .esquerda) ∧
    ((Novato.passo (Novato.inicio Novato.hall) 'D'.toNat).salaAtual =
        some ([] ++ [.direita]) ∧
      (Novato.passo (Novato.inicio Novato.hall) 'D'.toNat).sala =
        (Novato.hall.em []).ligacao .direita ∧
      ((Novato.passo (Novato.inicio Novato.hall) 'D'.toNat).fim = true ↔
        ((Novato.hall.em []).ligacao .direita).ligacao .esquerda = .null ∧
        ((Novato.hall.em []).ligacao .direita).ligacao .direita = .null)) ∧
    (Novato.passo (Novato.inicio Novato.hall) 'D'.toNat).fim = false :=
  ⟨(cursor_apos_mover.1 (Aventureiro.inicio Aventureiro.hall) [] 'e'.toNat
      .esquerda rfl (by decide) (Or.inl ⟨rfl, Or.inl rfl⟩)).1 (by decide),
   (cursor_apos_mover.2 (Novato.inicio Novato.hall) [] 'D'.toNat
      .direita rfl (by decide) (Or.inr ⟨rfl, Or.inr rfl⟩)).1 (by decide),
   by decide⟩

/-- Counterexample to C11 as stated: on the map of `main` of novato.c, in the dining
room (which has links) the command `e` moves the cursor to the kitchen, which has none;
the exploration has ended: the loop returns there and the byte `d` that follows is not
read. -/
theorem novato_mover_para_folha_encerra :
    ({ mapa := Novato.hall, salaAtual := some [.esquerda] } : Novato.Estado).fim = false ∧
    (Novato.hall.em [.esquerda]).ligacao .esquerda ≠ .null ∧
    (Novato.passo { mapa := Novato.hall, salaAtual := some [.esquerda] }
      'e'.toNat).salaAtual = some [.esquerda, .esquerda] ∧
    (Novato.passo { mapa := Novato.hall, salaAtual := some [.esquerda] }
      'e'.toNat).fim = true ∧
    Novato.explorarSalas { mapa := Novato.hall, salaAtual := some [.esquerda] }
        ['e'.toNat, 'd'.toNat] =
      some (Novato.passo { mapa := Novato.hall, salaAtual := some [.esquerda] } 'e'.toNat,
        ['d'.toNat]) := by
  refine ⟨by decide, by decide, by decide, by decide, by decide⟩

/-! ## Facts about the exploration of mestre.c -/

theorem Sala.limparPista_em_self (m : Sala) (p : List Direcao) (n pi : CStr) (e d : Sala)
    (h : m.em p = .node n pi e d) : (m.limparPista p).em p = .node n [] e d := by
  induction p generalizing m with
  | nil =>
    rw [Sala.em_nil] at h
    subst h
    rfl
  | cons x p ih =>
    cases m with
    | null => simp [Sala.em] at h
    | node n0 p0 e0 d0 =>
      cases x
      · simp only [Sala.em] at h
        simp only [Sala.limparPista, Sala.em]
        exact ih e0 h
      · simp only [Sala.em] at h
        simp only [Sala.limparPista, Sala.em]
        exact ih d0 h

theorem Sala.limparPista_em_abaixo (m : Sala) (p : List Direcao) (dr : Direcao)
    (q : List Direcao) : (m.limparPista p).em (p ++ dr :: q) = m.em (p ++ dr :: q) := by
  induction p generalizing m with
  | nil =>
    cases m with
    | null => rfl
    | node n0 p0 e0 d0 => cases dr <;> simp [Sala.limparPista, Sala.em]
  | cons x p ih =>
    cases m with
    | null => simp [Sala.limparPista, Sala.em]
    | node n0 p0 e0 d0 => cases x <;> simp [Sala.limparPista, Sala.em, ih]

theorem getSuspeitoParaPista_nil : getSuspeitoParaPista [] = none := by decide

namespace Mestre

theorem processarPista_coleta (e : Estado) (caminho : List Direcao) (pista s : CStr)
    (hs : getSuspeitoParaPista pista = some s) :
    processarPista e caminho pista = some
      { e with
        bstPistas := adicionarPista e.bstPistas pista
        tabelaHash := Function.update e.tabelaHash (indice pista)
          ({ pista := pista, suspeito := s } :: e.tabelaHash (indice pista))
        mapa := e.mapa.limparPista caminho } := by
  have hne : pista ≠ [] := by
    rintro rfl
    rw [getSuspeitoParaPista_nil] at hs
    exact Option.noConfusion hs
  have hlen : strlen pista > 0 := List.length_pos.mpr hne
  simp only [processarPista, hlen, if_true, hs, inserirNaHash_eq]

theorem processarPista_ignora (e : Estado) (caminho : List Direcao) (pista : CStr)
    (hs : getSuspeitoParaPista pista = none) :
    processarPista e caminho pista = some e := by
  unfold processarPista
  split_ifs
  · simp [hs]
  · rfl

theorem passo_eq (e : Estado) (caminho : List Direcao) (c : Nat)
    (hs : e.salaAtual = some caminho) (hsala : e.mapa.em caminho ≠ .null) :
    passo e c = (processarPista e caminho (e.mapa.em caminho).pista).map
      (fun e1 => processarEscolha e1 caminho c) := by
  cases hm : e.mapa.em caminho with
  | null => exact absurd hm hsala
  | node nome pista esq dir =>
    simp only [passo, hs, hm, Sala.pista]
    cases processarPista e caminho pista <;> rfl

/-- What the processing of the clue of the current room leaves: the cursor as it was,
the room still a room with the same links, and the rooms below it as they were. -/
theorem processarPista_quadro (e e1 : Estado) (caminho : List Direcao)
    (h : processarPista e caminho (e.mapa.em caminho).pista = some e1) :
    e1.salaAtual = e.salaAtual ∧
    (e1.mapa = e.mapa ∨ e1.mapa = e.mapa.limparPista caminho) ∧
    (∀ dr q, e1.mapa.em (caminho ++ dr :: q) = e.mapa.em (caminho ++ dr :: q)) ∧
    (e.mapa.em caminho ≠ .null → e1.mapa.em caminho ≠ .null) := by
  cases hg : getSuspeitoParaPista (e.mapa.em caminho).pista with
  | none =>
    rw [processarPista_ignora e caminho _ hg] at h
    cases h
    exact ⟨rfl, Or.inl rfl, fun _ _ => rfl, fun hn => hn⟩
  | some s =>
    rw [processarPista_coleta e caminho _ s hg] at h
    cases h
    refine ⟨rfl, Or.inr rfl, fun dr q => Sala.limparPista_em_abaixo _ _ _ _, ?_⟩
    intro hn
    cases hm : e.mapa.em caminho with
    | null => exact absurd hm hn
    | node nome pista esq dir =>
      show (e.mapa.limparPista caminho).em caminho ≠ .null
      rw [Sala.limparPista_em_self _ _ _ _ _ _ hm]
      exact fun h => Sala.noConfusion h

theorem processarEscolha_quadro (e : Estado) (caminho : List Direcao) (c : Nat) :
    (processarEscolha e caminho c).mapa = e.mapa ∧
    (processarEscolha e caminho c).bstPistas = e.bstPistas ∧
    (processarEscolha e caminho c).tabelaHash = e.tabelaHash := by
  unfold processarEscolha
  split_ifs <;> exact ⟨rfl, rfl, rfl⟩

theorem processarEscolha_invalida (e : Estado) (caminho : List Direcao) (c : Nat)
    (hc : c ∉ ['e'.toNat, 'E'.toNat, 'd'.toNat, 'D'.toNat, 's'.toNat, 'S'.toNat]) :
    processarEscolha e caminho c = e := by
  simp only [List.mem_cons, List.mem_singleton, List.not_mem_nil, or_false, not_or] at hc
  obtain ⟨h1, h2, h3, h4, h5, h6⟩ := hc
  unfold processarEscolha
  rw [if_neg (not_or.mpr ⟨h1, h2⟩), if_neg (not_or.mpr ⟨h3, h4⟩),
    if_neg (not_or.mpr ⟨h5, h6⟩)]

end Mestre

theorem Aventureiro.processarEscolha_invalida_aventureiro (e : Aventureiro.Estado)
    (caminho : List Direcao) (c : Nat)
    (hc : c ∉ ['e'.toNat, 'E'.toNat, 'd'.toNat, 'D'.toNat, 's'.toNat, 'S'.toNat]) :
    Aventureiro.processarEscolha e caminho c = e := by
  simp only [List.mem_cons, List.mem_singleton, List.not_mem_nil, or_false, not_or] at hc
  obtain ⟨h1, h2, h3, h4, h5, h6⟩ := hc
  unfold Aventureiro.processarEscolha
  rw [if_neg (not_or.mpr ⟨h1, h2⟩), if_neg (not_or.mpr ⟨h3, h4⟩),
    if_neg (not_or.mpr ⟨h5, h6⟩)]

theorem Novato.processarEscolha_invalida_novato (e : Novato.Estado)
    (caminho : List Direcao) (c : Nat)
    (hc : c ∉ ['e'.toNat, 'E'.toNat, 'd'.toNat, 'D'.toNat, 's'.toNat, 'S'.toNat]) :
    Novato.processarEscolha e caminho c = e := by
  simp only [List.mem_cons, List.mem_singleton, List.not_mem_nil, or_false, not_or] at hc
  obtain ⟨h1, h2, h3, h4, h5, h6⟩ := hc
  unfold Novato.processarEscolha
  rw [if_neg (not_or.mpr ⟨h1, h2⟩), if_neg (not_or.mpr ⟨h3, h4⟩),
    if_neg (not_or.mpr ⟨h5, h6⟩)]

namespace Mestre

theorem processarPista_cases (e e1 : Estado) (caminho : List Direcao) (pista : CStr)
    (h : processarPista e caminho pista = some e1) :
    (getSuspeitoParaPista pista = none ∧ e1 = e) ∨
    ∃ s, getSuspeitoParaPista pista = some s ∧ e1 =
      { e with
        bstPistas := adicionarPista e.bstPistas pista
        tabelaHash := Function.update e.tabelaHash (indice pista)
          ({ pista := pista, suspeito := s } :: e.tabelaHash (indice pista))
        mapa := e.mapa.limparPista caminho } := by
  cases hg : getSuspeitoParaPista pista with
  | none =>
    rw [processarPista_ignora e caminho _ hg] at h
    cases h
    exact Or.inl ⟨rfl, rfl⟩
  | some s =>
    rw [processarPista_coleta e caminho _ s hg] at h
    cases h
    exact Or.inr ⟨s, rfl, rfl⟩

theorem processarPista_isSome (e : Estado) (caminho : List Direcao) (pista : CStr) :
    ∃ e1, processarPista e caminho pista = some e1 := by
  cases hg : getSuspeitoParaPista pista with
  | none => exact ⟨_, processarPista_ignora e caminho _ hg⟩
  | some s => exact ⟨_, processarPista_coleta e caminho _ s hg⟩

theorem passo_cases (e e1 : Estado) (c : Nat) (h : passo e c = some e1) :
    (e.sala = .null ∧ e1 = e) ∨
    ∃ caminho e0, e.salaAtual = some caminho ∧ e.mapa.em caminho ≠ .null ∧
      processarPista e caminho (e.mapa.em caminho).pista = some e0 ∧
      e1 = processarEscolha e0 caminho c := by
  cases hs : e.salaAtual with
  | none =>
    simp only [passo, hs, Option.some.injEq] at h
    exact Or.inl ⟨by simp [Estado.sala, hs], h.symm⟩
  | some caminho =>
    by_cases hsala : e.mapa.em caminho = .null
    · simp only [passo, hs, hsala, Option.some.injEq] at h
      exact Or.inl ⟨by simp [Estado.sala, hs, hsala], h.symm⟩
    · rw [passo_eq e caminho c hs hsala] at h
      obtain ⟨e0, he0⟩ := processarPista_isSome e caminho (e.mapa.em caminho).pista
      rw [he0] at h
      simp only [Option.map_some', Option.some.injEq] at h
      exact Or.inr ⟨caminho, e0, rfl, hsala, he0, h.symm⟩

/-- A property of the state that every iteration keeps holds when the loop ends. -/
theorem explorarSalas_inv (P : Estado → Prop)
    (hstep : ∀ e c e1, P e → passo e c = some e1 → P e1) :
    ∀ (stdin : List Nat) (e e1 : Estado) (resto : List Nat),
      P e → explorarSalas e stdin = some (e1, resto) → P e1 := by
  intro stdin
  induction stdin with
  | nil =>
    intro e e1 resto hP h
    cases hsala : e.sala with
    | null =>
      simp only [explorarSalas, hsala, Option.some.injEq, Prod.mk.injEq] at h
      rw [← h.1]; exact hP
    | node _ _ _ _ => simp [explorarSalas, hsala] at h
  | cons c cs ih =>
    intro e e1 resto hP h
    cases hsala : e.sala with
    | null =>
      simp only [explorarSalas, hsala, Option.some.injEq, Prod.mk.injEq] at h
      rw [← h.1]; exact hP
    | node _ _ _ _ =>
      simp only [explorarSalas, hsala] at h
      split_ifs at h with hsp
      · exact ih e e1 resto hP h
      · cases hp : passo e c with
        | none => simp [hp] at h
        | some e2 =>
          simp only [hp] at h
          exact ih e2 e1 resto (hstep e c e2 hP hp) h

theorem processarEscolha_mover (e : Estado) (caminho : List Direcao) (c : Nat) (dr : Direcao)
    (hc : (dr = .esquerda ∧ (c = 'e'.toNat ∨ c = 'E'.toNat)) ∨
          (dr = .direita ∧ (c = 'd'.toNat ∨ c = 'D'.toNat))) :
    processarEscolha e caminho c = { e with salaAtual := e.mapa.filho caminho dr } := by
  rcases hc with ⟨rfl, rfl | rfl⟩ | ⟨rfl, rfl | rfl⟩ <;> simp [processarEscolha]

end Mestre

/-- What a go-left (`e`, `E`) or go-right (`d`, `D`) command does in mestre.c
(`explorarSalas`, lines 152-153), for every room: the cursor moves to the addressed
child when that child exists; when the addressed child is absent `salaAtual` becomes
`NULL` and the loop ends there, reading nothing more. -/
theorem mestre_mover (e : Mestre.Estado) (caminho : List Direcao) (c : Nat) (dr : Direcao)
    (hs : e.salaAtual = some caminho) (hsala : e.mapa.em caminho ≠ .null)
    (hc : (dr = .esquerda ∧ (c = 'e'.toNat ∨ c = 'E'.toNat)) ∨
          (dr = .direita ∧ (c = 'd'.toNat ∨ c = 'D'.toNat))) :
    ∃ e1, Mestre.passo e c = some e1 ∧
      ((e.mapa.em caminho).ligacao dr ≠ .null →
        e1.salaAtual = some (caminho ++ [dr]) ∧
        e1.sala = (e.mapa.em caminho).ligacao dr) ∧
      ((e.mapa.em caminho).ligacao dr = .null →
        e1.salaAtual = none ∧
        ∀ stdin, Mestre.explorarSalas e1 stdin = some (e1, stdin)) := by
  obtain ⟨e0, he0⟩ := Mestre.processarPista_isSome e caminho (e.mapa.em caminho).pista
  obtain ⟨_, _, hbelow, _⟩ := Mestre.processarPista_quadro e e0 caminho he0
  have hfilho : e0.mapa.em (caminho ++ [dr]) = (e.mapa.em caminho).ligacao dr := by
    rw [hbelow dr [], Sala.em_snoc]
  refine ⟨Mestre.processarEscolha e0 caminho c, ?_, ?_, ?_⟩
  · rw [Mestre.passo_eq e caminho c hs hsala, he0]; rfl
  · intro hn
    rw [Mestre.processarEscolha_mover e0 caminho c dr hc]
    have hf : e0.mapa.filho caminho dr = some (caminho ++ [dr]) :=
      Sala.filho_eq_some _ _ _ (by rw [hfilho]; exact hn)
    simp only [Mestre.Estado.sala, hf, hfilho, and_self]
  · intro hn
    rw [Mestre.processarEscolha_mover e0 caminho c dr hc]
    have hf : e0.mapa.filho caminho dr = none :=
      Sala.filho_eq_none _ _ _ (by rw [hfilho]; exact hn)
    refine ⟨hf, fun stdin => Mestre.explorarSalas_of_null _ stdin ?_⟩
    simp only [Mestre.Estado.sala, hf]

/-- Example of `mestre_mover`: on the map of `main` of mestre.c, `d` in the hall moves
the cursor to the library. -/
theorem mestre_mover_witness :
    Mestre.estadoInicial.salaAtual = some [] ∧ Mestre.estadoInicial.mapa.em [] ≠ .null ∧
    ∃ e1, Mestre.passo Mestre.estadoInicial 'd'.toNat = some e1 ∧
      ((Mestre.estadoInicial.mapa.em []).ligacao .direita ≠ .null →
        e1.salaAtual = some ([] ++ [.direita]) ∧
        e1.sala = (Mestre.estadoInicial.mapa.em []).ligacao .direita) ∧
      ((Mestre.estadoInicial.mapa.em []).ligacao .direita = .null →
        e1.salaAtual = none ∧
        ∀ stdin, Mestre.explorarSalas e1 stdin = some (e1, stdin)) :=
  ⟨rfl, by decide,
   mestre_mover Mestre.estadoInicial [] 'd'.toNat .direita rfl (by decide)
     (Or.inr ⟨rfl, Or.inl rfl⟩)⟩

/-- C12: in mestre.c a go-left or go-right command toward an absent child should leave
the cursor on the current room with the loop going on, as novato.c and aventureiro.c
do.  The code at the input `e`, `d`, `e` on the map of `main`: the second command is read
in the dining room, whose right link is `NULL`; the cursor does not stay in the dining
room, `salaAtual` is `NULL` and the loop has ended, leaving the third byte unread. -/
theorem mestre_caminho_ausente_encerra :
    Mestre.percurso Mestre.estadoInicial ['e'.toNat, 'd'.toNat, 'e'.toNat] =
      [[], [.esquerda]] ∧
    (Mestre.hall.em [.esquerda]).ligacao .direita = .null ∧
    (Mestre.explorarSalas Mestre.estadoInicial ['e'.toNat, 'd'.toNat, 'e'.toNat]).map
      (fun r => (r.1.salaAtual, r.2)) = some (none, ['e'.toNat]) ∧
    ¬ ((Mestre.explorarSalas Mestre.estadoInicial ['e'.toNat, 'd'.toNat, 'e'.toNat]).map
      (fun r => r.1.salaAtual) = some (some [.esquerda])) := by
  refine ⟨by decide, by decide, by decide, by decide⟩

/-- C13: in the three programs, for every room at which a command is read and every
input character other than `e`, `E`, `d`, `D`, `s`, `S`, the iteration ends in the state
in which the command was read: the cursor is on the same room, the exploration has not
ended, and the Clue Index (and the Lookup Table in mestre.c) are as they were when the
command was read.  In novato.c that state is the state before the iteration; in
aventureiro.c and mestre.c it is the state after the clue of the room was processed. -/
theorem comando_invalido :
    (∀ (e : Novato.Estado) (caminho : List Direcao) (c : Nat),
      e.salaAtual = some caminho → e.fim = false →
      c ∉ ['e'.toNat, 'E'.toNat, 'd'.toNat, 'D'.toNat, 's'.toNat, 'S'.toNat] →
      Novato.passo e c = e ∧ (Novato.passo e c).sala ≠ .null) ∧
    (∀ (e : Aventureiro.Estado) (caminho : List Direcao) (c : Nat),
      e.salaAtual = some caminho → e.mapa.em caminho ≠ .null →
      c ∉ ['e'.toNat, 'E'.toNat, 'd'.toNat, 'D'.toNat, 's'.toNat, 'S'.toNat] →
      Aventureiro.passo e c = Aventureiro.processarPista e (e.mapa.em caminho).pista ∧
      (Aventureiro.passo e c).salaAtual = some caminho ∧
      (Aventureiro.passo e c).sala = e.mapa.em caminho) ∧
    (∀ (e : Mestre.Estado) (caminho : List Direcao) (c : Nat),
      e.salaAtual = some caminho → e.mapa.em caminho ≠ .null →
      c ∉ ['e'.toNat, 'E'.toNat, 'd'.toNat, 'D'.toNat, 's'.toNat, 'S'.toNat] →
      ∃ e1, Mestre.processarPista e caminho (e.mapa.em caminho).pista = some e1 ∧
        Mestre.passo e c = some e1 ∧ e1.salaAtual = some caminho ∧ e1.sala ≠ .null) := by
  refine ⟨?_, ?_, ?_⟩
  · intro e caminho c hs hf hc
    have h : Novato.passo e c = e := by
      rw [Novato.passo_eq_novato e caminho c hs hf, Novato.processarEscolha_invalida_novato e caminho c hc]
    refine ⟨h, ?_⟩
    rw [h]
    simp only [Novato.Estado.sala, hs]
    exact Novato.fim_eq_false e caminho hs hf
  · intro e caminho c hs hsala hc
    cases hm : e.mapa.em caminho with
    | null => exact absurd hm hsala
    | node nome pista esq dir =>
      have h : Aventureiro.passo e c = Aventureiro.processarPista e pista := by
        rw [Aventureiro.passo_eq_aventureiro e caminho nome pista esq dir c hs hm,
          Aventureiro.processarEscolha_invalida_aventureiro _ caminho c hc]
      rw [h]
      simp only [Sala.pista, Aventureiro.Estado.sala, Aventureiro.processarPista_salaAtual,
        Aventureiro.processarPista_mapa, hs, hm, and_self]
  · intro e caminho c hs hsala hc
    obtain ⟨e0, he0⟩ := Mestre.processarPista_isSome e caminho (e.mapa.em caminho).pista
    obtain ⟨hsa, _, _, hnn⟩ := Mestre.processarPista_quadro e e0 caminho he0
    refine ⟨e0, he0, ?_, hsa.trans hs, ?_⟩
    · rw [Mestre.passo_eq e caminho c hs hsala, he0]
      simp only [Option.map_some', Mestre.processarEscolha_invalida e0 caminho c hc]
    · simp only [Mestre.Estado.sala, hsa, hs]
      exact hnn hsala

/-- Witness of C13: the character `x` in the hall of each of the three maps of `main`. -/
theorem comando_invalido_witness :
    (Novato.passo (Novato.inicio Novato.hall) 'x'.toNat = Novato.inicio Novato.hall ∧
      (Novato.passo (Novato.inicio Novato.hall) 'x'.toNat).sala ≠ .null) ∧
    (Aventureiro.passo (Aventureiro.inicio Aventureiro.hall) 'x'.toNat =
        Aventureiro.processarPista (Aventureiro.inicio Aventureiro.hall)
          ((Aventureiro.inicio Aventureiro.hall).mapa.em []).pista ∧
      (Aventureiro.passo (Aventureiro.inicio Aventureiro.hall) 'x'.toNat).salaAtual =
        some [] ∧
      (Aventureiro.passo (Aventureiro.inicio Aventureiro.hall) 'x'.toNat).sala =
        (Aventureiro.inicio Aventureiro.hall).mapa.em []) ∧
    (∃ e1, Mestre.processarPista Mestre.estadoInicial []
          (Mestre.estadoInicial.mapa.em []).pista = some e1 ∧
        Mestre.passo Mestre.estadoInicial 'x'.toNat = some e1 ∧
        e1.salaAtual = some [] ∧ e1.sala ≠ .null) :=
  ⟨comando_invalido.1 (Novato.inicio Novato.hall) [] 'x'.toNat rfl (by decide) (by decide),
   comando_invalido.2.1 (Aventureiro.inicio Aventureiro.hall) [] 'x'.toNat rfl (by decide)
     (by decide),
   comando_invalido.2.2 Mestre.estadoInicial [] 'x'.toNat rfl (by decide) (by decide)⟩

/-- C14: in mestre.c, an iteration in a room whose clue has a suspect `s` according to
`getSuspeitoParaPista` (such a clue is not empty) leaves the Clue Index with the clue
inserted, the Lookup Table with the pair (clue, `s`) inserted and the clue field of the
room empty; when the command read is invalid the cursor stays in the room, and a
further iteration there, whatever command it reads, inserts nothing into the Clue
Index or the Lookup Table (with an invalid command it changes nothing at all). -/
theorem coleta_ao_entrar (e : Mestre.Estado) (caminho : List Direcao) (s : CStr) (c : Nat)
    (hs : e.salaAtual = some caminho) (hsala : e.mapa.em caminho ≠ .null)
    (hg : getSuspeitoParaPista (e.mapa.em caminho).pista = some s) :
    (e.mapa.em caminho).pista ≠ [] ∧
    ∃ tabela e1, inserirNaHash e.tabelaHash (e.mapa.em caminho).pista s = some tabela ∧
      Mestre.passo e c = some e1 ∧
      e1.bstPistas = adicionarPista e.bstPistas (e.mapa.em caminho).pista ∧
      e1.tabelaHash = tabela ∧
      e1.mapa = e.mapa.limparPista caminho ∧
      (e1.mapa.em caminho).pista = [] ∧
      (c ∉ ['e'.toNat, 'E'.toNat, 'd'.toNat, 'D'.toNat, 's'.toNat, 'S'.toNat] →
        e1.salaAtual = some caminho ∧
        (∀ c2, ∃ e2, Mestre.passo e1 c2 = some e2 ∧ e2.bstPistas = e1.bstPistas ∧
          e2.tabelaHash = e1.tabelaHash) ∧
        (∀ c2, c2 ∉ ['e'.toNat, 'E'.toNat, 'd'.toNat, 'D'.toNat, 's'.toNat, 'S'.toNat] →
          Mestre.passo e1 c2 = some e1)) := by
  have hne : (e.mapa.em caminho).pista ≠ [] := by
    intro h0
    rw [h0, getSuspeitoParaPista_nil] at hg
    exact Option.noConfusion hg
  obtain ⟨e0, he0, hb0, ht0, hm0, hsa0⟩ : ∃ e0 : Mestre.Estado,
      Mestre.processarPista e caminho (e.mapa.em caminho).pista = some e0 ∧
      e0.bstPistas = adicionarPista e.bstPistas (e.mapa.em caminho).pista ∧
      e0.tabelaHash = Function.update e.tabelaHash (indice (e.mapa.em caminho).pista)
        ({ pista := (e.mapa.em caminho).pista, suspeito := s } ::
          e.tabelaHash (indice (e.mapa.em caminho).pista)) ∧
      e0.mapa = e.mapa.limparPista caminho ∧ e0.salaAtual = e.salaAtual :=
    ⟨_, Mestre.processarPista_coleta e caminho _ s hg, rfl, rfl, rfl, rfl⟩
  obtain ⟨hm1, hb1, ht1⟩ := Mestre.processarEscolha_quadro e0 caminho c
  have hcleared : (e0.mapa.em caminho).pista = [] ∧ e0.mapa.em caminho ≠ .null := by
    rw [hm0]
    cases hm : e.mapa.em caminho with
    | null => exact absurd hm hsala
    | node nome pista esq dir =>
      rw [Sala.limparPista_em_self _ _ _ _ _ _ hm]
      exact ⟨rfl, fun h => Sala.noConfusion h⟩
  have hpasso : ∀ c2, Mestre.passo e0 c2 = some (Mestre.processarEscolha e0 caminho c2) := by
    intro c2
    rw [Mestre.passo_eq e0 caminho c2 (hsa0.trans hs) hcleared.2, hcleared.1,
      Mestre.processarPista_ignora e0 caminho [] getSuspeitoParaPista_nil]
    rfl
  refine ⟨hne, _, Mestre.processarEscolha e0 caminho c, inserirNaHash_eq _ _ _, ?_,
    hb1.trans hb0, ht1.trans ht0, hm1.trans hm0, ?_, ?_⟩
  · rw [Mestre.passo_eq e caminho c hs hsala, he0]; rfl
  · rw [hm1]; exact hcleared.1
  · intro hc
    rw [Mestre.processarEscolha_invalida e0 caminho c hc]
    refine ⟨hsa0.trans hs, ?_, ?_⟩
    · intro c2
      exact ⟨_, hpasso c2, (Mestre.processarEscolha_quadro e0 caminho c2).2.1,
        (Mestre.processarEscolha_quadro e0 caminho c2).2.2⟩
    · intro c2 hc2
      rw [hpasso c2, Mestre.processarEscolha_invalida e0 caminho c2 hc2]

/-- Witness of C14: on the map of `main` of mestre.c, the character `x` read in the
dining room, whose clue points to "Mordomo". -/
theorem coleta_ao_entrar_witness :
    ({ Mestre.estadoInicial with salaAtual := some [.esquerda] } : Mestre.Estado).salaAtual =
      some [.esquerda] ∧
    getSuspeitoParaPista (Mestre.hall.em [.esquerda]).pista = some (cstr "Mordomo") ∧
    ∃ tabela e1, inserirNaHash tabelaVazia (Mestre.hall.em [.esquerda]).pista
        (cstr "Mordomo") = some tabela ∧
      Mestre.passo { Mestre.estadoInicial with salaAtual := some [.esquerda] } 'x'.toNat =
        some e1 ∧
      e1.bstPistas = adicionarPista .null (Mestre.hall.em [.esquerda]).pista ∧
      e1.tabelaHash = tabela ∧
      e1.salaAtual = some [.esquerda] := by
  obtain ⟨_, tabela, e1, h1, h2, h3, h4, _, _, h7⟩ :=
    coleta_ao_entrar { Mestre.estadoInicial with salaAtual := some [.esquerda] }
      [.esquerda] (cstr "Mordomo") 'x'.toNat rfl (by decide) (by decide)
  exact ⟨rfl, by decide, tabela, e1, h1, h2, h3, h4, (h7 (by decide)).1⟩

namespace Mestre

theorem passo_chaves_com_suspeito (e e1 : Estado) (c : Nat)
    (hP : ∀ k ∈ exibirPistas e.bstPistas, getSuspeitoParaPista k ≠ none)
    (h : passo e c = some e1) :
    ∀ k ∈ exibirPistas e1.bstPistas, getSuspeitoParaPista k ≠ none := by
  rcases passo_cases e e1 c h with ⟨_, rfl⟩ | ⟨caminho, e0, _, _, he0, rfl⟩
  · exact hP
  · rw [(processarEscolha_quadro e0 caminho c).2.1]
    rcases processarPista_cases e e0 caminho _ he0 with ⟨_, rfl⟩ | ⟨s, hg, rfl⟩
    · exact hP
    · intro k hk
      simp only [adicionarPista_eq_inserirPista, mem_exibirPistas_inserirPista] at hk
      rcases hk with rfl | hk
      · rw [hg]; exact fun h => Option.noConfusion h
      · exact hP k hk

end Mestre

/-- C15: in mestre.c, an iteration in a room whose clue is not empty but has no suspect
according to `getSuspeitoParaPista` leaves the Clue Index, the Lookup Table and the Room
Map (the clue field of the room included) as they were: the clue is not collected.  On
the map of `main`, the clue of the start room, "Um jornal velho sobre a mesa, com a data
de 1920.", is in the Clue Index at the end of no exploration. -/
theorem pista_sem_suspeito :
    (∀ (e : Mestre.Estado) (caminho : List Direcao) (c : Nat),
      e.salaAtual = some caminho → e.mapa.em caminho ≠ .null →
      (e.mapa.em caminho).pista ≠ [] →
      getSuspeitoParaPista (e.mapa.em caminho).pista = none →
      Mestre.processarPista e caminho (e.mapa.em caminho).pista = some e ∧
      ∃ e1, Mestre.passo e c = some e1 ∧ e1.bstPistas = e.bstPistas ∧
        e1.tabelaHash = e.tabelaHash ∧ e1.mapa = e.mapa) ∧
    (∀ (stdin : List Nat) (e1 : Mestre.Estado) (resto : List Nat),
      Mestre.explorarSalas Mestre.estadoInicial stdin = some (e1, resto) →
      cstr "Um jornal velho sobre a mesa, com a data de 1920." ∉
        exibirPistas e1.bstPistas) := by
  constructor
  · intro e caminho c hs hsala _ hg
    have h0 := Mestre.processarPista_ignora e caminho _ hg
    refine ⟨h0, Mestre.processarEscolha e caminho c, ?_, ?_⟩
    · rw [Mestre.passo_eq e caminho c hs hsala, h0]; rfl
    · obtain ⟨hm, hb, ht⟩ := Mestre.processarEscolha_quadro e caminho c
      exact ⟨hb, ht, hm⟩
  · intro stdin e1 resto h hmem
    have hinv := Mestre.explorarSalas_inv
      (fun e => ∀ k ∈ exibirPistas e.bstPistas, getSuspeitoParaPista k ≠ none)
      (fun e c e1 hP hp => Mestre.passo_chaves_com_suspeito e e1 c hP hp)
      stdin Mestre.estadoInicial e1 resto (fun k hk => by simp [Mestre.estadoInicial, exibirPistas] at hk) h
    exact hinv _ hmem (by decide)

/-- Witness of C15: on the map of `main` of mestre.c, the command `e` read in the hall
collects nothing, and after the commands `e`, `s` the clue of the hall is not in the
Clue Index. -/
theorem pista_sem_suspeito_witness :
    (Mestre.estadoInicial.mapa.em []).pista ≠ [] ∧
    getSuspeitoParaPista (Mestre.estadoInicial.mapa.em []).pista = none ∧
    (∃ e1, Mestre.passo Mestre.estadoInicial 'e'.toNat = some e1 ∧
      e1.bstPistas = .null ∧ e1.tabelaHash = tabelaVazia ∧ e1.mapa = Mestre.hall) ∧
    ∃ e1, Mestre.explorarSalas Mestre.estadoInicial ['e'.toNat, 's'.toNat] =
        some (e1, []) ∧
      cstr "Um jornal velho sobre a mesa, com a data de 1920." ∉
        exibirPistas e1.bstPistas := by
  refine ⟨by decide, by decide,
    (pista_sem_suspeito.1 Mestre.estadoInicial [] 'e'.toNat rfl (by decide) (by decide)
      (by decide)).2, ?_⟩
  obtain ⟨r, hr⟩ := Option.isSome_iff_exists.mp
    (show (Mestre.explorarSalas Mestre.estadoInicial ['e'.toNat, 's'.toNat]).isSome = true
      by decide)
  have hresto : (Mestre.explorarSalas Mestre.estadoInicial ['e'.toNat, 's'.toNat]).map
      Prod.snd = some [] := by decide
  rw [hr] at hresto
  obtain ⟨e1, resto⟩ := r
  simp only [Option.map_some', Option.some.injEq] at hresto
  subst hresto
  exact ⟨e1, hr, pista_sem_suspeito.2 _ e1 [] hr⟩

/-! ## Facts about whole explorations -/

/-- C19: in novato.c (`explorarSalas`), when the cursor is on a room with neither a left
nor a right link the exploration ends without reading a command, whatever the input
holds; so the command that brings the cursor to such a room is the last one read. -/
theorem folha_encerra :
    (∀ (e : Novato.Estado) (caminho : List Direcao) (nome : CStr) (stdin : List Nat),
      e.salaAtual = some caminho → e.mapa.em caminho = .node nome .null .null →
      Novato.explorarSalas e stdin = some (e, stdin)) ∧
    (∀ (e : Novato.Estado) (c : Nat) (resto : List Nat) (caminho : List Direcao)
        (nome : CStr),
      e.fim = false → isspace c = false →
      (Novato.passo e c).salaAtual = some caminho →
      (Novato.passo e c).mapa.em caminho = .node nome .null .null →
      Novato.explorarSalas e (c :: resto) = some (Novato.passo e c, resto)) := by
  have h1 : ∀ (e : Novato.Estado) (caminho : List Direcao) (nome : CStr)
      (stdin : List Nat), e.salaAtual = some caminho →
      e.mapa.em caminho = .node nome .null .null →
      Novato.explorarSalas e stdin = some (e, stdin) := by
    intro e caminho nome stdin hs hm
    apply Novato.explorarSalas_of_fim
    simp [Novato.Estado.fim, Novato.Estado.sala, hs, hm]
  refine ⟨h1, ?_⟩
  intro e c resto caminho nome hf hsp hs hm
  rw [Novato.explorarSalas]
  simp only [hf, hsp, Bool.false_eq_true, if_false]
  exact h1 _ caminho nome resto hs hm

/-- Witness of C19: on the map of `main` of novato.c, after `e`, `e` the cursor is in the
kitchen, which has no link, and the byte `d` that follows is not read. -/
theorem folha_encerra_witness :
    Novato.explorarSalas (Novato.inicio Novato.hall) ['e'.toNat, 'e'.toNat, 'd'.toNat] =
      some ({ mapa := Novato.hall, salaAtual := some [.esquerda, .esquerda] },
        ['d'.toNat]) ∧
    Novato.explorarSalas
        { mapa := Novato.hall, salaAtual := some [.esquerda, .esquerda] } ['d'.toNat] =
      some ({ mapa := Novato.hall, salaAtual := some [.esquerda, .esquerda] },
        ['d'.toNat]) :=
  ⟨by decide,
   folha_encerra.1 { mapa := Novato.hall, salaAtual := some [.esquerda, .esquerda] }
     [.esquerda, .esquerda] (cstr "Cozinha") ['d'.toNat] rfl (by decide)⟩

theorem Sala.conservada_refl (m : Sala) : Sala.conservada m m := by
  induction m with
  | null => trivial
  | node n p e d ihe ihd => exact ⟨rfl, Or.inl rfl, ihe, ihd⟩

theorem Sala.conservada_limparPista (a b : Sala) (p : List Direcao)
    (h : Sala.conservada a b) : Sala.conservada a (b.limparPista p) := by
  induction a generalizing b p with
  | null =>
    cases b with
    | null => trivial
    | node _ _ _ _ => exact absurd h (by simp [Sala.conservada])
  | node n pi e d ihe ihd =>
    cases b with
    | null => exact absurd h (by simp [Sala.conservada])
    | node n1 p1 e1 d1 =>
      obtain ⟨hn, hp, he, hd⟩ := h
      cases p with
      | nil => exact ⟨hn, Or.inr rfl, he, hd⟩
      | cons x q =>
        cases x
        · exact ⟨hn, hp, ihe e1 q he, hd⟩
        · exact ⟨hn, hp, he, ihd d1 q hd⟩

theorem Mestre.passo_conservada (m : Sala) (e e1 : Mestre.Estado) (c : Nat)
    (hP : Sala.conservada m e.mapa) (h : Mestre.passo e c = some e1) :
    Sala.conservada m e1.mapa := by
  rcases Mestre.passo_cases e e1 c h with ⟨_, rfl⟩ | ⟨caminho, e0, _, _, he0, rfl⟩
  · exact hP
  · rw [(Mestre.processarEscolha_quadro e0 caminho c).1]
    rcases (Mestre.processarPista_quadro e e0 caminho he0).2.1 with hm | hm
    · rw [hm]; exact hP
    · rw [hm]; exact Sala.conservada_limparPista _ _ _ hP

theorem Aventureiro.processarEscolha_mapa_aventureiro (e : Aventureiro.Estado) (caminho : List Direcao)
    (c : Nat) : (Aventureiro.processarEscolha e caminho c).mapa = e.mapa := by
  unfold Aventureiro.processarEscolha
  split_ifs
  · split <;> rfl
  · split <;> rfl
  · rfl
  · rfl

theorem Aventureiro.passo_mapa_aventureiro (e : Aventureiro.Estado) (c : Nat) :
    (Aventureiro.passo e c).mapa = e.mapa := by
  unfold Aventureiro.passo
  split
  · rfl
  · split
    · rfl
    · rw [Aventureiro.processarEscolha_mapa_aventureiro, Aventureiro.processarPista_mapa]

theorem Novato.processarEscolha_mapa_novato (e : Novato.Estado) (caminho : List Direcao)
    (c : Nat) : (Novato.processarEscolha e caminho c).mapa = e.mapa := by
  unfold Novato.processarEscolha
  split_ifs
  · split <;> rfl
  · split <;> rfl
  · rfl
  · rfl

theorem Novato.passo_mapa_novato (e : Novato.Estado) (c : Nat) :
    (Novato.passo e c).mapa = e.mapa := by
  unfold Novato.passo
  split
  · rfl
  · split_ifs
    · rfl
    · exact Novato.processarEscolha_mapa_novato _ _ _

/-- A property of the state that every iteration keeps holds when the loop ends. -/
theorem Aventureiro.explorarSalasComPistas_inv (P : Aventureiro.Estado → Prop)
    (hstep : ∀ e c, P e → P (Aventureiro.passo e c)) :
    ∀ (stdin : List Nat) (e e1 : Aventureiro.Estado) (resto : List Nat),
      P e → Aventureiro.explorarSalasComPistas e stdin = some (e1, resto) → P e1 := by
  intro stdin
  induction stdin with
  | nil =>
    intro e e1 resto hP h
    cases hsala : e.sala with
    | null =>
      simp only [Aventureiro.explorarSalasComPistas, hsala, Option.some.injEq,
        Prod.mk.injEq] at h
      rw [← h.1]; exact hP
    | node _ _ _ _ => simp [Aventureiro.explorarSalasComPistas, hsala] at h
  | cons c cs ih =>
    intro e e1 resto hP h
    cases hsala : e.sala with
    | null =>
      simp only [Aventureiro.explorarSalasComPistas, hsala, Option.some.injEq,
        Prod.mk.injEq] at h
      rw [← h.1]; exact hP
    | node _ _ _ _ =>
      simp only [Aventureiro.explorarSalasComPistas, hsala] at h
      split_ifs at h with hsp
      · exact ih e e1 resto hP h
      · exact ih _ e1 resto (hstep e c hP) h

/-- A property of the state that every iteration keeps holds when the loop ends. -/
theorem Novato.explorarSalas_inv_novato (P : Novato.Estado → Prop)
    (hstep : ∀ e c, P e → P (Novato.passo e c)) :
    ∀ (stdin : List Nat) (e e1 : Novato.Estado) (resto : List Nat),
      P e → Novato.explorarSalas e stdin = some (e1, resto) → P e1 := by
  intro stdin
  induction stdin with
  | nil =>
    intro e e1 resto hP h
    simp only [Novato.explorarSalas] at h
    split_ifs at h
    simp only [Option.some.injEq, Prod.mk.injEq] at h
    rw [← h.1]; exact hP
  | cons c cs ih =>
    intro e e1 resto hP h
    simp only [Novato.explorarSalas] at h
    split_ifs at h with hf hsp
    · simp only [Option.some.injEq, Prod.mk.injEq] at h
      rw [← h.1]; exact hP
    · exact ih e e1 resto hP h
    · exact ih _ e1 resto (hstep e c hP) h

/-- C20: the exploration never alters the links or the names of the Room Map.  For every
map and input, when `explorarSalasComPistas` (aventureiro.c) or `explorarSalas`
(novato.c) ends the map is the initial one; when `explorarSalas` of mestre.c ends every
room has the name and the left and right links it had, and a clue field that is the
initial one or empty. -/
theorem mapa_conservado :
    (∀ (e : Aventureiro.Estado) (stdin : List Nat) (e1 : Aventureiro.Estado)
        (resto : List Nat),
      Aventureiro.explorarSalasComPistas e stdin = some (e1, resto) → e1.mapa = e.mapa) ∧
    (∀ (e : Novato.Estado) (stdin : List Nat) (e1 : Novato.Estado) (resto : List Nat),
      Novato.explorarSalas e stdin = some (e1, resto) → e1.mapa = e.mapa) ∧
    (∀ (e : Mestre.Estado) (stdin : List Nat) (e1 : Mestre.Estado) (resto : List Nat),
      Mestre.explorarSalas e stdin = some (e1, resto) →
      Sala.conservada e.mapa e1.mapa) := by
  refine ⟨?_, ?_, ?_⟩
  · intro e stdin e1 resto h
    exact Aventureiro.explorarSalasComPistas_inv (fun x => x.mapa = e.mapa)
      (fun x c hx => (Aventureiro.passo_mapa_aventureiro x c).trans hx) stdin e e1 resto rfl h
  · intro e stdin e1 resto h
    exact Novato.explorarSalas_inv_novato (fun x => x.mapa = e.mapa)
      (fun x c hx => (Novato.passo_mapa_novato x c).trans hx) stdin e e1 resto rfl h
  · intro e stdin e1 resto h
    exact Mestre.explorarSalas_inv (fun x => Sala.conservada e.mapa x.mapa)
      (fun x c x1 hx hp => Mestre.passo_conservada e.mapa x x1 c hx hp)
      stdin e e1 resto (Sala.conservada_refl _) h

/-- Witness of C20: the commands `e`, `s` on the three maps of `main`; in mestre.c the
clue of the dining room, collected on the way, is the only field that changes. -/
theorem mapa_conservado_witness :
    (Aventureiro.explorarSalasComPistas (Aventureiro.inicio Aventureiro.hall)
        ['e'.toNat, 's'.toNat]).map (fun r => r.1.mapa) = some Aventureiro.hall ∧
    (Novato.explorarSalas (Novato.inicio Novato.hall) ['e'.toNat, 's'.toNat]).map
        (fun r => r.1.mapa) = some Novato.hall ∧
    ∃ e1 resto, Mestre.explorarSalas Mestre.estadoInicial ['e'.toNat, 's'.toNat] =
        some (e1, resto) ∧
      Sala.conservada Mestre.estadoInicial.mapa e1.mapa ∧
      e1.mapa = Mestre.hall.limparPista [.esquerda] := by
  obtain ⟨ra, hra⟩ := Option.isSome_iff_exists.mp
    (show (Aventureiro.explorarSalasComPistas (Aventureiro.inicio Aventureiro.hall)
      ['e'.toNat, 's'.toNat]).isSome = true by decide)
  obtain ⟨rn, hrn⟩ := Option.isSome_iff_exists.mp
    (show (Novato.explorarSalas (Novato.inicio Novato.hall)
      ['e'.toNat, 's'.toNat]).isSome = true by decide)
  obtain ⟨rm, hrm⟩ := Option.isSome_iff_exists.mp
    (show (Mestre.explorarSalas Mestre.estadoInicial
      ['e'.toNat, 's'.toNat]).isSome = true by decide)
  have hmapa : (Mestre.explorarSalas Mestre.estadoInicial ['e'.toNat, 's'.toNat]).map
      (fun r => r.1.mapa) = some (Mestre.hall.limparPista [.esquerda]) := by decide
  refine ⟨?_, ?_, rm.1, rm.2, hrm, mapa_conservado.2.2 _ _ rm.1 rm.2 hrm, ?_⟩
  · rw [hra]
    exact congrArg some (mapa_conservado.1 _ _ ra.1 ra.2 hra)
  · rw [hrn]
    exact congrArg some (mapa_conservado.2.1 _ _ rn.1 rn.2 hrn)
  · rw [hrm] at hmapa
    exact Option.some.inj hmapa

/-- C17: on the maps that `main` builds in aventureiro.c and in mestre.c, the commands
`e`, `e`, `s` run the loop in the rooms "Hall de Entrada", "Sala de Jantar", "Cozinha",
in that order, and then the exploration ends (`salaAtual` is `NULL`, nothing is left
unread); the clue of "Cozinha" is in the final in-order listing of the Clue Index. -/
theorem percurso_e_e_s :
    ((Aventureiro.percurso (Aventureiro.inicio Aventureiro.hall)
        ['e'.toNat, 'e'.toNat, 's'.toNat]).map (fun c => (Aventureiro.hall.em c).nome) =
      [cstr "Hall de Entrada", cstr "Sala de Jantar", cstr "Cozinha"] ∧
     (Aventureiro.explorarSalasComPistas (Aventureiro.inicio Aventureiro.hall)
        ['e'.toNat, 'e'.toNat, 's'.toNat]).map
        (fun r => (r.1.salaAtual, exibirPistas r.1.bstPistas, r.2)) =
      some (none,
        [cstr "Restos de um banquete suntuoso, mas sem talheres.",
         cstr "Um jornal velho sobre a mesa, com a data de 1920.",
         cstr "Uma faca de prata reluzente na pia."], []) ∧
     (Aventureiro.hall.em [.esquerda, .esquerda]).nome = cstr "Cozinha" ∧
     (Aventureiro.hall.em [.esquerda, .esquerda]).pista =
       cstr "Uma faca de prata reluzente na pia.") ∧
    ((Mestre.percurso Mestre.estadoInicial ['e'.toNat, 'e'.toNat, 's'.toNat]).map
        (fun c => (Mestre.hall.em c).nome) =
      [cstr "Hall de Entrada", cstr "Sala de Jantar", cstr "Cozinha"] ∧
     (Mestre.explorarSalas Mestre.estadoInicial ['e'.toNat, 'e'.toNat, 's'.toNat]).map
        (fun r => (r.1.salaAtual, exibirPistas r.1.bstPistas, r.2)) =
      some (none,
        [cstr "Um candelabro de prata polido, fora do lugar.",
         cstr "Uma faca de cozinha faltando no conjunto."], []) ∧
     (Mestre.hall.em [.esquerda, .esquerda]).nome = cstr "Cozinha" ∧
     (Mestre.hall.em [.esquerda, .esquerda]).pista =
       cstr "Uma faca de cozinha faltando no conjunto.") := by
  refine ⟨⟨by decide, by decide, by decide, by decide⟩,
    ⟨by decide, by decide, by decide, by decide⟩⟩

/-! ## The clues collected by an exploration of aventureiro.c -/

namespace Aventureiro

theorem processarEscolha_bstPistas (e : Estado) (caminho : List Direcao) (c : Nat) :
    (processarEscolha e caminho c).bstPistas = e.bstPistas := by
  unfold processarEscolha
  split_ifs
  · split <;> rfl
  · split <;> rfl
  · rfl
  · rfl

theorem processarEscolha_cases (e : Estado) (caminho : List Direcao) (c : Nat) :
    processarEscolha e caminho c = e ∨
    (processarEscolha e caminho c).pistaColetadaNestaSala = false ∨
    (processarEscolha e caminho c).salaAtual = none := by
  unfold processarEscolha
  split_ifs
  · split
    · exact Or.inr (Or.inl rfl)
    · exact Or.inl rfl
  · split
    · exact Or.inr (Or.inl rfl)
    · exact Or.inl rfl
  · exact Or.inr (Or.inr rfl)
  · exact Or.inl rfl

/-- The keys after the clue of a room is processed: the keys before and the clue, when
it is not empty.  When the flag is set the clue of the room is already a key. -/
theorem processarPista_chaves (e : Estado) (pista : CStr)
    (hinv : e.pistaColetadaNestaSala = true →
      pista = [] ∨ pista ∈ exibirPistas e.bstPistas) (k : CStr) :
    k ∈ exibirPistas (processarPista e pista).bstPistas ↔
      k ∈ exibirPistas e.bstPistas ∨ (k ≠ [] ∧ pista = k) := by
  unfold processarPista
  split_ifs with hcond
  · have hne : pista ≠ [] := List.length_pos.mp hcond.1
    simp only [mem_exibirPistas_inserirPista]
    constructor
    · rintro (rfl | hk)
      · exact Or.inr ⟨hne, rfl⟩
      · exact Or.inl hk
    · rintro (hk | ⟨_, rfl⟩)
      · exact Or.inr hk
      · exact Or.inl rfl
  · constructor
    · exact fun hk => Or.inl hk
    · rintro (hk | ⟨hne, rfl⟩)
      · exact hk
      · have hflag : e.pistaColetadaNestaSala = true := by
          by_contra hf
          exact hcond ⟨List.length_pos.mpr hne, by simpa using hf⟩
        rcases hinv hflag with h0 | hmem
        · exact absurd h0 hne
        · exact hmem

theorem processarPista_ordenada (e : Estado) (pista : CStr) (h : ordenada e.bstPistas) :
    ordenada (processarPista e pista).bstPistas := by
  unfold processarPista
  split_ifs
  · exact ordenada_inserirPista _ _ h
  · exact h

theorem passo_ordenada_aventureiro (e : Estado) (c : Nat) (h : ordenada e.bstPistas) :
    ordenada (passo e c).bstPistas := by
  unfold passo
  split
  · exact h
  · split
    · exact h
    · rw [processarEscolha_bstPistas]
      exact processarPista_ordenada _ _ h

/-- The flag, when set at the start of an iteration, tells that the clue of the current
room is empty or already a key of the Clue Index; every iteration keeps it so. -/
theorem passo_flag (e : Estado) (caminho : List Direcao) (nome pista : CStr)
    (esq dir : Sala) (c : Nat) (hs : e.salaAtual = some caminho)
    (hm : e.mapa.em caminho = .node nome pista esq dir)
    (hinv : e.pistaColetadaNestaSala = true → ∀ p, e.salaAtual = some p →
      (e.mapa.em p).pista = [] ∨ (e.mapa.em p).pista ∈ exibirPistas e.bstPistas) :
    (passo e c).pistaColetadaNestaSala = true → ∀ p, (passo e c).salaAtual = some p →
      ((passo e c).mapa.em p).pista = [] ∨
      ((passo e c).mapa.em p).pista ∈ exibirPistas (passo e c).bstPistas := by
  have hinv1 : e.pistaColetadaNestaSala = true →
      pista = [] ∨ pista ∈ exibirPistas e.bstPistas := by
    intro hf
    have := hinv hf caminho hs
    rwa [hm] at this
  rw [passo_eq_aventureiro e caminho nome pista esq dir c hs hm]
  rcases processarEscolha_cases (processarPista e pista) caminho c with h | h | h
  · rw [h]
    intro _ p hp
    rw [processarPista_salaAtual, hs] at hp
    cases hp
    rw [processarPista_mapa, hm]
    by_cases h0 : pista = []
    · exact Or.inl h0
    · exact Or.inr ((processarPista_chaves e pista hinv1 pista).mpr (Or.inr ⟨h0, rfl⟩))
  · intro hf
    rw [h] at hf
    exact absurd hf (by decide)
  · intro _ p hp
    rw [h] at hp
    exact Option.noConfusion hp

theorem chaves_explorarSalasComPistas :
    ∀ (stdin : List Nat) (e e1 : Estado) (resto : List Nat),
      (e.pistaColetadaNestaSala = true → ∀ p, e.salaAtual = some p →
        (e.mapa.em p).pista = [] ∨ (e.mapa.em p).pista ∈ exibirPistas e.bstPistas) →
      explorarSalasComPistas e stdin = some (e1, resto) →
      ∀ k, k ∈ exibirPistas e1.bstPistas ↔
        k ∈ exibirPistas e.bstPistas ∨
        (k ≠ [] ∧ ∃ p ∈ percurso e stdin, (e.mapa.em p).pista = k) := by
  intro stdin
  induction stdin with
  | nil =>
    intro e e1 resto _ h k
    cases hsala : e.sala with
    | null =>
      simp only [explorarSalasComPistas, hsala, Option.some.injEq, Prod.mk.injEq] at h
      rw [← h.1]
      simp [percurso]
    | node _ _ _ _ => simp [explorarSalasComPistas, hsala] at h
  | cons c cs ih =>
    intro e e1 resto hinv h k
    cases hs : e.salaAtual with
    | none =>
      have hsala : e.sala = .null := by simp [Estado.sala, hs]
      simp only [explorarSalasComPistas, hsala, Option.some.injEq, Prod.mk.injEq] at h
      rw [← h.1]
      simp [percurso, hs]
    | some caminho =>
      cases hm : e.mapa.em caminho with
      | null =>
        have hsala : e.sala = .null := by simp [Estado.sala, hs, hm]
        simp only [explorarSalasComPistas, hsala, Option.some.injEq, Prod.mk.injEq] at h
        rw [← h.1]
        simp [percurso, hs, hm]
      | node nome pista esq dir =>
        have hsala : e.sala = .node nome pista esq dir := by simp [Estado.sala, hs, hm]
        simp only [explorarSalasComPistas, hsala] at h
        simp only [percurso, hs, hm]
        split_ifs at h ⊢ with hsp
        · exact ih e e1 resto hinv h k
        · have hflag := passo_flag e caminho nome pista esq dir c hs hm hinv
          rw [ih (passo e c) e1 resto hflag h k, passo_mapa_aventureiro]
          have hinv1 : e.pistaColetadaNestaSala = true →
              pista = [] ∨ pista ∈ exibirPistas e.bstPistas := by
            intro hf
            have := hinv hf caminho hs
            rwa [hm] at this
          have hk : k ∈ exibirPistas (passo e c).bstPistas ↔
              k ∈ exibirPistas e.bstPistas ∨ (k ≠ [] ∧ pista = k) := by
            rw [passo_eq_aventureiro e caminho nome pista esq dir c hs hm, processarEscolha_bstPistas]
            exact processarPista_chaves e pista hinv1 k
          rw [hk]
          simp only [List.mem_cons, exists_eq_or_imp, hm, Sala.pista]
          constructor
          · rintro ((hk0 | ⟨hne, hp⟩) | ⟨hne, hex⟩)
            · exact Or.inl hk0
            · exact Or.inr ⟨hne, Or.inl hp⟩
            · exact Or.inr ⟨hne, Or.inr hex⟩
          · rintro (hk0 | ⟨hne, hp | hex⟩)
            · exact Or.inl (Or.inl hk0)
            · exact Or.inl (Or.inr ⟨hne, hp⟩)
            · exact Or.inr ⟨hne, hex⟩

end Aventureiro

/-- C16: in aventureiro.c, for every Room Map and every input on which the exploration
ends (the commands end with the exit command), the keys of the Clue Index at the end
are exactly the non-empty clue texts of the rooms in which the loop ran, the start room
included, and each of them is the key of one node only, however many commands were read
in its room. -/
theorem pistas_do_percurso (mapa : Sala) (stdin : List Nat) (e1 : Aventureiro.Estado)
    (resto : List Nat)
    (h : Aventureiro.explorarSalasComPistas (Aventureiro.inicio mapa) stdin =
      some (e1, resto)) :
    (∀ k, k ∈ exibirPistas e1.bstPistas ↔
      k ≠ [] ∧ ∃ p ∈ Aventureiro.percurso (Aventureiro.inicio mapa) stdin,
        (mapa.em p).pista = k) ∧
    (exibirPistas e1.bstPistas).Nodup := by
  constructor
  · intro k
    rw [Aventureiro.chaves_explorarSalasComPistas stdin (Aventureiro.inicio mapa) e1 resto
      (fun hf => by simp [Aventureiro.inicio] at hf) h k]
    simp [Aventureiro.inicio, exibirPistas]
  · apply nodup_exibirPistas
    exact Aventureiro.explorarSalasComPistas_inv (fun e => ordenada e.bstPistas)
      (fun e c he => Aventureiro.passo_ordenada_aventureiro e c he) stdin (Aventureiro.inicio mapa)
      e1 resto trivial h

/-- Witness of C16: on the map of `main` of aventureiro.c the commands `e`, `x`, `s` run
the loop in the hall and twice in the dining room; the Clue Index holds the two clues
once each. -/
theorem pistas_do_percurso_witness :
    ∃ e1, Aventureiro.explorarSalasComPistas (Aventureiro.inicio Aventureiro.hall)
        ['e'.toNat, 'x'.toNat, 's'.toNat] = some (e1, []) ∧
      ((∀ k, k ∈ exibirPistas e1.bstPistas ↔
        k ≠ [] ∧ ∃ p ∈ Aventureiro.percurso (Aventureiro.inicio Aventureiro.hall)
            ['e'.toNat, 'x'.toNat, 's'.toNat],
          (Aventureiro.hall.em p).pista = k) ∧
       (exibirPistas e1.bstPistas).Nodup) ∧
      Aventureiro.percurso (Aventureiro.inicio Aventureiro.hall)
        ['e'.toNat, 'x'.toNat, 's'.toNat] = [[], [.esquerda], [.esquerda]] ∧
      exibirPistas e1.bstPistas =
        [cstr "Restos de um banquete suntuoso, mas sem talheres.",
         cstr "Um jornal velho sobre a mesa, com a data de 1920."] := by
  obtain ⟨r, hr⟩ := Option.isSome_iff_exists.mp
    (show (Aventureiro.explorarSalasComPistas (Aventureiro.inicio Aventureiro.hall)
      ['e'.toNat, 'x'.toNat, 's'.toNat]).isSome = true by decide)
  have hval : (Aventureiro.explorarSalasComPistas (Aventureiro.inicio Aventureiro.hall)
      ['e'.toNat, 'x'.toNat, 's'.toNat]).map (fun r => (exibirPistas r.1.bstPistas, r.2)) =
      some ([cstr "Restos de um banquete suntuoso, mas sem talheres.",
         cstr "Um jornal velho sobre a mesa, com a data de 1920."], []) := by decide
  obtain ⟨e1, resto⟩ := r
  rw [hr] at hval
  simp only [Option.map_some', Option.some.injEq, Prod.mk.injEq] at hval
  obtain ⟨hlist, hresto⟩ := hval
  subst hresto
  exact ⟨e1, hr, pistas_do_percurso Aventureiro.hall _ e1 [] hr, by decide, hlist⟩

/-! ## The clues collected by an exploration of mestre.c -/

namespace Mestre

theorem processarEscolha_salaAtual (e : Estado) (caminho : List Direcao) (c : Nat) :
    (processarEscolha e caminho c).salaAtual = e.salaAtual ∨
    (processarEscolha e caminho c).salaAtual = none ∨
    ∃ dr, (processarEscolha e caminho c).salaAtual = some (caminho ++ [dr]) := by
  have hf : ∀ dr, e.mapa.filho caminho dr = none ∨
      e.mapa.filho caminho dr = some (caminho ++ [dr]) := by
    intro dr
    unfold Sala.filho
    split
    · exact Or.inl rfl
    · exact Or.inr rfl
  unfold processarEscolha
  split_ifs
  · rcases hf .esquerda with h | h
    · exact Or.inr (Or.inl h)
    · exact Or.inr (Or.inr ⟨_, h⟩)
  · rcases hf .direita with h | h
    · exact Or.inr (Or.inl h)
    · exact Or.inr (Or.inr ⟨_, h⟩)
  · exact Or.inr (Or.inl rfl)
  · exact Or.inl rfl

/-- The cursor only moves down the map. -/
theorem passo_prefixo (e e1 : Estado) (c : Nat) (p q : List Direcao)
    (h : passo e c = some e1) (hs : e.salaAtual = some p) (hq : e1.salaAtual = some q) :
    p <+: q := by
  rcases passo_cases e e1 c h with ⟨_, rfl⟩ | ⟨caminho, e0, hs0, _, he0, rfl⟩
  · rw [hs] at hq
    cases hq
    exact List.prefix_refl _
  · rw [hs] at hs0
    cases hs0
    have hsa := (processarPista_quadro e e0 p he0).1
    rcases processarEscolha_salaAtual e0 p c with h1 | h1 | ⟨dr, h1⟩
    · rw [h1, hsa, hs] at hq
      cases hq
      exact List.prefix_refl _
    · rw [h1] at hq
      exact Option.noConfusion hq
    · rw [h1] at hq
      cases hq
      exact List.prefix_append _ _

theorem percurso_prefixo :
    ∀ (stdin : List Nat) (e : Estado) (q : List Direcao), q ∈ percurso e stdin →
      ∃ p, e.salaAtual = some p ∧ p <+: q := by
  intro stdin
  induction stdin with
  | nil => intro e q hq; simp [percurso] at hq
  | cons c cs ih =>
    intro e q hq
    cases hs : e.salaAtual with
    | none => simp [percurso, hs] at hq
    | some caminho =>
      cases hm : e.mapa.em caminho with
      | null => simp [percurso, hs, hm] at hq
      | node nome pista esq dir =>
        simp only [percurso, hs, hm] at hq
        split_ifs at hq with hsp
        · obtain ⟨p, hp, hpre⟩ := ih e q hq
          rw [hs] at hp
          exact ⟨p, hp, hpre⟩
        · cases hp : passo e c with
          | none => simp [hp] at hq
          | some e2 =>
            simp only [hp, List.mem_cons] at hq
            rcases hq with rfl | hq
            · exact ⟨q, rfl, List.prefix_refl _⟩
            · obtain ⟨p, hp2, hpre⟩ := ih e2 q hq
              exact ⟨caminho, rfl, (passo_prefixo e e2 c caminho p hp hs hp2).trans hpre⟩

end Mestre

/-- The clue field, after the clue of the room at `caminho` is cleared, of a room at or
below `caminho`. -/
theorem Sala.limparPista_pista (m : Sala) (caminho q : List Direcao) (n pi : CStr)
    (e d : Sala) (hm : m.em caminho = .node n pi e d) (hpre : caminho <+: q) :
    ((m.limparPista caminho).em q).pista = if q = caminho then [] else (m.em q).pista := by
  obtain ⟨r, rfl⟩ := hpre
  cases r with
  | nil =>
    simp only [List.append_nil, if_true]
    rw [Sala.limparPista_em_self _ _ _ _ _ _ hm]
    rfl
  | cons dr r =>
    have hne : caminho ++ dr :: r ≠ caminho := by
      intro h
      have := congrArg List.length h
      simp at this
    rw [if_neg hne, Sala.limparPista_em_abaixo]

namespace Mestre

/-- What one iteration in a room does to the Clue Index and to the map, by whether the
clue of the room has a suspect. -/
theorem passo_coleta (e e1 : Estado) (c : Nat) (caminho : List Direcao)
    (hs : e.salaAtual = some caminho) (hsala : e.mapa.em caminho ≠ .null)
    (h : passo e c = some e1) :
    (getSuspeitoParaPista (e.mapa.em caminho).pista = none ∧
      e1.bstPistas = e.bstPistas ∧ e1.mapa = e.mapa) ∨
    (∃ s, getSuspeitoParaPista (e.mapa.em caminho).pista = some s ∧
      e1.bstPistas = adicionarPista e.bstPistas (e.mapa.em caminho).pista ∧
      e1.mapa = e.mapa.limparPista caminho) := by
  rw [passo_eq e caminho c hs hsala] at h
  obtain ⟨e0, he0⟩ := processarPista_isSome e caminho (e.mapa.em caminho).pista
  rw [he0] at h
  simp only [Option.map_some', Option.some.injEq] at h
  subst h
  obtain ⟨hm, hb, _⟩ := processarEscolha_quadro e0 caminho c
  rw [hm, hb]
  rcases processarPista_cases e e0 caminho _ he0 with ⟨hg, rfl⟩ | ⟨s, hg, rfl⟩
  · exact Or.inl ⟨hg, rfl, rfl⟩
  · exact Or.inr ⟨s, hg, rfl, rfl⟩

/-- The keys of the Clue Index when the exploration ends: the keys at the start and the
clues with a suspect of the rooms in which the loop ran. -/
theorem chaves_explorarSalas :
    ∀ (stdin : List Nat) (e e1 : Estado) (resto : List Nat),
      explorarSalas e stdin = some (e1, resto) →
      ∀ k, k ∈ exibirPistas e1.bstPistas ↔
        k ∈ exibirPistas e.bstPistas ∨
        (getSuspeitoParaPista k ≠ none ∧
          ∃ q ∈ percurso e stdin, (e.mapa.em q).pista = k) := by
  intro stdin
  induction stdin with
  | nil =>
    intro e e1 resto h k
    cases hsala : e.sala with
    | null =>
      simp only [explorarSalas, hsala, Option.some.injEq, Prod.mk.injEq] at h
      rw [← h.1]
      simp [percurso]
    | node _ _ _ _ => simp [explorarSalas, hsala] at h
  | cons c cs ih =>
    intro e e1 resto h k
    cases hs : e.salaAtual with
    | none =>
      have hsala : e.sala = .null := by simp [Estado.sala, hs]
      simp only [explorarSalas, hsala, Option.some.injEq, Prod.mk.injEq] at h
      rw [← h.1]
      simp [percurso, hs]
    | some caminho =>
      cases hm : e.mapa.em caminho with
      | null =>
        have hsala : e.sala = .null := by simp [Estado.sala, hs, hm]
        simp only [explorarSalas, hsala, Option.some.injEq, Prod.mk.injEq] at h
        rw [← h.1]
        simp [percurso, hs, hm]
      | node nome pista esq dir =>
        have hsala : e.sala = .node nome pista esq dir := by simp [Estado.sala, hs, hm]
        have hnn : e.mapa.em caminho ≠ .null := by rw [hm]; exact fun h => Sala.noConfusion h
        simp only [explorarSalas, hsala] at h
        simp only [percurso, hs, hm]
        split_ifs at h ⊢ with hsp
        · exact ih e e1 resto h k
        · cases hp : passo e c with
          | none => simp [hp] at h
          | some e2 =>
            simp only [hp] at h ⊢
            rw [ih e2 e1 resto h k]
            have hpre : ∀ q ∈ percurso e2 cs, caminho <+: q := by
              intro q hq
              obtain ⟨p, hp2, hpq⟩ := percurso_prefixo cs e2 q hq
              exact (passo_prefixo e e2 c caminho p hp hs hp2).trans hpq
            have hpista : (e.mapa.em caminho).pista = pista := by rw [hm]; rfl
            simp only [List.mem_cons, exists_eq_or_imp, hpista]
            rcases passo_coleta e e2 c caminho hs hnn hp with
              ⟨hg, hb, hmapa⟩ | ⟨s, hg, hb, hmapa⟩
            · rw [hb, hmapa]
              rw [hpista] at hg
              constructor
              · rintro (hk | ⟨hne, hex⟩)
                · exact Or.inl hk
                · exact Or.inr ⟨hne, Or.inr hex⟩
              · rintro (hk | ⟨hne, rfl | hex⟩)
                · exact Or.inl hk
                · exact absurd hg hne
                · exact Or.inr ⟨hne, hex⟩
            · rw [hb, hmapa, hpista]
              rw [hpista] at hg
              simp only [adicionarPista_eq_inserirPista, mem_exibirPistas_inserirPista]
              constructor
              · rintro ((rfl | hk) | ⟨hne, q, hq, hqk⟩)
                · exact Or.inr ⟨by rw [hg]; exact fun h => Option.noConfusion h, Or.inl rfl⟩
                · exact Or.inl hk
                · rw [Sala.limparPista_pista _ _ _ _ _ _ _ hm (hpre q hq)] at hqk
                  split_ifs at hqk with hqc
                  · subst hqk
                    exact absurd getSuspeitoParaPista_nil hne
                  · exact Or.inr ⟨hne, Or.inr ⟨q, hq, hqk⟩⟩
              · rintro (hk | ⟨hne, rfl | ⟨q, hq, hqk⟩⟩)
                · exact Or.inl (Or.inr hk)
                · exact Or.inl (Or.inl rfl)
                · by_cases hqc : q = caminho
                  · subst hqc
                    rw [hpista] at hqk
                    exact Or.inl (Or.inl hqk.symm)
                  · refine Or.inr ⟨hne, q, hq, ?_⟩
                    rw [Sala.limparPista_pista _ _ _ _ _ _ _ hm (hpre q hq), if_neg hqc]
                    exact hqk

/-- Every iteration keeps the Lookup Table in step with the Clue Index: the lookup of a
key of the index returns the suspect that `getSuspeitoParaPista` gives, and the lookup
of any other text returns `NULL`. -/
theorem passo_coerente (e e1 : Estado) (c : Nat)
    (hC : ∀ k, percorrerCadeia (e.tabelaHash (indice k)) k =
      if k ∈ exibirPistas e.bstPistas then getSuspeitoParaPista k else none)
    (h : passo e c = some e1) :
    ∀ k, percorrerCadeia (e1.tabelaHash (indice k)) k =
      if k ∈ exibirPistas e1.bstPistas then getSuspeitoParaPista k else none := by
  rcases passo_cases e e1 c h with ⟨_, rfl⟩ | ⟨caminho, e0, _, _, he0, rfl⟩
  · exact hC
  · obtain ⟨_, hb, ht⟩ := processarEscolha_quadro e0 caminho c
    rw [hb, ht]
    rcases processarPista_cases e e0 caminho _ he0 with ⟨_, rfl⟩ | ⟨s, hg, rfl⟩
    · exact hC
    · intro k
      simp only [adicionarPista_eq_inserirPista, mem_exibirPistas_inserirPista]
      by_cases hk : k = (e.mapa.em caminho).pista
      · subst hk
        rw [Function.update_same, percorrerCadeia_cons_self, hg]
        simp
      · have hmem : (k = (e.mapa.em caminho).pista ∨ k ∈ exibirPistas e.bstPistas) ↔
            k ∈ exibirPistas e.bstPistas := by
          constructor
          · rintro (h1 | h1)
            · exact absurd h1 hk
            · exact h1
          · exact fun h1 => Or.inr h1
        simp only [hmem]
        rw [← hC k]
        by_cases hi : indice k = indice (e.mapa.em caminho).pista
        · rw [hi, Function.update_same]
          have h0 : ¬ strcmp (e.mapa.em caminho).pista k = 0 := fun h0 =>
            hk ((strcmp_eq_zero_iff _ _).mp h0).symm
          simp only [percorrerCadeia, h0, if_false]
        · rw [Function.update_noteq hi]

theorem passo_ordenada (e e1 : Estado) (c : Nat) (hP : ordenada e.bstPistas)
    (h : passo e c = some e1) : ordenada e1.bstPistas := by
  rcases passo_cases e e1 c h with ⟨_, rfl⟩ | ⟨caminho, e0, _, _, he0, rfl⟩
  · exact hP
  · rw [(processarEscolha_quadro e0 caminho c).2.1]
    rcases processarPista_cases e e0 caminho _ he0 with ⟨_, rfl⟩ | ⟨s, _, rfl⟩
    · exact hP
    · show ordenada (adicionarPista e.bstPistas _)
      rw [adicionarPista_eq_inserirPista]
      exact ordenada_inserirPista _ _ hP

/-- The count for a suspect after an exploration from an empty Clue Index and an empty
Lookup Table: the number of distinct clues of that suspect in the rooms in which the
loop ran. -/
theorem contagem_explorarSalas (mapa : Sala) (stdin : List Nat) (e1 : Estado)
    (resto : List Nat) (h : explorarSalas (inicio mapa) stdin = some (e1, resto))
    (s : CStr) :
    contarPistasParaSuspeito e1.bstPistas e1.tabelaHash s =
      some ((pistasVisitadas mapa stdin).filter
        (fun k => decide (getSuspeitoParaPista k = some s))).toFinset.card := by
  have hord : ordenada e1.bstPistas :=
    explorarSalas_inv (fun e => ordenada e.bstPistas)
      (fun e c e2 hP hp => passo_ordenada e e2 c hP hp) stdin (inicio mapa) e1 resto
      trivial h
  have hcoe := explorarSalas_inv
    (fun e => ∀ k, percorrerCadeia (e.tabelaHash (indice k)) k =
      if k ∈ exibirPistas e.bstPistas then getSuspeitoParaPista k else none)
    (fun e c e2 hP hp => passo_coerente e e2 c hP hp) stdin (inicio mapa) e1 resto
    (fun k => by simp [inicio, tabelaVazia, percorrerCadeia, exibirPistas]) h
  have hkeys := chaves_explorarSalas stdin (inicio mapa) e1 resto h
  rw [contarPistasParaSuspeito_eq]
  have hcongr : (exibirPistas e1.bstPistas).countP
      (fun k => decide (encontrarSuspeito e1.tabelaHash k = some (some s))) =
      (exibirPistas e1.bstPistas).countP
        (fun k => decide (getSuspeitoParaPista k = some s)) := by
    apply List.countP_congr
    intro k hk
    simp only [decide_eq_true_eq, encontrarSuspeito_eq, hcoe k, hk, if_true,
      Option.some.injEq]
  rw [hcongr, countP_eq_card_filter _ (nodup_exibirPistas _ hord)]
  congr 2
  ext k
  simp only [Finset.mem_filter, List.mem_toFinset, List.mem_filter, decide_eq_true_eq,
    hkeys k, pistasVisitadas, List.mem_map]
  constructor
  · rintro ⟨hk | ⟨_, q, hq, hqk⟩, hg⟩
    · simp [inicio, exibirPistas] at hk
    · exact ⟨⟨q, hq, hqk⟩, hg⟩
  · rintro ⟨⟨q, hq, hqk⟩, hg⟩
    exact ⟨Or.inr ⟨by rw [hg]; exact fun h => Option.noConfusion h, q, hq, hqk⟩, hg⟩

end Mestre

/-- C18: in mestre.c, for every Room Map and every input on which the exploration ends,
when the rooms in which the loop ran carry exactly two distinct clues that
`getSuspeitoParaPista` associates with "Mordomo" and exactly one that it associates
with "Dama_da_noite", the structures that `explorarSalas` leaves give the count 2 for
"Mordomo" (and 1 for "Dama_da_noite"), and the accusation of "Mordomo" is upheld. -/
theorem duas_pistas_do_mordomo (mapa : Sala) (stdin : List Nat) (e1 : Mestre.Estado)
    (resto : List Nat)
    (h : Mestre.explorarSalas (Mestre.inicio mapa) stdin = some (e1, resto))
    (hmordomo : ((Mestre.pistasVisitadas mapa stdin).filter
      (fun k => decide (getSuspeitoParaPista k = some (cstr "Mordomo")))).toFinset.card = 2)
    (hdama : ((Mestre.pistasVisitadas mapa stdin).filter
      (fun k => decide (getSuspeitoParaPista k = some (cstr "Dama_da_noite")))).toFinset.card
        = 1) :
    contarPistasParaSuspeito e1.bstPistas e1.tabelaHash (cstr "Mordomo") = some 2 ∧
    contarPistasParaSuspeito e1.bstPistas e1.tabelaHash (cstr "Dama_da_noite") = some 1 ∧
    ∀ resto2, lerAcusado resto = some (cstr "Mordomo", resto2) →
      verificarSuspeitoFinal e1.bstPistas e1.tabelaHash resto =
        some (.desvendado (cstr "Mordomo") 2, resto2) := by
  have h2 : contarPistasParaSuspeito e1.bstPistas e1.tabelaHash (cstr "Mordomo") = some 2 := by
    rw [Mestre.contagem_explorarSalas mapa stdin e1 resto h, hmordomo]
  have h1 : contarPistasParaSuspeito e1.bstPistas e1.tabelaHash (cstr "Dama_da_noite") =
      some 1 := by
    rw [Mestre.contagem_explorarSalas mapa stdin e1 resto h, hdama]
  refine ⟨h2, h1, ?_⟩
  intro resto2 hler
  cases hb : e1.bstPistas with
  | null =>
    rw [hb] at h2
    simp [contarPistasParaSuspeito] at h2
  | node p l r =>
    rw [hb] at h2
    rw [verificarSuspeitoFinal_node p l r e1.tabelaHash resto _ resto2 2 hler h2]
    rfl

/-- Witness of C18: on the scenario map the commands `e`, `e`, `s` run the loop in the
three rooms, and the word "Mordomo" that follows on the input is the accusation. -/
theorem duas_pistas_do_mordomo_witness :
    ((Mestre.pistasVisitadas Mestre.mapaDoMordomo
        (['e'.toNat, 'e'.toNat, 's'.toNat] ++ cstr "Mordomo")).filter
      (fun k => decide (getSuspeitoParaPista k = some (cstr "Mordomo")))).toFinset.card = 2 ∧
    ((Mestre.pistasVisitadas Mestre.mapaDoMordomo
        (['e'.toNat, 'e'.toNat, 's'.toNat] ++ cstr "Mordomo")).filter
      (fun k => decide (getSuspeitoParaPista k = some (cstr "Dama_da_noite")))).toFinset.card
        = 1 ∧
    lerAcusado (cstr "Mordomo") = some (cstr "Mordomo", []) ∧
    ∃ e1, Mestre.explorarSalas (Mestre.inicio Mestre.mapaDoMordomo)
        (['e'.toNat, 'e'.toNat, 's'.toNat] ++ cstr "Mordomo") = some (e1, cstr "Mordomo") ∧
      contarPistasParaSuspeito e1.bstPistas e1.tabelaHash (cstr "Mordomo") = some 2 ∧
      contarPistasParaSuspeito e1.bstPistas e1.tabelaHash (cstr "Dama_da_noite") = some 1 ∧
      verificarSuspeitoFinal e1.bstPistas e1.tabelaHash (cstr "Mordomo") =
        some (.desvendado (cstr "Mordomo") 2, []) := by
  obtain ⟨r, hr⟩ := Option.isSome_iff_exists.mp
    (show (Mestre.explorarSalas (Mestre.inicio Mestre.mapaDoMordomo)
      (['e'.toNat, 'e'.toNat, 's'.toNat] ++ cstr "Mordomo")).isSome = true by decide)
  have hresto : (Mestre.explorarSalas (Mestre.inicio Mestre.mapaDoMordomo)
      (['e'.toNat, 'e'.toNat, 's'.toNat] ++ cstr "Mordomo")).map Prod.snd =
      some (cstr "Mordomo") := by decide
  obtain ⟨e1, resto⟩ := r
  rw [hr] at hresto
  simp only [Option.map_some', Option.some.injEq] at hresto
  subst hresto
  have hmordomo : ((Mestre.pistasVisitadas Mestre.mapaDoMordomo
        (['e'.toNat, 'e'.toNat, 's'.toNat] ++ cstr "Mordomo")).filter
      (fun k => decide (getSuspeitoParaPista k = some (cstr "Mordomo")))).toFinset.card = 2 := by
    decide
  have hdama : ((Mestre.pistasVisitadas Mestre.mapaDoMordomo
        (['e'.toNat, 'e'.toNat, 's'.toNat] ++ cstr "Mordomo")).filter
      (fun k => decide (getSuspeitoParaPista k = some (cstr "Dama_da_noite")))).toFinset.card
        = 1 := by
    decide
  have hler : lerAcusado (cstr "Mordomo") = some (cstr "Mordomo", []) := by decide
  obtain ⟨h2, h1, hv⟩ := duas_pistas_do_mordomo Mestre.mapaDoMordomo _ e1 _ hr hmordomo hdama
  exact ⟨hmordomo, hdama, hler, e1, hr, h2, h1, hv [] hler⟩

/-! ## Bucket accesses and the effect of one insertion -/

/-- C21: for every key string `hashFunction` returns an index below `HASH_SIZE` (10), so
the bucket accesses `tabela[index]` of `inserirNaHash` and of `encontrarSuspeito` are
within the array: neither function ever takes the index-out-of-range branch. -/
theorem indice_dentro_da_tabela (tabela : Tabela) (pista suspeito : CStr) :
    hashFunction pista < HASH_SIZE ∧ hashFunction pista < 10 ∧
    (∃ t, inserirNaHash tabela pista suspeito = some t) ∧
    (∃ r, encontrarSuspeito tabela pista = some r) ∧
    inserirNaHash tabela pista suspeito ≠ none ∧
    encontrarSuspeito tabela pista ≠ none := by
  refine ⟨hashFunction_lt pista, hashFunction_lt pista, ⟨_, inserirNaHash_eq _ _ _⟩,
    ⟨_, encontrarSuspeito_eq _ _⟩, ?_, ?_⟩
  · rw [inserirNaHash_eq]; exact fun h => Option.noConfusion h
  · rw [encontrarSuspeito_eq]; exact fun h => Option.noConfusion h

/-- C22: `inserirNaHash(table, k, v)` changes only the bucket `hashFunction(k)`, whose
new chain is the new entry `(k, v)` followed by the old chain; every other bucket is
as it was, every entry of the table is still in its bucket, and for every key other
than `k` the result of `encontrarSuspeito` is the same before and after. -/
theorem inserirNaHash_quadro (tabela : Tabela) (k v : CStr) :
    ∃ t, inserirNaHash tabela k v = some t ∧
      (indice k).val = hashFunction k ∧
      t (indice k) = { pista := k, suspeito := v } :: tabela (indice k) ∧
      (∀ i, i ≠ indice k → t i = tabela i) ∧
      (∀ i, ∀ n ∈ tabela i, n ∈ t i) ∧
      (∀ k1, k1 ≠ k → encontrarSuspeito t k1 = encontrarSuspeito tabela k1) := by
  refine ⟨_, inserirNaHash_eq tabela k v, rfl, Function.update_same _ _ _,
    fun i hi => Function.update_noteq hi _ _, ?_, ?_⟩
  · intro i n hn
    by_cases hi : i = indice k
    · subst hi
      rw [Function.update_same]
      exact List.mem_cons_of_mem _ hn
    · rw [Function.update_noteq hi]
      exact hn
  · intro k1 hk
    rw [encontrarSuspeito_eq, encontrarSuspeito_eq]
    by_cases hi : indice k1 = indice k
    · rw [hi, Function.update_same]
      have h0 : ¬ strcmp k k1 = 0 := fun h0 => hk ((strcmp_eq_zero_iff _ _).mp h0).symm
      simp only [percorrerCadeia, h0, if_false]
    · rw [Function.update_noteq hi]

/-- Witness of C22: the key "k" inserted into the table that holds "a" in the same
bucket: the lookup of "a" is as before. -/
theorem inserirNaHash_quadro_witness :
    ([97] : CStr) ≠ [107] ∧ indice [97] = indice [107] ∧
    ∃ t, inserirNaHash
        (Function.update tabelaVazia (indice [97]) [{ pista := [97], suspeito := [120] }])
        [107] [121] = some t ∧
      encontrarSuspeito t [97] = some (some [120]) := by
  obtain ⟨t, ht, _, _, _, _, hframe⟩ := inserirNaHash_quadro
    (Function.update tabelaVazia (indice [97]) [{ pista := [97], suspeito := [120] }])
    [107] [121]
  refine ⟨by decide, by decide, t, ht, ?_⟩
  rw [hframe [97] (by decide)]
  decide

/-! ## The shape of the Clue Index -/

theorem inserirPista_espinha (t : PistaNode) (x : CStr) (hs : semEsquerda t = true)
    (hx : ∀ y ∈ exibirPistas t, strcmp y x < 0) :
    semEsquerda (inserirPista t x) = true ∧
    profundidade (inserirPista t x) = profundidade t + 1 := by
  induction t with
  | null => exact ⟨rfl, rfl⟩
  | node k l r _ ihr =>
    cases l with
    | node _ _ _ => simp [semEsquerda] at hs
    | null =>
      have hk : strcmp k x < 0 := hx k (by simp [exibirPistas])
      have hgt : strcmp x k > 0 := (strcmp_gt_iff x k).mpr hk
      have hnlt : ¬ strcmp x k < 0 := by omega
      have hr : ∀ y ∈ exibirPistas r, strcmp y x < 0 := fun y hy =>
        hx y (by simp [exibirPistas, hy])
      obtain ⟨h1, h2⟩ := ihr (by simpa [semEsquerda] using hs) hr
      simp only [inserirPista, hnlt, hgt, if_true, if_false]
      refine ⟨by simpa [semEsquerda] using h1, ?_⟩
      simp only [profundidade, h2]
      omega

theorem inserirTodas_append (l : List CStr) (x : CStr) :
    inserirTodas (l ++ [x]) = inserirPista (inserirTodas l) x := by
  simp [inserirTodas, List.foldl_append]

theorem inserirTodas_espinha (l : List CStr)
    (h : l.Pairwise (fun a b => strcmp a b < 0)) :
    semEsquerda (inserirTodas l) = true ∧ profundidade (inserirTodas l) = l.length := by
  induction l using List.reverseRecOn with
  | nil => exact ⟨rfl, rfl⟩
  | append_singleton l x ih =>
    rw [List.pairwise_append] at h
    obtain ⟨hl, _, hx⟩ := h
    obtain ⟨h1, h2⟩ := ih hl
    have hkeys : ∀ y ∈ exibirPistas (inserirTodas l), strcmp y x < 0 := fun y hy =>
      hx y ((mem_exibirPistas_inserirTodas l y).mp hy) x (List.mem_singleton.mpr rfl)
    obtain ⟨h3, h4⟩ := inserirPista_espinha (inserirTodas l) x h1 hkeys
    rw [inserirTodas_append]
    exact ⟨h3, by rw [h4, h2, List.length_append]; rfl⟩

theorem profundidade_le_numNos (t : PistaNode) : profundidade t ≤ numNos t := by
  induction t with
  | null => exact Nat.le_refl _
  | node k l r ihl ihr =>
    simp only [profundidade, numNos]
    omega

theorem numNos_eq_length (t : PistaNode) : numNos t = (exibirPistas t).length := by
  induction t with
  | null => rfl
  | node k l r ihl ihr =>
    simp only [numNos, exibirPistas, List.length_append, List.length_cons, ihl, ihr]
    omega

theorem numNos_inserirTodas (ks : List CStr) :
    numNos (inserirTodas ks) = ks.toFinset.card := by
  rw [numNos_eq_length,
    ← List.toFinset_card_of_nodup (nodup_exibirPistas _ (ordenada_inserirTodas ks))]
  congr 1
  ext k
  simp only [List.mem_toFinset, mem_exibirPistas_inserirTodas]

/-- C23: insertion into the Clue Index does no rebalancing.  For every list of `n` clue
texts in strictly increasing order by `strcmp`, inserting them in that order into the
empty index gives a tree of depth exactly `n` in which every node has an empty left
child; and for every list, in whatever order, the depth is at most the number of
distinct inserted keys.  Stated for `inserirPista` (aventureiro.c) and for
`adicionarPista` (mestre.c). -/
theorem sem_rebalanceamento :
    (∀ l : List CStr, l.Pairwise (fun a b => strcmp a b < 0) →
      (profundidade (inserirTodas l) = l.length ∧ semEsquerda (inserirTodas l) = true) ∧
      (profundidade (adicionarTodas l) = l.length ∧
        semEsquerda (adicionarTodas l) = true)) ∧
    (∀ ks : List CStr,
      profundidade (inserirTodas ks) ≤ ks.toFinset.card ∧
      profundidade (adicionarTodas ks) ≤ ks.toFinset.card) := by
  constructor
  · intro l hl
    obtain ⟨h1, h2⟩ := inserirTodas_espinha l hl
    rw [adicionarTodas_eq_inserirTodas]
    exact ⟨⟨h2, h1⟩, ⟨h2, h1⟩⟩
  · intro ks
    have h := (profundidade_le_numNos (inserirTodas ks)).trans_eq (numNos_inserirTodas ks)
    rw [adicionarTodas_eq_inserirTodas]
    exact ⟨h, h⟩

/-- Witness of C23: the clues "a", "b", "c" inserted in that order give a right spine of
depth 3. -/
theorem sem_rebalanceamento_witness :
    List.Pairwise (fun a b => strcmp a b < 0) [([97] : CStr), [98], [99]] ∧
    ((profundidade (inserirTodas [[97], [98], [99]]) = [([97] : CStr), [98], [99]].length ∧
      semEsquerda (inserirTodas [[97], [98], [99]]) = true) ∧
     (profundidade (adicionarTodas [[97], [98], [99]]) =
        [([97] : CStr), [98], [99]].length ∧
      semEsquerda (adicionarTodas [[97], [98], [99]]) = true)) ∧
    inserirTodas [[97], [98], [99]] =
      .node [97] .null (.node [98] .null (.node [99] .null .null)) :=
  ⟨by decide, sem_rebalanceamento.1 [[97], [98], [99]] (by decide), by decide⟩

/-! ## The Lookup Table follows the Clue Index (mestre.c) -/

namespace Mestre

theorem mem_chavesDaTabela (tabela : Tabela) (k : CStr) :
    k ∈ chavesDaTabela tabela ↔ ∃ i, ∃ n ∈ tabela i, n.pista = k := by
  simp [chavesDaTabela, List.mem_finRange]

theorem passo_isSome (e : Estado) (c : Nat) : ∃ e1, passo e c = some e1 := by
  cases hs : e.salaAtual with
  | none => exact ⟨e, by simp [passo, hs]⟩
  | some caminho =>
    by_cases hsala : e.mapa.em caminho = .null
    · exact ⟨e, by simp [passo, hs, hsala]⟩
    · obtain ⟨e0, he0⟩ := processarPista_isSome e caminho (e.mapa.em caminho).pista
      exact ⟨processarEscolha e0 caminho c, by rw [passo_eq e caminho c hs hsala, he0]; rfl⟩

theorem iterar_isSome (cs : List Nat) (e : Estado) : ∃ e1, iterar e cs = some e1 := by
  induction cs generalizing e with
  | nil => exact ⟨e, rfl⟩
  | cons c cs ih =>
    obtain ⟨e0, he0⟩ := passo_isSome e c
    obtain ⟨e1, he1⟩ := ih e0
    exact ⟨e1, by simp only [iterar, he0, he1]⟩

/-- A property of the state that every iteration keeps holds after any number of
iterations. -/
theorem iterar_inv (P : Estado → Prop)
    (hstep : ∀ e c e1, P e → passo e c = some e1 → P e1) :
    ∀ (cs : List Nat) (e e1 : Estado), P e → iterar e cs = some e1 → P e1 := by
  intro cs
  induction cs with
  | nil =>
    intro e e1 hP h
    simp only [iterar, Option.some.injEq] at h
    rw [← h]; exact hP
  | cons c cs ih =>
    intro e e1 hP h
    cases hp : passo e c with
    | none => simp [iterar, hp] at h
    | some e0 =>
      simp only [iterar, hp] at h
      exact ih e0 e1 (hstep e c e0 hP hp) h

/-- Every iteration keeps the entries of the Lookup Table among the keys of the Clue
Index. -/
theorem passo_tabela_chaves (e e1 : Estado) (c : Nat)
    (hT : ∀ i, ∀ n ∈ e.tabelaHash i, n.pista ∈ exibirPistas e.bstPistas)
    (h : passo e c = some e1) :
    ∀ i, ∀ n ∈ e1.tabelaHash i, n.pista ∈ exibirPistas e1.bstPistas := by
  rcases passo_cases e e1 c h with ⟨_, rfl⟩ | ⟨caminho, e0, _, _, he0, rfl⟩
  · exact hT
  · obtain ⟨_, hb, ht⟩ := processarEscolha_quadro e0 caminho c
    rw [hb, ht]
    rcases processarPista_cases e e0 caminho _ he0 with ⟨_, rfl⟩ | ⟨s, _, rfl⟩
    · exact hT
    · intro i n hn
      simp only [adicionarPista_eq_inserirPista, mem_exibirPistas_inserirPista]
      by_cases hi : i = indice (e.mapa.em caminho).pista
      · subst hi
        simp only [Function.update_same, List.mem_cons] at hn
        rcases hn with rfl | hn
        · exact Or.inl rfl
        · exact Or.inr (hT _ n hn)
      · simp only [Function.update_noteq hi] at hn
        exact Or.inr (hT i n hn)

/-- The three facts that every iteration keeps, together. -/
theorem passo_invariante (e e1 : Estado) (c : Nat)
    (hI : (∀ k, percorrerCadeia (e.tabelaHash (indice k)) k =
        if k ∈ exibirPistas e.bstPistas then getSuspeitoParaPista k else none) ∧
      (∀ k ∈ exibirPistas e.bstPistas, getSuspeitoParaPista k ≠ none) ∧
      (∀ i, ∀ n ∈ e.tabelaHash i, n.pista ∈ exibirPistas e.bstPistas))
    (h : passo e c = some e1) :
    (∀ k, percorrerCadeia (e1.tabelaHash (indice k)) k =
        if k ∈ exibirPistas e1.bstPistas then getSuspeitoParaPista k else none) ∧
      (∀ k ∈ exibirPistas e1.bstPistas, getSuspeitoParaPista k ≠ none) ∧
      (∀ i, ∀ n ∈ e1.tabelaHash i, n.pista ∈ exibirPistas e1.bstPistas) :=
  ⟨passo_coerente e e1 c hI.1 h, passo_chaves_com_suspeito e e1 c hI.2.1 h,
    passo_tabela_chaves e e1 c hI.2.2 h⟩

theorem inicio_invariante (mapa : Sala) :
    (∀ k, percorrerCadeia ((inicio mapa).tabelaHash (indice k)) k =
        if k ∈ exibirPistas (inicio mapa).bstPistas then getSuspeitoParaPista k else none) ∧
      (∀ k ∈ exibirPistas (inicio mapa).bstPistas, getSuspeitoParaPista k ≠ none) ∧
      (∀ i, ∀ n ∈ (inicio mapa).tabelaHash i,
        n.pista ∈ exibirPistas (inicio mapa).bstPistas) := by
  refine ⟨?_, ?_, ?_⟩
  · intro k
    simp [inicio, tabelaVazia, percorrerCadeia, exibirPistas]
  · intro k hk
    simp [inicio, exibirPistas] at hk
  · intro i n hn
    simp [inicio, tabelaVazia] at hn

/-- From the three facts: the keys of the index are the keys of the table, and the
lookup of a key of the index gives the suspect of `getSuspeitoParaPista`. -/
theorem coerencia (e : Estado)
    (hI : (∀ k, percorrerCadeia (e.tabelaHash (indice k)) k =
        if k ∈ exibirPistas e.bstPistas then getSuspeitoParaPista k else none) ∧
      (∀ k ∈ exibirPistas e.bstPistas, getSuspeitoParaPista k ≠ none) ∧
      (∀ i, ∀ n ∈ e.tabelaHash i, n.pista ∈ exibirPistas e.bstPistas)) :
    (∀ k, k ∈ exibirPistas e.bstPistas ↔ k ∈ chavesDaTabela e.tabelaHash) ∧
    (∀ k ∈ exibirPistas e.bstPistas, ∃ s,
      encontrarSuspeito e.tabelaHash k = some (some s) ∧
      getSuspeitoParaPista k = some s) := by
  obtain ⟨ha, hb, hc⟩ := hI
  have hfound : ∀ k ∈ exibirPistas e.bstPistas, ∃ s,
      percorrerCadeia (e.tabelaHash (indice k)) k = some s ∧
      getSuspeitoParaPista k = some s := by
    intro k hk
    have h1 := ha k
    rw [if_pos hk] at h1
    cases hg : getSuspeitoParaPista k with
    | none => exact absurd hg (hb k hk)
    | some s => exact ⟨s, by rw [h1, hg], rfl⟩
  constructor
  · intro k
    rw [mem_chavesDaTabela]
    constructor
    · intro hk
      obtain ⟨s, hs, _⟩ := hfound k hk
      have hsome : (percorrerCadeia (e.tabelaHash (indice k)) k).isSome := by
        rw [hs]; rfl
      exact ⟨indice k, (percorrerCadeia_isSome_iff _ _).mp hsome⟩
    · rintro ⟨i, n, hn, rfl⟩
      exact hc i n hn
  · intro k hk
    obtain ⟨s, hs, hg⟩ := hfound k hk
    exact ⟨s, by rw [encontrarSuspeito_eq, hs], hg⟩

end Mestre

/-- C25: in mestre.c, in every state that `explorarSalas` reaches from an empty Clue
Index and an empty Lookup Table (any Room Map, after any number of iterations with any
commands, and when the loop ends), the keys of the Clue Index are the keys stored in
the Lookup Table, and for every key `k` of the Clue Index `encontrarSuspeito(table, k)`
returns a suspect, the one that `getSuspeitoParaPista(k)` gives. -/
theorem indice_e_tabela (mapa : Sala) :
    (∀ (cs : List Nat), ∃ e, Mestre.iterar (Mestre.inicio mapa) cs = some e ∧
      (∀ k, k ∈ exibirPistas e.bstPistas ↔ k ∈ Mestre.chavesDaTabela e.tabelaHash) ∧
      (∀ k ∈ exibirPistas e.bstPistas, ∃ s,
        encontrarSuspeito e.tabelaHash k = some (some s) ∧
        getSuspeitoParaPista k = some s)) ∧
    (∀ (stdin : List Nat) (e : Mestre.Estado) (resto : List Nat),
      Mestre.explorarSalas (Mestre.inicio mapa) stdin = some (e, resto) →
      (∀ k, k ∈ exibirPistas e.bstPistas ↔ k ∈ Mestre.chavesDaTabela e.tabelaHash) ∧
      (∀ k ∈ exibirPistas e.bstPistas, ∃ s,
        encontrarSuspeito e.tabelaHash k = some (some s) ∧
        getSuspeitoParaPista k = some s)) := by
  constructor
  · intro cs
    obtain ⟨e, he⟩ := Mestre.iterar_isSome cs (Mestre.inicio mapa)
    exact ⟨e, he, Mestre.coerencia e
      (Mestre.iterar_inv _ (fun e c e1 hI hp => Mestre.passo_invariante e e1 c hI hp)
        cs (Mestre.inicio mapa) e (Mestre.inicio_invariante mapa) he)⟩
  · intro stdin e resto h
    exact Mestre.coerencia e
      (Mestre.explorarSalas_inv _ (fun e c e1 hI hp => Mestre.passo_invariante e e1 c hI hp)
        stdin (Mestre.inicio mapa) e resto (Mestre.inicio_invariante mapa) h)

/-- Witness of C25: on the map of `main` of mestre.c, after the commands `e`, `e`, `s`
the index and the table hold the same two keys. -/
theorem indice_e_tabela_witness :
    ∃ e, Mestre.explorarSalas (Mestre.inicio Mestre.hall)
        ['e'.toNat, 'e'.toNat, 's'.toNat] = some (e, []) ∧
      ((∀ k, k ∈ exibirPistas e.bstPistas ↔ k ∈ Mestre.chavesDaTabela e.tabelaHash) ∧
       (∀ k ∈ exibirPistas e.bstPistas, ∃ s,
         encontrarSuspeito e.tabelaHash k = some (some s) ∧
         getSuspeitoParaPista k = some s)) ∧
      exibirPistas e.bstPistas =
        [cstr "Um candelabro de prata polido, fora do lugar.",
         cstr "Uma faca de cozinha faltando no conjunto."] := by
  obtain ⟨r, hr⟩ := Option.isSome_iff_exists.mp
    (show (Mestre.explorarSalas (Mestre.inicio Mestre.hall)
      ['e'.toNat, 'e'.toNat, 's'.toNat]).isSome = true by decide)
  have hval : (Mestre.explorarSalas (Mestre.inicio Mestre.hall)
      ['e'.toNat, 'e'.toNat, 's'.toNat]).map (fun r => (exibirPistas r.1.bstPistas, r.2)) =
      some ([cstr "Um candelabro de prata polido, fora do lugar.",
         cstr "Uma faca de cozinha faltando no conjunto."], []) := by decide
  obtain ⟨e, resto⟩ := r
  rw [hr] at hval
  simp only [Option.map_some', Option.some.injEq, Prod.mk.injEq] at hval
  obtain ⟨hlist, hresto⟩ := hval
  subst hresto
  exact ⟨e, hr, (indice_e_tabela Mestre.hall).2 _ e [] hr, hlist⟩

/-! ## The map of `main` of mestre.c never gives two clues against one suspect -/

namespace Mestre

/-- The rooms in which the loop runs are rooms of the map, each on the way down to the
next ones. -/
theorem percurso_cadeia :
    ∀ (stdin : List Nat) (e : Estado),
      (percurso e stdin).Pairwise (fun p q => p <+: q) ∧
      ∀ q ∈ percurso e stdin, e.mapa.em q ≠ .null := by
  intro stdin
  induction stdin with
  | nil => intro e; simp [percurso]
  | cons c cs ih =>
    intro e
    cases hs : e.salaAtual with
    | none => simp [percurso, hs]
    | some caminho =>
      cases hm : e.mapa.em caminho with
      | null => simp [percurso, hs, hm]
      | node nome pista esq dir =>
        have hnn : e.mapa.em caminho ≠ .null := by rw [hm]; exact fun h => Sala.noConfusion h
        simp only [percurso, hs, hm]
        split_ifs with hsp
        · exact ih e
        · cases hp : passo e c with
          | none => simp
          | some e2 =>
            simp only
            obtain ⟨ihP, ihS⟩ := ih e2
            have hpre : ∀ q ∈ percurso e2 cs, caminho <+: q := by
              intro q hq
              obtain ⟨p, hp2, hpq⟩ := percurso_prefixo cs e2 q hq
              exact (passo_prefixo e e2 c caminho p hp hs hp2).trans hpq
            refine ⟨List.pairwise_cons.mpr ⟨hpre, ihP⟩, ?_⟩
            intro q hq
            rcases List.mem_cons.mp hq with rfl | hq
            · exact hnn
            · have h2 := ihS q hq
              rcases passo_coleta e e2 c caminho hs hnn hp with
                ⟨_, _, hmapa⟩ | ⟨s, _, _, hmapa⟩
              · rwa [hmapa] at h2
              · rw [hmapa] at h2
                obtain ⟨r, rfl⟩ := hpre q hq
                cases r with
                | nil => simpa using hnn
                | cons dr r => rwa [Sala.limparPista_em_abaixo] at h2

theorem salas_do_hall (p : List Direcao) (h : hall.em p ≠ .null) :
    p ∈ [[], [.esquerda], [.direita], [.esquerda, .esquerda], [.direita, .esquerda],
      [.direita, .direita]] := by
  rcases p with _ | ⟨x, _ | ⟨y, _ | ⟨z, r⟩⟩⟩
  · simp
  · cases x <;> simp
  · cases x <;> cases y <;> first | exact absurd (by decide) h | simp
  · cases x <;> cases y <;> cases z <;>
      exact absurd (by simp [hall, salaDeJantar, biblioteca, cozinha, escritorio,
        jardimSecreto, criarSala, Sala.em, Sala.em_null]) h

theorem pistas_do_hall :
    ∀ p ∈ [[], [Direcao.esquerda], [.direita], [.esquerda, .esquerda],
        [.direita, .esquerda], [.direita, .direita]],
      ∀ q ∈ [[], [Direcao.esquerda], [.direita], [.esquerda, .esquerda],
        [.direita, .esquerda], [.direita, .direita]],
      (p <+: q ∨ q <+: p) →
      getSuspeitoParaPista (hall.em p).pista ≠ none →
      getSuspeitoParaPista (hall.em p).pista = getSuspeitoParaPista (hall.em q).pista →
      (hall.em p).pista = (hall.em q).pista := by
  decide

end Mestre

namespace Mestre

/-- On the map of `main`, the rooms in which the loop runs carry at most one clue of any
given suspect. -/
theorem pistasVisitadas_hall (stdin : List Nat) (s : CStr) :
    ((pistasVisitadas hall stdin).filter
      (fun k => decide (getSuspeitoParaPista k = some s))).toFinset.card ≤ 1 := by
  rw [Finset.card_le_one]
  intro a ha b hb
  simp only [List.mem_toFinset, List.mem_filter, decide_eq_true_eq, pistasVisitadas,
    List.mem_map] at ha hb
  obtain ⟨⟨p, hp, rfl⟩, hga⟩ := ha
  obtain ⟨⟨q, hq, rfl⟩, hgb⟩ := hb
  obtain ⟨hchain, hsalas⟩ := percurso_cadeia stdin (inicio hall)
  by_cases hpq : p = q
  · rw [hpq]
  · have hsym : (percurso (inicio hall) stdin).Pairwise (fun p q => p <+: q ∨ q <+: p) :=
      hchain.imp (fun h => Or.inl h)
    have hcomp : p <+: q ∨ q <+: p :=
      hsym.forall (fun _ _ h => h.symm) hp hq hpq
    exact pistas_do_hall p (salas_do_hall p (hsalas p hp)) q (salas_do_hall q (hsalas q hq))
      hcomp (by rw [hga]; exact fun h => Option.noConfusion h) (by rw [hga, hgb])

theorem main_nunca_desvenda (stdin : List Nat) (acusado : CStr) (n : Nat)
    (resto : List Nat) : main stdin ≠ some (.desvendado acusado n, resto) := by
  unfold main
  cases hx : explorarSalas estadoInicial stdin with
  | none => exact fun h => Option.noConfusion h
  | some r =>
    obtain ⟨e, sobra⟩ := r
    simp only
    cases hb : e.bstPistas with
    | null =>
      simp [verificarSuspeitoFinal]
    | node p l d =>
      cases hl : lerAcusado sobra with
      | none => simp [verificarSuspeitoFinal, hl]
      | some w =>
        obtain ⟨ac, r2⟩ := w
        have hc := contagem_explorarSalas hall stdin e sobra hx ac
        rw [hb] at hc
        rw [verificarSuspeitoFinal_node p l d e.tabelaHash sobra ac r2 _ hl hc]
        have hle := pistasVisitadas_hall stdin ac
        rw [if_neg (by omega)]
        simp

end Mestre

/-- C24: on the map and the clue-to-suspect association of mestre.c, for every input on
which the exploration ends and every accused name, the count that
`contarPistasParaSuspeito` computes on the structures that `explorarSalas` leaves is
at most 1; so no run of `main` reports the accusation upheld. -/
theorem no_maximo_uma_pista :
    (∀ (stdin : List Nat) (e : Mestre.Estado) (resto : List Nat) (acusado : CStr),
      Mestre.explorarSalas Mestre.estadoInicial stdin = some (e, resto) →
      ∃ n, contarPistasParaSuspeito e.bstPistas e.tabelaHash acusado = some n ∧ n ≤ 1) ∧
    (∀ (stdin : List Nat) (acusado : CStr) (n : Nat) (resto : List Nat),
      Mestre.main stdin ≠ some (.desvendado acusado n, resto)) := by
  constructor
  · intro stdin e resto acusado h
    exact ⟨_, Mestre.contagem_explorarSalas Mestre.hall stdin e resto h acusado,
      Mestre.pistasVisitadas_hall stdin acusado⟩
  · exact Mestre.main_nunca_desvenda

/-- Witness of C24: after the commands `d`, `e`, `s` (library, then study) the count for
"Mordomo" is 1 and the accusation of "Mordomo" that follows on the input fails. -/
theorem no_maximo_uma_pista_witness :
    (∃ e, Mestre.explorarSalas Mestre.estadoInicial
        (['d'.toNat, 'e'.toNat, 's'.toNat] ++ cstr "Mordomo") = some (e, cstr "Mordomo") ∧
      ∃ n, contarPistasParaSuspeito e.bstPistas e.tabelaHash (cstr "Mordomo") = some n ∧
        n ≤ 1) ∧
    Mestre.main (['d'.toNat, 'e'.toNat, 's'.toNat] ++ cstr "Mordomo") =
      some (.escapou (cstr "Mordomo") 1, []) := by
  obtain ⟨r, hr⟩ := Option.isSome_iff_exists.mp
    (show (Mestre.explorarSalas Mestre.estadoInicial
      (['d'.toNat, 'e'.toNat, 's'.toNat] ++ cstr "Mordomo")).isSome = true by decide)
  have hresto : (Mestre.explorarSalas Mestre.estadoInicial
      (['d'.toNat, 'e'.toNat, 's'.toNat] ++ cstr "Mordomo")).map Prod.snd =
      some (cstr "Mordomo") := by decide
  obtain ⟨e, resto⟩ := r
  rw [hr] at hresto
  simp only [Option.map_some', Option.some.injEq] at hresto
  subst hresto
  exact ⟨⟨e, hr, no_maximo_uma_pista.1 _ e _ (cstr "Mordomo") hr⟩, by decide⟩

/-! ## The clue of the start room in aventureiro.c -/

namespace Aventureiro

/-- When the exploration ends, the room in which it started is among the rooms in which
the loop ran. -/
theorem percurso_inicio :
    ∀ (stdin : List Nat) (e e1 : Estado) (resto : List Nat) (p : List Direcao),
      explorarSalasComPistas e stdin = some (e1, resto) → e.salaAtual = some p →
      e.mapa.em p ≠ .null → p ∈ percurso e stdin := by
  intro stdin
  induction stdin with
  | nil =>
    intro e e1 resto p h hs hnn
    cases hm : e.mapa.em p with
    | null => exact absurd hm hnn
    | node nome pista esq dir =>
      have hsala : e.sala = .node nome pista esq dir := by simp [Estado.sala, hs, hm]
      simp [explorarSalasComPistas, hsala] at h
  | cons c cs ih =>
    intro e e1 resto p h hs hnn
    cases hm : e.mapa.em p with
    | null => exact absurd hm hnn
    | node nome pista esq dir =>
      have hsala : e.sala = .node nome pista esq dir := by simp [Estado.sala, hs, hm]
      simp only [explorarSalasComPistas, hsala] at h
      simp only [percurso, hs, hm]
      split_ifs at h ⊢ with hsp
      · exact ih e e1 resto p h hs hnn
      · exact List.mem_cons_self _ _

end Aventureiro

/-- C26: in aventureiro.c on the map of `main`, the clue of the start room is inserted
in the first iteration before the command is read; so for every input on which the
exploration ends (the single command `s` included) the Clue Index at the end is not
empty and holds "Um jornal velho sobre a mesa, com a data de 1920.", and `main` never
reports that no clue was collected. -/
theorem pista_do_hall_coletada :
    (∀ c : Nat,
      Aventureiro.passo (Aventureiro.inicio Aventureiro.hall) c =
        Aventureiro.processarEscolha
          (Aventureiro.processarPista (Aventureiro.inicio Aventureiro.hall)
            (cstr "Um jornal velho sobre a mesa, com a data de 1920.")) [] c ∧
      (Aventureiro.processarPista (Aventureiro.inicio Aventureiro.hall)
          (cstr "Um jornal velho sobre a mesa, com a data de 1920.")).bstPistas =
        .node (cstr "Um jornal velho sobre a mesa, com a data de 1920.") .null .null) ∧
    (∀ (stdin : List Nat) (e : Aventureiro.Estado) (resto : List Nat),
      Aventureiro.explorarSalasComPistas (Aventureiro.inicio Aventureiro.hall) stdin =
        some (e, resto) →
      cstr "Um jornal velho sobre a mesa, com a data de 1920." ∈ exibirPistas e.bstPistas ∧
      e.bstPistas ≠ .null) ∧
    (∀ stdin : List Nat, Aventureiro.main stdin ≠ some .nenhumaPista) := by
  have hfinal : ∀ (stdin : List Nat) (e : Aventureiro.Estado) (resto : List Nat),
      Aventureiro.explorarSalasComPistas (Aventureiro.inicio Aventureiro.hall) stdin =
        some (e, resto) →
      cstr "Um jornal velho sobre a mesa, com a data de 1920." ∈ exibirPistas e.bstPistas ∧
      e.bstPistas ≠ .null := by
    intro stdin e resto h
    have hmem : cstr "Um jornal velho sobre a mesa, com a data de 1920." ∈
        exibirPistas e.bstPistas := by
      rw [Aventureiro.chaves_explorarSalasComPistas stdin _ e resto
        (fun hf => by simp [Aventureiro.inicio] at hf) h]
      exact Or.inr ⟨by decide, [],
        Aventureiro.percurso_inicio stdin _ e resto [] h rfl (by decide), by decide⟩
    refine ⟨hmem, ?_⟩
    intro hnull
    rw [hnull] at hmem
    simp [exibirPistas] at hmem
  refine ⟨fun c => ⟨rfl, rfl⟩, hfinal, ?_⟩
  intro stdin
  unfold Aventureiro.main
  cases hx : Aventureiro.explorarSalasComPistas (Aventureiro.inicio Aventureiro.hall)
      stdin with
  | none => exact fun h => Option.noConfusion h
  | some r =>
    obtain ⟨e, resto⟩ := r
    simp only
    cases hb : e.bstPistas with
    | null => exact absurd hb (hfinal stdin e resto hx).2
    | node p l d => simp

/-- Witness of C26: the single command `s`. -/
theorem pista_do_hall_coletada_witness :
    Aventureiro.explorarSalasComPistas (Aventureiro.inicio Aventureiro.hall) ['s'.toNat] =
      some ({ mapa := Aventureiro.hall, salaAtual := none,
              bstPistas :=
                .node (cstr "Um jornal velho sobre a mesa, com a data de 1920.") .null .null,
              pistaColetadaNestaSala := true }, []) ∧
    (cstr "Um jornal velho sobre a mesa, com a data de 1920." ∈
        exibirPistas
          (PistaNode.node (cstr "Um jornal velho sobre a mesa, com a data de 1920.")
            .null .null) ∧
      PistaNode.node (cstr "Um jornal velho sobre a mesa, com a data de 1920.")
        .null .null ≠ .null) ∧
    Aventureiro.main ['s'.toNat] =
      some (.pistas [cstr "Um jornal velho sobre a mesa, com a data de 1920."]) :=
  ⟨by decide,
   pista_do_hall_coletada.2.1 ['s'.toNat]
     { mapa := Aventureiro.hall, salaAtual := none,
       bstPistas :=
         .node (cstr "Um jornal velho sobre a mesa, com a data de 1920.") .null .null,
       pistaColetadaNestaSala := true } [] (by decide),
   by decide⟩

end DetectiveQuest
